import Mathlib

/-!
# Jacobi heat-equation solvers: a shallow embedding

The C programs of the repository (`heat_serial_local.c`, `heat_parallel.c`,
`heat_gpu_openacc.c`, `heat_vtk_small.c`, `heat_with_vtk.c`, and the local variants
`heat_vtk_local.c`, `heat_gpu_simulated.c`, `heat_parallel_simulated.c`, which repeat the
loop of `heat_serial_local.c`) are embedded as Lean functions.

Modelling conventions
* The compile-time constants `NX`, `NY`, `MAX_ITER`, `TOLERANCE` are parameters.
* A `double` is an exact rational number (`ℚ`): every arithmetic operation is the
  exact one, there is no rounding, no infinity and no NaN.  The definitions named
  `…_rounded` repeat the single-process solver with the rounding of every operation
  made explicit; there `round_double` is the rounding of IEEE 754 binary64.
* A C array is a total function from its indices to values; only the cells the
  source allocates are ever read or written by the embedded loops.
* Index arithmetic of the solvers is done in `ℕ`.  Every index expression of the
  sources is non-negative and at most `NX * NY` whenever `2 ≤ NY` and `1 ≤ size`,
  which is the range the definitions are meant for; the grid sizes are compile-time
  constants there, far from the limits of `int`.
* The function `write_vtk_file` of `heat_vtk_small.c` takes the grid size as run-time
  `int` arguments; its `int` product `nx * ny` is taken modulo `2^32` (`wrap_int`).
* A `for (k = lo; k < hi; k++)` loop is `forLoop lo hi body`, which runs the body
  for `k = lo, lo+1, …, hi-1` in this order on an explicit state.
* The OpenMP / OpenACC pragmas are dropped: the annotated loops are run
  sequentially.
* The MPI ranks run in lock step; a message is the value its sender holds when the
  matching `MPI_Send` executes.
* Of the text a program prints only the lines about the outcome of the solver loop are
  modelled; timings are not.
-/

namespace Heat

/-! ## Loops and arrays -/

/-- Body runs for `k = lo, lo+1, …, lo+n-1`, in this order. -/
def forCount {σ : Type} (lo : Nat) (body : Nat → σ → σ) : Nat → σ → σ
  | 0, s => s
  | n + 1, s => body (lo + n) (forCount lo body n s)

/-- The loop `for (k = lo; k < hi; k++) body`. -/
def forLoop {σ : Type} (lo hi : Nat) (body : Nat → σ → σ) (s : σ) : σ :=
  forCount lo body (hi - lo) s

/-- A two-dimensional array `double u[..][..]` (or `double **u`). -/
abbrev Grid := Nat → Nat → ℚ

/-- A one-dimensional buffer `double *u`. -/
abbrev Buffer := Nat → ℚ

/-- The assignment `u[i][j] = v`. -/
def setCell (u : Grid) (i j : Nat) (v : ℚ) : Grid :=
  fun a b => if a = i ∧ b = j then v else u a b

/-- The assignment `u[idx] = v`. -/
def setIdx (u : Buffer) (idx : Nat) (v : ℚ) : Buffer :=
  fun a => if a = idx then v else u a

/-! ## Row-wise domain decomposition (`heat_parallel.c` 29-35, `heat_gpu_openacc.c` 30-36) -/

/-- The value `local_ny = (NY - 2) / size`. -/
def local_ny (NY size : Nat) : Nat := (NY - 2) / size

/-- The value `start_y = rank * local_ny + 1`. -/
def start_y (NY size rank : Nat) : Nat := rank * local_ny NY size + 1

/-- The value `end_y = (rank == size - 1) ? (NY - 1) : (start_y + local_ny)`. -/
def end_y (NY size rank : Nat) : Nat :=
  if rank = size - 1 then NY - 1 else start_y NY size rank + local_ny NY size

/-- The value `actual_ny = end_y - start_y + 2`. -/
def actual_ny (NY size rank : Nat) : Nat :=
  end_y NY size rank - start_y NY size rank + 2

/-! ## Grid initialisation -/

/-- The initialisation loop nest of the single-process programs
(`heat_serial_local.c` 26-34, `heat_vtk_small.c` 54-62, `heat_with_vtk.c` 45-53);
`u` is the freshly allocated array. -/
def init_grid (NX NY : Nat) (u : Grid) : Grid :=
  forLoop 0 NX (fun i u =>
    forLoop 0 NY (fun j u =>
      let u := setCell u i j 0
      if i = 0 ∨ i = NX - 1 ∨ j = 0 ∨ j = NY - 1 then setCell u i j 100 else u) u) u

/-- The initialisation loop nest of one rank (`heat_parallel.c` 43-54); here
`global_j = start_y + j - 1`. -/
def init_local (NX NY start_y actual_ny : Nat) (u : Grid) : Grid :=
  forLoop 0 NX (fun i u =>
    forLoop 0 actual_ny (fun j u =>
      let global_j := start_y + j - 1
      let u := setCell u i j 0
      if i = 0 ∨ i = NX - 1 ∨ global_j = 0 ∨ global_j = NY - 1 then setCell u i j 100
      else u) u) u

/-! ## The stencil kernel -/

/-- The stencil loop nest (`heat_parallel.c` 75-88, `heat_serial_local.c` 38-49) on a
local array with `ny` columns.  The state of the loop is the array `u_new` and the
running `max_diff`, which starts at `0.0`; `u` is only read. -/
def stencil_pass (NX ny : Nat) (u u_new : Grid) : Grid × ℚ :=
  forLoop 1 (NX - 1) (fun i s =>
    forLoop 1 (ny - 1) (fun j s =>
      let u_new := setCell s.1 i j (0.25 * (u (i + 1) j + u (i - 1) j + u i (j + 1) + u i (j - 1)))
      let diff := |u_new i j - u i j|
      (u_new, if diff > s.2 then diff else s.2)) s) (u_new, 0)

/-- The copy-back loop nest `u[i][j] = u_new[i][j]` (`heat_parallel.c` 90-96,
`heat_serial_local.c` 51-56). -/
def copy_back (NX ny : Nat) (u u_new : Grid) : Grid :=
  forLoop 1 (NX - 1) (fun i u =>
    forLoop 1 (ny - 1) (fun j u => setCell u i j (u_new i j)) u) u

/-- The stencil loop nest of `heat_gpu_openacc.c` (80-94) on the flattened buffers,
with `idx = i * actual_ny + j`. -/
def stencil_pass_flat (NX ny : Nat) (u u_new : Buffer) : Buffer × ℚ :=
  forLoop 1 (NX - 1) (fun i s =>
    forLoop 1 (ny - 1) (fun j s =>
      let idx := i * ny + j
      let u_new := setIdx s.1 idx
        (0.25 * (u ((i + 1) * ny + j) + u ((i - 1) * ny + j)
                 + u (i * ny + j + 1) + u (i * ny + j - 1)))
      let diff := |u_new idx - u idx|
      (u_new, if diff > s.2 then diff else s.2)) s) (u_new, 0)

/-- The copy-back loop nest of `heat_gpu_openacc.c` (96-103). -/
def copy_back_flat (NX ny : Nat) (u u_new : Buffer) : Buffer :=
  forLoop 1 (NX - 1) (fun i u =>
    forLoop 1 (ny - 1) (fun j u =>
      let idx := i * ny + j
      setIdx u idx (u_new idx)) u) u

/-- The nested array stored row after row in one buffer: cell `(i, j)` of an array with
`ny` columns sits at index `i * ny + j`. -/
def flatten (ny : Nat) (u : Grid) : Buffer := fun idx => u (idx / ny) (idx % ny)

/-- The variables a solver carries from one iteration to the next. -/
structure SolverState where
  u : Grid
  u_new : Grid
  max_diff : ℚ

/-- One iteration body of the single-process solvers: stencil pass, then copy-back
(`heat_serial_local.c` 38-56). -/
def jacobi_iteration (NX NY : Nat) (s : SolverState) : SolverState :=
  let p := stencil_pass NX NY s.u s.u_new
  { u := copy_back NX NY s.u p.1, u_new := p.1, max_diff := p.2 }

/-! ## The solver loop -/

/-- How a solver loop was left: the final variables, the value of `iter` after the
loop, whether it was left through `break`, and how many times the body ran. -/
structure LoopExit (σ : Type) where
  state : σ
  iter : Nat
  converged : Bool
  passes : Nat

/-- The loop `for (; iter < MAX_ITER; iter++) { body; if (residual < TOLERANCE) break; }`
with `fuel = MAX_ITER - iter` iterations left; `passes` counts the executions of the
body. -/
def solver_loop_from {σ : Type} (TOLERANCE : ℚ) (body : σ → σ) (residual : σ → ℚ) :
    Nat → Nat → Nat → σ → LoopExit σ
  | 0, iter, passes, s => { state := s, iter := iter, converged := false, passes := passes }
  | fuel + 1, iter, passes, s =>
    let s' := body s
    if residual s' < TOLERANCE then
      { state := s', iter := iter, converged := true, passes := passes + 1 }
    else solver_loop_from TOLERANCE body residual fuel (iter + 1) (passes + 1) s'

/-- The loop `for (iter = 0; iter < MAX_ITER; iter++) { body; if (residual < TOLERANCE)
break; }` (`heat_serial_local.c` 37-63, `heat_parallel.c` 57-108). -/
def solver_loop {σ : Type} (MAX_ITER : Nat) (TOLERANCE : ℚ) (body : σ → σ)
    (residual : σ → ℚ) (s : σ) : LoopExit σ :=
  solver_loop_from TOLERANCE body residual MAX_ITER 0 0 s

/-- The variables of a single-process solver when its loop starts; `mem` is the
indeterminate content of the variables before the program assigns them. -/
def serial_start (NX NY : Nat) (mem : SolverState) : SolverState :=
  { u := init_grid NX NY mem.u, u_new := mem.u_new, max_diff := mem.max_diff }

/-- The single-process solver (`heat_serial_local.c` 26-63, and the same code in
`heat_vtk_small.c`, `heat_with_vtk.c`): initialisation, then the solver loop that tests
`max_diff`. -/
def heat_serial (NX NY MAX_ITER : Nat) (TOLERANCE : ℚ) (mem : SolverState) :
    LoopExit SolverState :=
  solver_loop MAX_ITER TOLERANCE (jacobi_iteration NX NY) (fun s => s.max_diff)
    (serial_start NX NY mem)

/-! ## The distributed solver (`heat_parallel.c`) -/

/-- The variables of all ranks: rank `r` holds `w r`. -/
abbrev World := Nat → SolverState

/-- Every rank runs the initialisation loop nest on its local array. -/
def init_world (NX NY size : Nat) (mem : World) : World := fun rank =>
  { u := init_local NX NY (start_y NY size rank) (actual_ny NY size rank) (mem rank).u
    u_new := (mem rank).u_new
    max_diff := (mem rank).max_diff }

/-- The array `u` of a rank when its block `if (rank > 0) { … }` (`heat_parallel.c`
59-65) is done.  Rank `0` skips the block.  Rank `r + 1` receives into `u[i][0]`, for
`i = 0 .. NX-1`, the `i`-th message that rank `r` sends with tag 1, which is the cell
`u[i][last_row]`, `last_row = actual_ny - 2`, that rank `r` holds after its own block
`if (rank > 0)`: the receives of rank `r` that come between write row `actual_ny - 1`. -/
def halo_top_block (NX NY size : Nat) (w : World) : Nat → Grid
  | 0 => (w 0).u
  | r + 1 =>
    forLoop 0 NX (fun i u =>
      setCell u i 0 (halo_top_block NX NY size w r i (actual_ny NY size r - 2))) (w (r + 1)).u

/-- The array `u` of a rank after the halo exchange (`heat_parallel.c` 58-73).  In the
block `if (rank < size - 1)` the rank receives into `u[i][actual_ny-1]` the `i`-th message
that rank `rank + 1` sends with tag 0, which is the cell `u[i][1]` of that rank: it sends
in the first statement of its iteration and its receives before that write row `0`. -/
def halo_exchange (NX NY size : Nat) (w : World) (rank : Nat) : Grid :=
  if rank < size - 1 then
    forLoop 0 NX (fun i u =>
      setCell u i (actual_ny NY size rank - 1) ((w (rank + 1)).u i 1))
      (halo_top_block NX NY size w rank)
  else halo_top_block NX NY size w rank

/-- One iteration of all ranks up to the reduction: halo exchange, stencil pass and
copy-back on the local array with `actual_ny` columns (`heat_parallel.c` 58-96). -/
def parallel_iteration (NX NY size : Nat) (w : World) : World := fun rank =>
  let u := halo_exchange NX NY size w rank
  let p := stencil_pass NX (actual_ny NY size rank) u (w rank).u_new
  { u := copy_back NX (actual_ny NY size rank) u p.1, u_new := p.1, max_diff := p.2 }

/-- The call `MPI_Allreduce(&max_diff, &global_max_diff, 1, MPI_DOUBLE, MPI_MAX,
MPI_COMM_WORLD)`: the value placed in `global_max_diff` of `rank`, when rank `r`
contributes `sendbuf r`.  The contributions of ranks `0 .. size-1` are combined with
`max`. -/
def MPI_Allreduce_MAX (size : Nat) (sendbuf : Nat → ℚ) (_rank : Nat) : ℚ :=
  forLoop 1 size (fun r m => max m (sendbuf r)) (sendbuf 0)

/-- The value `global_max_diff` that `rank` tests after an iteration. -/
def global_max_diff (size : Nat) (w : World) (rank : Nat) : ℚ :=
  MPI_Allreduce_MAX size (fun r => (w r).max_diff) rank

/-- The distributed solver as run by `rank` (`heat_parallel.c` 29-108): the ranks
initialise their arrays, then iterate in lock step; `rank` leaves its loop when the
`global_max_diff` it received is below `TOLERANCE`. -/
def heat_parallel (NX NY size MAX_ITER : Nat) (TOLERANCE : ℚ) (mem : World) (rank : Nat) :
    LoopExit World :=
  solver_loop MAX_ITER TOLERANCE (parallel_iteration NX NY size)
    (fun w => global_max_diff size w rank) (init_world NX NY size mem)

/-! ## The VTK writer (`heat_vtk_small.c` 10-38, `heat_with_vtk.c` 10-38) -/

/-- The value of an `int` expression whose mathematical value is `n`: the 32-bit
two's-complement representative. -/
def wrap_int (n : Int) : Int := (n + 2147483648) % 4294967296 - 2147483648

/-- The conversion `%d` of an `int`. -/
def fmt_d (n : Int) : String := toString n

/-- The conversion `%f` of a `double`: the decimal numeral with six digits after the
point nearest to the value (ties to even), with a leading `-` for a negative value. -/
def fmt_f (x : ℚ) : String :=
  let n := x.num.natAbs * 1000000
  let q := n / x.den
  let r := n % x.den
  let m := if 2 * r > x.den ∨ (2 * r = x.den ∧ q % 2 = 1) then q + 1 else q
  let frac := Nat.repr (m % 1000000)
  (if x < 0 then "-" else "") ++ Nat.repr (m / 1000000) ++ "."
    ++ String.mk (List.replicate (6 - frac.length) '0') ++ frac

/-- The ten header lines, one per `fprintf` call (`heat_vtk_small.c` 17-27); the line
`POINT_DATA` prints the `int` product `nx * ny`. -/
def vtk_header (nx ny : Nat) : List String :=
  ["# vtk DataFile Version 2.0",
   "2D Heat Equation Data",
   "ASCII",
   "DATASET STRUCTURED_POINTS",
   "DIMENSIONS " ++ fmt_d nx ++ " " ++ fmt_d ny ++ " 1",
   "ORIGIN 0 0 0",
   "SPACING 1 1 1",
   "POINT_DATA " ++ fmt_d (wrap_int (nx * ny)),
   "SCALARS temperature float 1",
   "LOOKUP_TABLE default"]

/-- The function `write_vtk_file(filename, u, nx, ny)`.  The result is the content of the
file as the list of its lines (every `fprintf` call writes one line and its newline), or
`none` when `fopen` fails; `nx`, `ny` are the non-negative `int` arguments. -/
def write_vtk_file (fopen_ok : Bool) (u : Grid) (nx ny : Nat) : Option (List String) :=
  if fopen_ok = false then none
  else
    some (forLoop 0 ny (fun j out =>
      forLoop 0 nx (fun i out => out ++ [fmt_f (u i j)]) out) (vtk_header nx ny))

/-! ## The accelerated solver (`heat_gpu_openacc.c`) -/

/-- The variables of one rank of `heat_gpu_openacc.c`: the arrays are flattened buffers.
The `acc update` directives copy `u` between host and device; host and device copies are
one buffer here. -/
structure FlatState where
  u : Buffer
  u_new : Buffer
  max_diff : ℚ

/-- The variables of all ranks of `heat_gpu_openacc.c`. -/
abbrev FlatWorld := Nat → FlatState

/-- The initialisation loop nest of one rank (`heat_gpu_openacc.c` 40-52), with
`idx = i * actual_ny + j`. -/
def init_local_flat (NX NY start_y actual_ny : Nat) (u : Buffer) : Buffer :=
  forLoop 0 NX (fun i u =>
    forLoop 0 actual_ny (fun j u =>
      let global_j := start_y + j - 1
      let idx := i * actual_ny + j
      let u := setIdx u idx 0
      if i = 0 ∨ i = NX - 1 ∨ global_j = 0 ∨ global_j = NY - 1 then setIdx u idx 100
      else u) u) u

/-- Every rank runs the initialisation loop nest on its local buffer. -/
def init_world_flat (NX NY size : Nat) (mem : FlatWorld) : FlatWorld := fun rank =>
  { u := init_local_flat NX NY (start_y NY size rank) (actual_ny NY size rank) (mem rank).u
    u_new := (mem rank).u_new
    max_diff := (mem rank).max_diff }

/-- The buffer `u` of a rank when its block `if (rank > 0) { … }` (`heat_gpu_openacc.c`
63-68) is done: rank `r + 1` receives into `u[i * actual_ny]` the cell
`u[i * actual_ny + last_row]` of rank `r` (messages are matched as in `halo_top_block`). -/
def halo_top_block_flat (NX NY size : Nat) (w : FlatWorld) : Nat → Buffer
  | 0 => (w 0).u
  | r + 1 =>
    forLoop 0 NX (fun i u =>
      setIdx u (i * actual_ny NY size (r + 1))
        (halo_top_block_flat NX NY size w r
          (i * actual_ny NY size r + (actual_ny NY size r - 2)))) (w (r + 1)).u

/-- The buffer `u` of a rank after the halo exchange (`heat_gpu_openacc.c` 62-75): in the
block `if (rank < size - 1)` it receives into `u[i * actual_ny + actual_ny - 1]` the cell
`u[i * actual_ny + 1]` of rank `rank + 1`. -/
def halo_exchange_flat (NX NY size : Nat) (w : FlatWorld) (rank : Nat) : Buffer :=
  if rank < size - 1 then
    forLoop 0 NX (fun i u =>
      setIdx u (i * actual_ny NY size rank + actual_ny NY size rank - 1)
        ((w (rank + 1)).u (i * actual_ny NY size (rank + 1) + 1)))
      (halo_top_block_flat NX NY size w rank)
  else halo_top_block_flat NX NY size w rank

/-- One iteration of all ranks of `heat_gpu_openacc.c` up to the reduction (62-103). -/
def gpu_iteration (NX NY size : Nat) (w : FlatWorld) : FlatWorld := fun rank =>
  let u := halo_exchange_flat NX NY size w rank
  let p := stencil_pass_flat NX (actual_ny NY size rank) u (w rank).u_new
  { u := copy_back_flat NX (actual_ny NY size rank) u p.1, u_new := p.1, max_diff := p.2 }

/-- The value `global_max_diff` that `rank` tests after an iteration of
`heat_gpu_openacc.c` (105-106). -/
def global_max_diff_flat (size : Nat) (w : FlatWorld) (rank : Nat) : ℚ :=
  MPI_Allreduce_MAX size (fun r => (w r).max_diff) rank

/-- The accelerated distributed solver as run by `rank` (`heat_gpu_openacc.c` 30-115). -/
def heat_gpu_openacc (NX NY size MAX_ITER : Nat) (TOLERANCE : ℚ) (mem : FlatWorld)
    (rank : Nat) : LoopExit FlatWorld :=
  solver_loop MAX_ITER TOLERANCE (gpu_iteration NX NY size)
    (fun w => global_max_diff_flat size w rank) (init_world_flat NX NY size mem)

/-! ## What the programs print about the outcome of the solver loop

Only the lines about the outcome are modelled: the `printf` in the `break` branch and
the check of `iter == MAX_ITER` after the loop, where a program has one.  Banners,
progress lines and timings are left out. -/

/-- Outcome lines of rank `rank` of `heat_parallel.c` (101-107): rank `0` prints the loop
index `iter` in the `break` branch; no statement after the loop looks at `iter`. -/
def heat_parallel_outcome (NX NY size MAX_ITER : Nat) (TOLERANCE : ℚ) (mem : World)
    (rank : Nat) : List String :=
  let r := heat_parallel NX NY size MAX_ITER TOLERANCE mem rank
  if r.converged = true ∧ rank = 0 then
    ["Converged after " ++ fmt_d r.iter ++ " iterations."]
  else []

/-- Outcome lines of rank `rank` of `heat_gpu_openacc.c` (108-114). -/
def heat_gpu_openacc_outcome (NX NY size MAX_ITER : Nat) (TOLERANCE : ℚ) (mem : FlatWorld)
    (rank : Nat) : List String :=
  let r := heat_gpu_openacc NX NY size MAX_ITER TOLERANCE mem rank
  if r.converged = true ∧ rank = 0 then
    ["GPU: Converged after " ++ fmt_d r.iter ++ " iterations."]
  else []

/-- Outcome lines of `heat_with_vtk.c` (77-81): the loop index `iter` in the `break`
branch; no statement after the loop looks at `iter`. -/
def heat_with_vtk_outcome (NX NY MAX_ITER : Nat) (TOLERANCE : ℚ) (mem : SolverState) :
    List String :=
  let r := heat_serial NX NY MAX_ITER TOLERANCE mem
  if r.converged = true then ["Converged after " ++ fmt_d r.iter ++ " iterations."] else []

/-- Outcome lines of `heat_vtk_small.c` (93-102): the loop index `iter` in the `break`
branch, and a line after the loop when `iter == MAX_ITER`. -/
def heat_vtk_small_outcome (NX NY MAX_ITER : Nat) (TOLERANCE : ℚ) (mem : SolverState) :
    List String :=
  let r := heat_serial NX NY MAX_ITER TOLERANCE mem
  (if r.converged = true then ["Converged after " ++ fmt_d r.iter ++ " iterations."] else [])
    ++ (if r.iter = MAX_ITER then
          ["Reached maximum iterations (" ++ fmt_d MAX_ITER ++ ") without full convergence."]
        else [])

/-- Outcome lines of `heat_serial_local.c` (58-67); `heat_vtk_local.c` (88-97),
`heat_gpu_simulated.c` (58-66) and `heat_parallel_simulated.c` (62-70) have the same
statements around the same loop: `iter + 1` in the `break` branch, and a line after the
loop when `iter == MAX_ITER`. -/
def heat_serial_local_outcome (NX NY MAX_ITER : Nat) (TOLERANCE : ℚ) (mem : SolverState) :
    List String :=
  let r := heat_serial NX NY MAX_ITER TOLERANCE mem
  (if r.converged = true then
      ["Converged after " ++ fmt_d (r.iter + 1) ++ " iterations."]
    else [])
    ++ (if r.iter = MAX_ITER then
          ["Maximum iterations (" ++ fmt_d MAX_ITER ++ ") reached without convergence."]
        else [])

/-! ## Specification vocabulary -/

/-- The five-point average of the four neighbours of cell `(i, j)`. -/
def stencil (u : Grid) (i j : Nat) : ℚ :=
  0.25 * (u (i + 1) j + u (i - 1) j + u i (j + 1) + u i (j - 1))

/-- The cells the stencil loop nest visits on an array with `NX` rows and `ny` columns. -/
def Interior (NX ny i j : Nat) : Prop := 1 ≤ i ∧ i ≤ NX - 2 ∧ 1 ≤ j ∧ j ≤ ny - 2

instance (NX ny i j : Nat) : Decidable (Interior NX ny i j) := by
  unfold Interior; infer_instance

/-- The value `m` is the larger of `m0` and the greatest `d i j` over the cells with
`P i j`. -/
def IsMaxFrom (m0 : ℚ) (P : Nat → Nat → Prop) (d : Nat → Nat → ℚ) (m : ℚ) : Prop :=
  m0 ≤ m ∧ (∀ i j, P i j → d i j ≤ m) ∧ (m = m0 ∨ ∃ i j, P i j ∧ m = d i j)

/-- The buffer `f` holds the `NX × ny` array `g` row after row. -/
def Flat (NX ny : Nat) (f : Buffer) (g : Grid) : Prop :=
  ∀ i j, i < NX → j < ny → f (i * ny + j) = g i j

/-- The variables of a single-process solver after `k` iterations of its loop body. -/
def serial_after (NX NY : Nat) (mem : SolverState) (k : Nat) : SolverState :=
  (jacobi_iteration NX NY)^[k] (serial_start NX NY mem)

/-- The variables of all ranks after `k` iterations of the distributed loop body. -/
def world_after (NX NY size : Nat) (mem : World) (k : Nat) : World :=
  (parallel_iteration NX NY size)^[k] (init_world NX NY size mem)

/-- The cell lies on the physical boundary of the `NX × NY` grid. -/
def OnBoundary (NX NY i g : Nat) : Prop := i = 0 ∨ i = NX - 1 ∨ g = 0 ∨ g = NY - 1

instance (NX NY i g : Nat) : Decidable (OnBoundary NX NY i g) := by
  unfold OnBoundary; infer_instance

/-- Local row `j` of `rank` is a halo row: a copy of a row that a neighbour owns. -/
def IsHalo (NY size rank j : Nat) : Prop :=
  (j = 0 ∧ 0 < rank) ∨ (j = actual_ny NY size rank - 1 ∧ rank < size - 1)

instance (NY size rank j : Nat) : Decidable (IsHalo NY size rank j) := by
  unfold IsHalo; infer_instance

/-- A memory content to run the programs on: all variables hold zero. -/
def zero_mem : SolverState := { u := fun _ _ => 0, u_new := fun _ _ => 0, max_diff := 0 }

/-- The memory content of all ranks: all variables hold zero. -/
def zero_world : World := fun _ => zero_mem

/-! ## Auxiliary quantities for the `10 × 10` run -/

/-- A positive profile on the interior indices `1 .. 8` that vanishes outside, close to
`sin (π i / 9)`: averaging its two neighbours shrinks it by the factor `19/20`. -/
def weight1 (i : Nat) : ℚ :=
  match i with
  | 1 => 34 | 2 => 64 | 3 => 87 | 4 => 99 | 5 => 99 | 6 => 87 | 7 => 64 | 8 => 34
  | _ => 0

/-- The product weight on the `10 × 10` grid. -/
def weight (i j : Nat) : ℚ := weight1 i * weight1 j

/-- The distance of the field from the boundary value after `k` iterations. -/
def err (mem : SolverState) (k : Nat) : Grid :=
  fun i j => 100 - (serial_after 10 10 mem k).u i j

/-- The change of the field in pass `k + 1`. -/
def res (mem : SolverState) (k : Nat) : Grid :=
  fun i j => (serial_after 10 10 mem (k + 1)).u i j - (serial_after 10 10 mem k).u i j

/-- The variables of all ranks of `heat_gpu_openacc.c` after `k` iterations of the loop
body. -/
def flat_world_after (NX NY size : Nat) (mem : FlatWorld) (k : Nat) : FlatWorld :=
  (gpu_iteration NX NY size)^[k] (init_world_flat NX NY size mem)

/-- The nested arrays that the buffers of a flat memory content hold row after row. -/
def unflatten_world (NY size : Nat) (mem : FlatWorld) : World := fun rank =>
  { u := fun i j => (mem rank).u (i * actual_ny NY size rank + j)
    u_new := fun i j => (mem rank).u_new (i * actual_ny NY size rank + j)
    max_diff := (mem rank).max_diff }

/-- The all-zero memory content of the ranks of `heat_gpu_openacc.c`. -/
def zero_flat_world : FlatWorld := fun _ => { u := fun _ => 0, u_new := fun _ => 0, max_diff := 0 }

/-- The change of cell `(i, j)` in pass `k + 1` of the single-process run. -/
def change (NX NY : Nat) (mem : SolverState) (k : Nat) : Grid :=
  fun i j => (serial_after NX NY mem (k + 1)).u i j - (serial_after NX NY mem k).u i j

/-- The parabola `i (499 - i)`, which vanishes on the boundary indices of the
`500 × 500` grid. -/
def parabola (i : Nat) : ℚ := (i : ℚ) * (499 - (i : ℚ))

/-- The states of `heat_gpu_openacc.c` and `heat_parallel.c` correspond: the buffers hold
the arrays row after row and the residuals are equal. -/
def FlatRel (NX NY size : Nat) (wf : FlatWorld) (w : World) : Prop :=
  ∀ r, Flat NX (actual_ny NY size r) (wf r).u (w r).u ∧
    Flat NX (actual_ny NY size r) (wf r).u_new (w r).u_new ∧
    (wf r).max_diff = (w r).max_diff

/-! ## The single-process solver with the rounding of `double` made explicit

The same loops as above, with the result of every arithmetic operation passed through a
rounding function `rnd`.  With `rnd = id` this is the exact arithmetic of the definitions
above; with `rnd = round_double` it is the arithmetic of a C `double` (IEEE 754 binary64,
round to nearest, ties to even).  The constants `0.0`, `0.25` and `100.0` are doubles;
`fabs` and the comparisons are exact. -/

/-- The largest `k` of `lo, …, lo + 2 ^ bits - 1` with `d * 2 ^ k ≤ n` (`lo` when there is
none), found bit by bit from the highest. -/
def search_exponent (n d : Nat) : Nat → Nat → Nat
  | 0, lo => lo
  | bits + 1, lo =>
    if d * 2 ^ (lo + 2 ^ bits) ≤ n then search_exponent n d bits (lo + 2 ^ bits)
    else search_exponent n d bits lo

/-- The integer nearest to `a / b`; a fraction half-way between two integers goes to the
even one. -/
def round_half_even (a b : Nat) : Nat :=
  let q := a / b
  let r := a % b
  if 2 * r < b then q else if b < 2 * r then q + 1 else if q % 2 = 0 then q else q + 1

/-- The `double` nearest to `x`, ties going to the even significand.  For `x = ± n / d` the
doubles around `x` are the multiples of `2 ^ (k - 1074)`, where `k` is the largest number
with `2 ^ (k - 1022) ≤ n / d`, or `0` in the subnormal range; a significand has 53 bits.
Values of magnitude `2 ^ 1024` and above, which C rounds to infinity, are out of the
range of this function. -/
def round_double (x : ℚ) : ℚ :=
  let n := x.num.natAbs
  let d := x.den
  let k := search_exponent (n * 2 ^ 1022) d 11 0
  let m := round_half_even (n * 2 ^ 1074) (d * 2 ^ k)
  mkRat (if x.num < 0 then -(m * 2 ^ k : Nat) else (m * 2 ^ k : Nat)) (2 ^ 1074)

/-- The stencil loop nest of `stencil_pass` (`heat_serial_local.c` 38-49) with rounding:
the sum `u[i+1][j] + u[i-1][j] + u[i][j+1] + u[i][j-1]` is evaluated from left to right,
as C does, and every addition, the product with `0.25` and the difference in
`fabs(u_new[i][j] - u[i][j])` are rounded. -/
def stencil_pass_rounded (rnd : ℚ → ℚ) (NX ny : Nat) (u u_new : Grid) : Grid × ℚ :=
  forLoop 1 (NX - 1) (fun i s =>
    forLoop 1 (ny - 1) (fun j s =>
      let u_new := setCell s.1 i j
        (rnd (0.25 * rnd (rnd (rnd (u (i + 1) j + u (i - 1) j) + u i (j + 1)) + u i (j - 1))))
      let diff := |rnd (u_new i j - u i j)|
      (u_new, if diff > s.2 then diff else s.2)) s) (u_new, 0)

/-- One iteration body of the single-process solvers with rounding: stencil pass, then
copy-back (`heat_serial_local.c` 38-56). -/
def jacobi_iteration_rounded (rnd : ℚ → ℚ) (NX NY : Nat) (s : SolverState) : SolverState :=
  let p := stencil_pass_rounded rnd NX NY s.u s.u_new
  { u := copy_back NX NY s.u p.1, u_new := p.1, max_diff := p.2 }

/-- The single-process solver with rounding (`heat_serial_local.c` 26-63, and the same
code in `heat_vtk_small.c`, `heat_with_vtk.c`). -/
def heat_serial_rounded (rnd : ℚ → ℚ) (NX NY MAX_ITER : Nat) (TOLERANCE : ℚ)
    (mem : SolverState) : LoopExit SolverState :=
  solver_loop MAX_ITER TOLERANCE (jacobi_iteration_rounded rnd NX NY) (fun s => s.max_diff)
    (serial_start NX NY mem)

/-- The value the stencil assigns to cell `(i, j)` with rounding. -/
def stencil_rounded (rnd : ℚ → ℚ) (u : Grid) (i j : Nat) : ℚ :=
  rnd (0.25 * rnd (rnd (rnd (u (i + 1) j + u (i - 1) j) + u i (j + 1)) + u i (j - 1)))

/-- The variables of a single-process solver with rounding after `k` iterations of its
loop body. -/
def serial_after_rounded (rnd : ℚ → ℚ) (NX NY : Nat) (mem : SolverState) (k : Nat) :
    SolverState :=
  (jacobi_iteration_rounded rnd NX NY)^[k] (serial_start NX NY mem)

/-! ## Tables of runs on small grids

A table lists the cells of an `NX × NY` array row by row; on tables a pass can be
evaluated cell by cell. -/

/-- The array a table stands for. -/
def grid_of (t : List (List ℚ)) : Grid := fun i j => (t.getD i []).getD j 0

/-- The table of the cells `u[i][j]`, `i < NX`, `j < NY`. -/
def tabulate (NX NY : Nat) (u : Grid) : List (List ℚ) :=
  (List.range NX).map fun i => (List.range NY).map fun j => u i j

/-- The table of the initial field: boundary `100`, interior `0`. -/
def table_init (NX NY : Nat) : List (List ℚ) :=
  tabulate NX NY (fun a b => if OnBoundary NX NY a b then 100 else 0)

/-- The table of the field after one more pass and copy-back. -/
def table_step (rnd : ℚ → ℚ) (NX NY : Nat) (t : List (List ℚ)) : List (List ℚ) :=
  tabulate NX NY (fun a b =>
    if Interior NX NY a b then stencil_rounded rnd (grid_of t) a b else grid_of t a b)

/-- The value `max_diff` of the pass that starts from the field of a table. -/
def table_residual (rnd : ℚ → ℚ) (NX NY : Nat) (t : List (List ℚ)) : ℚ :=
  (stencil_pass_rounded rnd NX NY (grid_of t) (grid_of t)).2

/-- The table `t` lists the cells of the `NX × NY` array `u`. -/
def Tabulated (NX NY : Nat) (u : Grid) (t : List (List ℚ)) : Prop :=
  ∀ i j, i < NX → j < NY → u i j = grid_of t i j

/-- The tables of a run, from the numerators of its interior cells in units of `2 ^ (-46)`;
the boundary cells hold `100`. -/
def double_tables (NX NY : Nat) (numerators : List (List (List Nat))) : List (List (List ℚ)) :=
  numerators.map fun t => tabulate NX NY fun a b =>
    if OnBoundary NX NY a b then 100 else mkRat ((t.getD (a - 1) []).getD (b - 1) 0) (2 ^ 46)

/-- The interior cells of the `4 × 6` field as computed in `double`, initially and after each of
the 43 passes of the run with `TOLERANCE = 1e-6`, in units of `2 ^ (-46)`. -/
def four_by_six_numerators : List (List (List Nat)) :=
  [
   [[0, 0, 0, 0],
    [0, 0, 0, 0]],
   [[3518437208883200, 1759218604441600, 1759218604441600, 3518437208883200],
    [3518437208883200, 1759218604441600, 1759218604441600, 3518437208883200]],
   [[4837851162214400, 3518437208883200, 3518437208883200, 4837851162214400],
    [4837851162214400, 3518437208883200, 3518437208883200, 4837851162214400]],
   [[5607509301657600, 4727899999436800, 4727899999436800, 5607509301657600],
    [5607509301657600, 4727899999436800, 4727899999436800, 5607509301657600]],
   [[6102289534156800, 5525045929574400, 5525045929574400, 6102289534156800],
    [6102289534156800, 5525045929574400, 5525045929574400, 6102289534156800]],
   [[6425271074816000, 6047313952768000, 6047313952768000, 6425271074816000],
    [6425271074816000, 6047313952768000, 6047313952768000, 6425271074816000]],
   [[6636583465779200, 6389193349529600, 6389193349529600, 6636583465779200],
    [6636583465779200, 6389193349529600, 6389193349529600, 6636583465779200]],
   [[6774881412710400, 6612961145651200, 6612961145651200, 6774881412710400],
    [6774881412710400, 6612961145651200, 6612961145651200, 6774881412710400]],
   [[6865397848473600, 6759419530444800, 6759419530444800, 6865397848473600],
    [6865397848473600, 6759419530444800, 6759419530444800, 6865397848473600]],
   [[6924641553612800, 6855277831782400, 6855277831782400, 6924641553612800],
    [6924641553612800, 6855277831782400, 6855277831782400, 6924641553612800]],
   [[6963417055232000, 6918017908736000, 6918017908736000, 6963417055232000],
    [6963417055232000, 6918017908736000, 6918017908736000, 6963417055232000]],
   [[6988795949875200, 6959081822617600, 6959081822617600, 6988795949875200],
    [6988795949875200, 6959081822617600, 6959081822617600, 6988795949875200]],
   [[7005406652006400, 6985958503219200, 6985958503219200, 7005406652006400],
    [7005406652006400, 6985958503219200, 6985958503219200, 7005406652006400]],
   [[7016278497689600, 7003549519052800, 7003549519052800, 7016278497689600],
    [7016278497689600, 7003549519052800, 7003549519052800, 7016278497689600]],
   [[7023394213068800, 7015062988390400, 7015062988390400, 7023394213068800],
    [7023394213068800, 7015062988390400, 7015062988390400, 7023394213068800]],
   [[7028051509248000, 7022598651904000, 7022598651904000, 7028051509248000],
    [7028051509248000, 7022598651904000, 7022598651904000, 7028051509248000]],
   [[7031099749171200, 7027530807705600, 7027530807705600, 7031099749171200],
    [7031099749171200, 7027530807705600, 7027530807705600, 7031099749171200]],
   [[7033094848102400, 7030758945587200, 7030758945587200, 7033094848102400],
    [7033094848102400, 7030758945587200, 7030758945587200, 7033094848102400]],
   [[7034400657305600, 7032871789260800, 7032871789260800, 7034400657305600],
    [7034400657305600, 7032871789260800, 7032871789260800, 7034400657305600]],
   [[7035255320524800, 7034254663398400, 7034254663398400, 7035255320524800],
    [7035255320524800, 7034254663398400, 7034254663398400, 7035255320524800]],
   [[7035814704864000, 7035159766272000, 7035159766272000, 7035814704864000],
    [7035814704864000, 7035159766272000, 7035159766272000, 7035814704864000]],
   [[7036180826667200, 7035752163793600, 7035752163793600, 7036180826667200],
    [7036180826667200, 7035752163793600, 7035752163793600, 7036180826667200]],
   [[7036420456498400, 7036139893005200, 7036139893005200, 7036420456498400],
    [7036420456498400, 7036139893005200, 7036139893005200, 7036420456498400]],
   [[7036577296259100, 7036393665068800, 7036393665068800, 7036577296259100],
    [7036577296259100, 7036393665068800, 7036393665068800, 7036577296259100]],
   [[7036679949215175, 7036559761040775, 7036559761040775, 7036679949215175],
    [7036679949215175, 7036559761040775, 7036559761040775, 7036679949215175]],
   [[7036747136447188, 7036668472265782, 7036668472265782, 7036747136447188],
    [7036747136447188, 7036668472265782, 7036668472265782, 7036747136447188]],
   [[7036791111061442, 7036739624686288, 7036739624686288, 7036791111061442],
    [7036791111061442, 7036739624686288, 7036739624686288, 7036791111061442]],
   [[7036819892820132, 7036786194550104, 7036786194550104, 7036819892820132],
    [7036819892820132, 7036786194550104, 7036786194550104, 7036819892820132]],
   [[7036838730725759, 7036816674921685, 7036816674921685, 7036838730725759],
    [7036838730725759, 7036816674921685, 7036816674921685, 7036838730725759]],
   [[7036851060295061, 7036836624583882, 7036836624583882, 7036851060295061],
    [7036851060295061, 7036836624583882, 7036836624583882, 7036851060295061]],
   [[7036859130102936, 7036849681807306, 7036849681807306, 7036859130102936],
    [7036859130102936, 7036849681807306, 7036849681807306, 7036859130102936]],
   [[7036864411860760, 7036858227870987, 7036858227870986, 7036864411860760],
    [7036864411860760, 7036858227870987, 7036858227870986, 7036864411860760]],
   [[7036867868816137, 7036863821342284, 7036863821342283, 7036867868816136],
    [7036867868816137, 7036863821342284, 7036863821342283, 7036867868816136]],
   [[7036870131422805, 7036867482316776, 7036867482316776, 7036870131422805],
    [7036870131422805, 7036867482316776, 7036867482316776, 7036870131422805]],
   [[7036871612318095, 7036869878455689, 7036869878455689, 7036871612318095],
    [7036871612318095, 7036869878455689, 7036869878455689, 7036871612318095]],
   [[7036872581576646, 7036871446748968, 7036871446748968, 7036872581576646],
    [7036872581576646, 7036871446748968, 7036871446748968, 7036872581576646]],
   [[7036873215964604, 7036872473210246, 7036872473210246, 7036873215964604],
    [7036873215964604, 7036872473210246, 7036872473210246, 7036873215964604]],
   [[7036873631176912, 7036873145037874, 7036873145037874, 7036873631176912],
    [7036873631176912, 7036873145037874, 7036873145037874, 7036873631176912]],
   [[7036873902936896, 7036873584754765, 7036873584754764, 7036873902936896],
    [7036873902936896, 7036873584754765, 7036873584754764, 7036873902936896]],
   [[7036874080806115, 7036873872553206, 7036873872553206, 7036874080806115],
    [7036874080806115, 7036873872553206, 7036873872553206, 7036874080806115]],
   [[7036874197223030, 7036874060919732, 7036874060919732, 7036874197223030],
    [7036874197223030, 7036874060919732, 7036874060919732, 7036874197223030]],
   [[7036874273418890, 7036874184207224, 7036874184207223, 7036874273418891],
    [7036874273418890, 7036874184207224, 7036874184207223, 7036874273418891]],
   [[7036874323289728, 7036874264899934, 7036874264899935, 7036874323289729],
    [7036874323289728, 7036874264899934, 7036874264899935, 7036874323289729]],
   [[7036874355930616, 7036874317713999, 7036874317714000, 7036874355930616],
    [7036874355930616, 7036874317713999, 7036874317714000, 7036874355930616]]]

/-- The `4 × 6` field as computed in `double`, initially and after each pass. -/
def four_by_six_tables : List (List (List ℚ)) := double_tables 4 6 four_by_six_numerators

/-- A cell of the `4 × 6` grid whose change is at least `1e-6` in each of the first 42
passes. -/
def four_by_six_cell (_k : Nat) : Nat × Nat := (1, 2)

/-- The interior cells of the `6 × 6` field as computed in `double`, initially and after each of
the 82 passes of the run with `TOLERANCE = 1e-6`, in units of `2 ^ (-46)`. -/
def six_by_six_numerators : List (List (List Nat)) :=
  [
   [[0, 0, 0, 0],
    [0, 0, 0, 0],
    [0, 0, 0, 0],
    [0, 0, 0, 0]],
   [[3518437208883200, 1759218604441600, 1759218604441600, 3518437208883200],
    [1759218604441600, 0, 0, 1759218604441600],
    [1759218604441600, 0, 0, 1759218604441600],
    [3518437208883200, 1759218604441600, 1759218604441600, 3518437208883200]],
   [[4398046511104000, 3078632557772800, 3078632557772800, 4398046511104000],
    [3078632557772800, 879609302220800, 879609302220800, 3078632557772800],
    [3078632557772800, 879609302220800, 879609302220800, 3078632557772800],
    [4398046511104000, 3078632557772800, 3078632557772800, 4398046511104000]],
   [[5057753487769600, 3848290697216000, 3848290697216000, 5057753487769600],
    [3848290697216000, 1979120929996800, 1979120929996800, 3848290697216000],
    [3848290697216000, 1979120929996800, 1979120929996800, 3848290697216000],
    [5057753487769600, 3848290697216000, 3848290697216000, 5057753487769600]],
   [[5442582557491200, 4480509883187200, 4480509883187200, 5442582557491200],
    [4480509883187200, 2913705813606400, 2913705813606400, 4480509883187200],
    [4480509883187200, 2913705813606400, 2913705813606400, 4480509883187200],
    [5442582557491200, 4480509883187200, 4480509883187200, 5442582557491200]],
   [[5758692150476800, 4968418168012800, 4968418168012800, 5758692150476800],
    [4968418168012800, 3697107848396800, 3697107848396800, 4968418168012800],
    [4968418168012800, 3697107848396800, 3697107848396800, 4968418168012800],
    [5758692150476800, 4968418168012800, 4968418168012800, 5758692150476800]],
   [[6002646292889600, 5365273146163200, 5365273146163200, 6002646292889600],
    [5365273146163200, 4332763008204800, 4332763008204800, 5365273146163200],
    [5365273146163200, 4332763008204800, 4332763008204800, 5365273146163200],
    [6002646292889600, 5365273146163200, 5365273146163200, 6002646292889600]],
   [[6201073781964800, 5684389216256000, 5684389216256000, 6201073781964800],
    [5684389216256000, 4849018077184000, 4849018077184000, 5684389216256000],
    [5684389216256000, 4849018077184000, 4849018077184000, 5684389216256000],
    [6201073781964800, 5684389216256000, 5684389216256000, 6201073781964800]],
   [[6360631817011200, 5942838873292800, 5942838873292800, 6360631817011200],
    [5942838873292800, 5266703646720000, 5266703646720000, 5942838873292800],
    [5942838873292800, 5266703646720000, 5266703646720000, 5942838873292800],
    [6360631817011200, 5942838873292800, 5942838873292800, 6360631817011200]],
   [[6489856645529600, 6151762188697600, 6151762188697600, 6489856645529600],
    [6151762188697600, 5604771260006400, 5604771260006400, 6151762188697600],
    [6151762188697600, 5604771260006400, 5604771260006400, 6151762188697600],
    [6489856645529600, 6151762188697600, 6151762188697600, 6489856645529600]],
   [[6594318303232000, 6320816128000000, 6320816128000000, 6594318303232000],
    [6320816128000000, 5878266724352000, 5878266724352000, 6320816128000000],
    [6320816128000000, 5878266724352000, 5878266724352000, 6320816128000000],
    [6594318303232000, 6320816128000000, 6320816128000000, 6594318303232000]],
   [[6678845272883200, 6457568893337600, 6457568893337600, 6678845272883200],
    [6457568893337600, 6099541426176000, 6099541426176000, 6457568893337600],
    [6457568893337600, 6099541426176000, 6099541426176000, 6457568893337600],
    [6678845272883200, 6457568893337600, 6457568893337600, 6678845272883200]],
   [[6747221655552000, 6568207502540800, 6568207502540800, 6747221655552000],
    [6568207502540800, 6278555159756800, 6278555159756800, 6568207502540800],
    [6568207502540800, 6278555159756800, 6278555159756800, 6568207502540800],
    [6747221655552000, 6568207502540800, 6568207502540800, 6747221655552000]],
   [[6802540960153600, 6657714683904000, 6657714683904000, 6802540960153600],
    [6657714683904000, 6423381331148800, 6423381331148800, 6657714683904000],
    [6657714683904000, 6423381331148800, 6423381331148800, 6657714683904000],
    [6802540960153600, 6657714683904000, 6657714683904000, 6802540960153600]],
   [[6847294550835200, 6730127848243200, 6730127848243200, 6847294550835200],
    [6730127848243200, 6540548007526400, 6540548007526400, 6730127848243200],
    [6730127848243200, 6540548007526400, 6540548007526400, 6730127848243200],
    [6847294550835200, 6730127848243200, 6730127848243200, 6847294550835200]],
   [[6883501133004800, 6788711206092800, 6788711206092800, 6883501133004800],
    [6788711206092800, 6635337927884800, 6635337927884800, 6788711206092800],
    [6788711206092800, 6635337927884800, 6635337927884800, 6788711206092800],
    [6883501133004800, 6788711206092800, 6788711206092800, 6883501133004800]],
   [[6912792811929600, 6836106171187200, 6836106171187200, 6912792811929600],
    [6836106171187200, 6712024566988800, 6712024566988800, 6836106171187200],
    [6836106171187200, 6712024566988800, 6712024566988800, 6836106171187200],
    [6912792811929600, 6836106171187200, 6836106171187200, 6912792811929600]],
   [[6936490294476800, 6874449491968000, 6874449491968000, 6936490294476800],
    [6874449491968000, 6774065369088000, 6774065369088000, 6874449491968000],
    [6874449491968000, 6774065369088000, 6774065369088000, 6874449491968000],
    [6936490294476800, 6874449491968000, 6874449491968000, 6936490294476800]],
   [[6955661954867200, 6905469893324800, 6905469893324800, 6955661954867200],
    [6905469893324800, 6824257430528000, 6824257430528000, 6905469893324800],
    [6905469893324800, 6824257430528000, 6824257430528000, 6905469893324800],
    [6955661954867200, 6905469893324800, 6905469893324800, 6955661954867200]],
   [[6971172155545600, 6930565924121600, 6930565924121600, 6971172155545600],
    [6930565924121600, 6864863661926400, 6864863661926400, 6930565924121600],
    [6930565924121600, 6864863661926400, 6864863661926400, 6930565924121600],
    [6971172155545600, 6930565924121600, 6930565924121600, 6971172155545600]],
   [[6983720170944000, 6950869039840000, 6950869039840000, 6983720170944000],
    [6950869039840000, 6897714793024000, 6897714793024000, 6950869039840000],
    [6950869039840000, 6897714793024000, 6897714793024000, 6950869039840000],
    [6983720170944000, 6950869039840000, 6950869039840000, 6983720170944000]],
   [[6993871728803200, 6967294605393600, 6967294605393600, 6993871728803200],
    [6967294605393600, 6924291916432000, 6924291916432000, 6967294605393600],
    [6967294605393600, 6924291916432000, 6924291916432000, 6967294605393600],
    [6993871728803200, 6967294605393600, 6967294605393600, 6993871728803200]],
   [[7002084511580000, 6980583167098800, 6980583167098800, 7002084511580000],
    [6980583167098800, 6945793260912800, 6945793260912800, 6980583167098800],
    [6980583167098800, 6945793260912800, 6945793260912800, 6980583167098800],
    [7002084511580000, 6980583167098800, 6980583167098800, 7002084511580000]],
   [[7008728792432600, 6991333839339500, 6991333839339500, 7008728792432600],
    [6991333839339500, 6963188214005800, 6963188214005800, 6991333839339500],
    [6991333839339500, 6963188214005800, 6963188214005800, 6991333839339500],
    [7008728792432600, 6991333839339500, 6991333839339500, 7008728792432600]],
   [[7014104128552950, 7000031315886075, 7000031315886075, 7014104128552950],
    [7000031315886075, 6977261026672650, 6977261026672650, 7000031315886075],
    [7000031315886075, 6977261026672650, 6977261026672650, 7000031315886075],
    [7014104128552950, 7000031315886075, 7000031315886075, 7014104128552950]],
   [[7018452866826238, 7007067722219518, 7007067722219519, 7018452866826238],
    [7007067722219518, 6988646171279363, 6988646171279362, 7007067722219518],
    [7007067722219518, 6988646171279363, 6988646171279362, 7007067722219518],
    [7018452866826238, 7007067722219518, 7007067722219519, 7018452866826238]],
   [[7021971069992959, 7012760294522880, 7012760294522880, 7021971069992960],
    [7012760294522880, 6997856946749440, 6997856946749441, 7012760294522880],
    [7012760294522880, 6997856946749440, 6997856946749441, 7012760294522880],
    [7021971069992959, 7012760294522880, 7012760294522880, 7021971069992960]],
   [[7024817356144640, 7017365682257920, 7017365682257920, 7024817356144640],
    [7017365682257920, 7005308620636160, 7005308620636160, 7017365682257920],
    [7017365682257920, 7005308620636160, 7005308620636160, 7017365682257920],
    [7024817356144640, 7017365682257920, 7017365682257920, 7024817356144640]],
   [[7027120050012160, 7021091519201280, 7021091519201280, 7027120050012160],
    [7021091519201280, 7011337151447040, 7011337151447040, 7021091519201280],
    [7021091519201280, 7011337151447040, 7011337151447040, 7021091519201280],
    [7027120050012160, 7021091519201280, 7021091519201280, 7027120050012160]],
   [[7028982968483840, 7024105784606720, 7024105784606720, 7028982968483840],
    [7024105784606720, 7016214335324160, 7016214335324160, 7024105784606720],
    [7024105784606720, 7016214335324160, 7016214335324160, 7024105784606720],
    [7028982968483840, 7024105784606720, 7024105784606720, 7028982968483840]],
   [[7030490101186560, 7026544376545280, 7026544376545280, 7030490101186560],
    [7026544376545280, 7020160059965440, 7020160059965440, 7026544376545280],
    [7026544376545280, 7020160059965440, 7020160059965440, 7026544376545280],
    [7030490101186560, 7026544376545280, 7026544376545280, 7030490101186560]],
   [[7031709397155840, 7028517238865920, 7028517238865920, 7031709397155840],
    [7028517238865920, 7023352218255360, 7023352218255360, 7028517238865920],
    [7028517238865920, 7023352218255360, 7023352218255360, 7028517238865920],
    [7031709397155840, 7028517238865920, 7028517238865920, 7031709397155840]],
   [[7032695828316160, 7030113318010880, 7030113318010880, 7032695828316160],
    [7030113318010880, 7025934728560640, 7025934728560640, 7030113318010880],
    [7030113318010880, 7025934728560640, 7025934728560640, 7030113318010880],
    [7032695828316160, 7030113318010880, 7030113318010880, 7032695828316160]],
   [[7033493867888640, 7031404573163520, 7031404573163520, 7033493867888640],
    [7031404573163520, 7028024023285760, 7028024023285760, 7031404573163520],
    [7031404573163520, 7028024023285760, 7028024023285760, 7031404573163520],
    [7033493867888640, 7031404573163520, 7031404573163520, 7033493867888640]],
   [[7034139495464960, 7032449220526080, 7032449220526080, 7034139495464960],
    [7032449220526080, 7029714298224640, 7029714298224640, 7032449220526080],
    [7032449220526080, 7029714298224640, 7029714298224640, 7032449220526080],
    [7034139495464960, 7032449220526080, 7032449220526080, 7034139495464960]],
   [[7034661819146240, 7033294357995520, 7033294357995520, 7034661819146240],
    [7033294357995520, 7031081759375360, 7031081759375360, 7033294357995520],
    [7033294357995520, 7031081759375360, 7031081759375360, 7033294357995520],
    [7034661819146240, 7033294357995520, 7033294357995520, 7034661819146240]],
   [[7035084387880960, 7033978088570880, 7033978088570880, 7035084387880960],
    [7033978088570880, 7032188058685440, 7032188058685440, 7033978088570880],
    [7033978088570880, 7032188058685440, 7032188058685440, 7033978088570880],
    [7035084387880960, 7033978088570880, 7033978088570880, 7035084387880960]],
   [[7035426253168640, 7034531238225920, 7034531238225920, 7035426253168640],
    [7034531238225920, 7033083073628160, 7033083073628160, 7034531238225920],
    [7034531238225920, 7033083073628160, 7033083073628160, 7034531238225920],
    [7035426253168640, 7034531238225920, 7034531238225920, 7035426253168640]],
   [[7035702827996160, 7034978745697280, 7034978745697280, 7035702827996160],
    [7034978745697280, 7033807155927040, 7033807155927040, 7034978745697280],
    [7034978745697280, 7033807155927040, 7033807155927040, 7034978745697280],
    [7035702827996160, 7034978745697280, 7034978745697280, 7035702827996160]],
   [[7035926581731840, 7035340786846720, 7035340786846720, 7035926581731840],
    [7035340786846720, 7034392950812160, 7034392950812160, 7035340786846720],
    [7035340786846720, 7034392950812160, 7034392950812160, 7035340786846720],
    [7035926581731840, 7035340786846720, 7035340786846720, 7035926581731840]],
   [[7036107602306560, 7035633684289280, 7035633684289280, 7036107602306560],
    [7035633684289280, 7034866868829440, 7034866868829440, 7035633684289280],
    [7035633684289280, 7034866868829440, 7034866868829440, 7035633684289280],
    [7036107602306560, 7035633684289280, 7035633684289280, 7036107602306560]],
   [[7036254051027840, 7035870643297920, 7035870643297920, 7036254051027840],
    [7035870643297920, 7035250276559360, 7035250276559360, 7035870643297920],
    [7035870643297920, 7035250276559360, 7035250276559360, 7035870643297920],
    [7036254051027840, 7035870643297920, 7035870643297920, 7036254051027840]],
   [[7036372530532160, 7036062347162880, 7036062347162880, 7036372530532160],
    [7036062347162880, 7035560459928640, 7035560459928640, 7036062347162880],
    [7036062347162880, 7035560459928640, 7035560459928640, 7036062347162880],
    [7036372530532160, 7036062347162880, 7036062347162880, 7036372530532160]],
   [[7036468382464640, 7036217438847520, 7036217438847520, 7036468382464640],
    [7036217438847520, 7035811403545760, 7035811403545760, 7036217438847520],
    [7036217438847520, 7035811403545760, 7035811403545760, 7036217438847520],
    [7036468382464640, 7036217438847520, 7036217438847520, 7036468382464640]],
   [[7036545928306960, 7036342910656080, 7036342910656080, 7036545928306960],
    [7036342910656080, 7036014421196640, 7036014421196640, 7036342910656080],
    [7036342910656080, 7036014421196640, 7036014421196640, 7036342910656080],
    [7036545928306960, 7036342910656080, 7036342910656080, 7036545928306960]],
   [[7036608664211240, 7036444419481520, 7036444419481520, 7036608664211240],
    [7036444419481520, 7036178665926360, 7036178665926360, 7036444419481520],
    [7036444419481520, 7036178665926360, 7036178665926360, 7036444419481520],
    [7036608664211240, 7036444419481520, 7036444419481520, 7036608664211240]],
   [[7036659418623960, 7036526541846380, 7036526541846380, 7036659418623960],
    [7036526541846380, 7036311542703940, 7036311542703940, 7036526541846380],
    [7036526541846380, 7036311542703940, 7036311542703940, 7036526541846380],
    [7036659418623960, 7036526541846380, 7036526541846380, 7036659418623960]],
   [[7036700479806390, 7036592980235170, 7036592980235170, 7036700479806390],
    [7036592980235170, 7036419042275160, 7036419042275160, 7036592980235170],
    [7036592980235170, 7036419042275160, 7036419042275160, 7036592980235170],
    [7036700479806390, 7036592980235170, 7036592980235170, 7036700479806390]],
   [[7036733699000785, 7036646730020780, 7036646730020780, 7036733699000784],
    [7036646730020780, 7036506011255164, 7036506011255165, 7036646730020780],
    [7036646730020780, 7036506011255164, 7036506011255165, 7036646730020780],
    [7036733699000785, 7036646730020780, 7036646730020780, 7036733699000784]],
   [[7036760573893590, 7036690214510782, 7036690214510782, 7036760573893590],
    [7036690214510782, 7036576370637972, 7036576370637972, 7036690214510782],
    [7036690214510782, 7036576370637972, 7036576370637972, 7036690214510782],
    [7036760573893590, 7036690214510782, 7036690214510782, 7036760573893590]],
   [[7036782316138591, 7036725394202186, 7036725394202186, 7036782316138592],
    [7036725394202186, 7036633292574378, 7036633292574377, 7036725394202186],
    [7036725394202186, 7036633292574378, 7036633292574377, 7036725394202186],
    [7036782316138591, 7036725394202186, 7036725394202186, 7036782316138592]],
   [[7036799905984293, 7036753855170389, 7036753855170388, 7036799905984292],
    [7036753855170388, 7036679343388282, 7036679343388282, 7036753855170388],
    [7036753855170388, 7036679343388282, 7036679343388282, 7036753855170388],
    [7036799905984293, 7036753855170389, 7036753855170388, 7036799905984292]],
   [[7036814136468394, 7036776880577341, 7036776880577341, 7036814136468394],
    [7036776880577340, 7036716599279335, 7036716599279334, 7036776880577340],
    [7036776880577340, 7036716599279335, 7036716599279334, 7036776880577340],
    [7036814136468394, 7036776880577341, 7036776880577341, 7036814136468394]],
   [[7036825649171870, 7036795508522868, 7036795508522867, 7036825649171870],
    [7036795508522867, 7036746739928337, 7036746739928338, 7036795508522868],
    [7036795508522867, 7036746739928337, 7036746739928338, 7036795508522868],
    [7036825649171870, 7036795508522868, 7036795508522867, 7036825649171870]],
   [[7036834963144634, 7036810578847368, 7036810578847369, 7036834963144634],
    [7036810578847368, 7036771124225603, 7036771124225602, 7036810578847368],
    [7036810578847368, 7036771124225603, 7036771124225602, 7036810578847368],
    [7036834963144634, 7036810578847368, 7036810578847369, 7036834963144634]],
   [[7036842498306884, 7036822770996002, 7036822770996001, 7036842498306884],
    [7036822770996001, 7036790851536486, 7036790851536486, 7036822770996000],
    [7036822770996001, 7036790851536486, 7036790851536486, 7036822770996000],
    [7036842498306884, 7036822770996002, 7036822770996001, 7036842498306884]],
   [[7036848594381200, 7036832634651443, 7036832634651442, 7036848594381200],
    [7036832634651442, 7036806811266244, 7036806811266244, 7036832634651442],
    [7036832634651442, 7036806811266244, 7036806811266244, 7036832634651442],
    [7036848594381200, 7036832634651443, 7036832634651442, 7036848594381200]],
   [[7036853526208921, 7036840614516322, 7036840614516322, 7036853526208920],
    [7036840614516322, 7036819722958844, 7036819722958843, 7036840614516321],
    [7036840614516322, 7036819722958844, 7036819722958843, 7036840614516321],
    [7036853526208921, 7036840614516322, 7036840614516322, 7036853526208920]],
   [[7036857516141361, 7036847070362622, 7036847070362622, 7036857516141360],
    [7036847070362622, 7036830168737582, 7036830168737582, 7036847070362621],
    [7036847070362622, 7036830168737582, 7036830168737582, 7036847070362621],
    [7036857516141361, 7036847070362622, 7036847070362622, 7036857516141360]],
   [[7036860744064511, 7036852293251991, 7036852293251992, 7036860744064510],
    [7036852293251992, 7036838619550102, 7036838619550102, 7036852293251990],
    [7036852293251992, 7036838619550102, 7036838619550102, 7036852293251990],
    [7036860744064511, 7036852293251991, 7036852293251992, 7036860744064510]],
   [[7036863355509196, 7036856518658252, 7036856518658251, 7036863355509196],
    [7036856518658252, 7036845456401046, 7036845456401046, 7036856518658250],
    [7036856518658252, 7036845456401046, 7036845456401046, 7036856518658250],
    [7036863355509196, 7036856518658252, 7036856518658251, 7036863355509196]],
   [[7036865468212326, 7036859937083723, 7036859937083723, 7036865468212325],
    [7036859937083724, 7036850987529649, 7036850987529648, 7036859937083724],
    [7036859937083724, 7036850987529649, 7036850987529648, 7036859937083724],
    [7036865468212326, 7036859937083723, 7036859937083723, 7036865468212325]],
   [[7036867177425062, 7036862702648024, 7036862702648024, 7036867177425062],
    [7036862702648025, 7036855462306686, 7036855462306686, 7036862702648024],
    [7036862702648025, 7036855462306686, 7036855462306686, 7036862702648024],
    [7036867177425062, 7036862702648024, 7036862702648024, 7036867177425062]],
   [[7036868560207212, 7036864940036544, 7036864940036543, 7036868560207212],
    [7036864940036544, 7036859082477355, 7036859082477356, 7036864940036544],
    [7036864940036544, 7036859082477355, 7036859082477356, 7036864940036544],
    [7036868560207212, 7036864940036544, 7036864940036543, 7036868560207212]],
   [[7036869678901472, 7036866750121878, 7036866750121878, 7036869678901472],
    [7036866750121878, 7036862011256950, 7036862011256950, 7036866750121878],
    [7036866750121878, 7036862011256950, 7036862011256950, 7036866750121878],
    [7036869678901472, 7036866750121878, 7036866750121878, 7036869678901472]],
   [[7036870583944139, 7036868214511675, 7036868214511676, 7036870583944140],
    [7036868214511675, 7036864380689414, 7036864380689414, 7036868214511676],
    [7036868214511675, 7036864380689414, 7036864380689414, 7036868214511676],
    [7036870583944139, 7036868214511675, 7036868214511676, 7036870583944140]],
   [[7036871316139038, 7036869399227907, 7036869399227907, 7036871316139038],
    [7036869399227907, 7036866297600545, 7036866297600546, 7036869399227908],
    [7036869399227907, 7036866297600545, 7036866297600546, 7036869399227908],
    [7036871316139038, 7036869399227907, 7036869399227907, 7036871316139038]],
   [[7036871908497154, 7036870357683472, 7036870357683473, 7036871908497154],
    [7036870357683472, 7036867848414227, 7036867848414226, 7036870357683472],
    [7036870357683472, 7036867848414227, 7036867848414226, 7036870357683472],
    [7036871908497154, 7036870357683472, 7036870357683473, 7036871908497154]],
   [[7036872387724936, 7036871133090314, 7036871133090313, 7036872387724936],
    [7036871133090313, 7036869103048850, 7036869103048850, 7036871133090312],
    [7036871133090313, 7036869103048850, 7036869103048850, 7036871133090312],
    [7036872387724936, 7036871133090314, 7036871133090313, 7036872387724936]],
   [[7036872775428356, 7036871760407625, 7036871760407624, 7036872775428356],
    [7036871760407624, 7036870118069582, 7036870118069582, 7036871760407624],
    [7036871760407624, 7036870118069582, 7036870118069582, 7036871760407624],
    [7036872775428356, 7036871760407625, 7036871760407624, 7036872775428356]],
   [[7036873089087012, 7036872267917991, 7036872267917990, 7036873089087012],
    [7036872267917990, 7036870939238604, 7036870939238604, 7036872267917990],
    [7036872267917990, 7036870939238604, 7036870939238604, 7036872267917990],
    [7036873089087012, 7036872267917991, 7036872267917990, 7036873089087012]],
   [[7036873342842195, 7036872678502501, 7036872678502502, 7036873342842196],
    [7036872678502502, 7036871603578298, 7036871603578297, 7036872678502501],
    [7036872678502502, 7036871603578298, 7036871603578297, 7036872678502501],
    [7036873342842195, 7036872678502501, 7036872678502502, 7036873342842196]],
   [[7036873548134451, 7036873010672349, 7036873010672348, 7036873548134450],
    [7036873010672348, 7036872141040400, 7036872141040400, 7036873010672348],
    [7036873010672348, 7036872141040400, 7036872141040400, 7036873010672348],
    [7036873548134451, 7036873010672349, 7036873010672348, 7036873548134450]],
   [[7036873714219374, 7036873279403400, 7036873279403399, 7036873714219374],
    [7036873279403400, 7036872575856374, 7036872575856374, 7036873279403400],
    [7036873279403400, 7036872575856374, 7036872575856374, 7036873279403400],
    [7036873714219374, 7036873279403400, 7036873279403399, 7036873714219374]],
   [[7036873848584900, 7036873496811386, 7036873496811387, 7036873848584900],
    [7036873496811387, 7036872927629887, 7036872927629886, 7036873496811388],
    [7036873496811387, 7036872927629887, 7036872927629886, 7036873496811388],
    [7036873848584900, 7036873496811386, 7036873496811387, 7036873848584900]],
   [[7036873957288894, 7036873672698144, 7036873672698142, 7036873957288894],
    [7036873672698144, 7036873212220637, 7036873212220637, 7036873672698144],
    [7036873672698144, 7036873212220637, 7036873212220637, 7036873672698144],
    [7036873957288894, 7036873672698144, 7036873672698142, 7036873957288894]],
   [[7036874045232272, 7036873814993518, 7036873814993518, 7036874045232272],
    [7036873814993519, 7036873442459390, 7036873442459390, 7036873814993519],
    [7036873814993519, 7036873442459390, 7036873442459390, 7036873814993519],
    [7036874045232272, 7036873814993518, 7036873814993518, 7036874045232272]],
   [[7036874116379960, 7036873930112895, 7036873930112896, 7036874116379960],
    [7036873930112896, 7036873628726454, 7036873628726454, 7036873930112896],
    [7036873930112896, 7036873628726454, 7036873628726454, 7036873930112896],
    [7036874116379960, 7036873930112895, 7036873930112896, 7036874116379960]],
   [[7036874173939648, 7036874023246428, 7036874023246428, 7036874173939648],
    [7036874023246428, 7036873779419674, 7036873779419676, 7036874023246428],
    [7036874023246428, 7036873779419674, 7036873779419676, 7036874023246428],
    [7036874173939648, 7036874023246428, 7036874023246428, 7036874173939648]],
   [[7036874220506414, 7036874098593038, 7036874098593038, 7036874220506414],
    [7036874098593038, 7036873901333051, 7036873901333052, 7036874098593038],
    [7036874098593038, 7036873901333051, 7036873901333052, 7036874098593038],
    [7036874220506414, 7036874098593038, 7036874098593038, 7036874220506414]],
   [[7036874258179719, 7036874159549726, 7036874159549726, 7036874258179720],
    [7036874159549726, 7036873999963044, 7036873999963045, 7036874159549726],
    [7036874159549726, 7036873999963044, 7036873999963045, 7036874159549726],
    [7036874258179719, 7036874159549726, 7036874159549726, 7036874258179720]],
   [[7036874288658063, 7036874208864722, 7036874208864722, 7036874288658064],
    [7036874208864722, 7036874079756386, 7036874079756385, 7036874208864723],
    [7036874208864722, 7036874079756386, 7036874079756385, 7036874208864723],
    [7036874288658063, 7036874208864722, 7036874208864722, 7036874288658064]],
   [[7036874313315561, 7036874248761393, 7036874248761392, 7036874313315562],
    [7036874248761392, 7036874144310554, 7036874144310554, 7036874248761393],
    [7036874248761392, 7036874144310554, 7036874144310554, 7036874248761393],
    [7036874313315561, 7036874248761393, 7036874248761392, 7036874313315562]]]

/-- The `6 × 6` field as computed in `double`, initially and after each pass. -/
def six_by_six_tables : List (List (List ℚ)) := double_tables 6 6 six_by_six_numerators

/-- A cell of the `6 × 6` grid whose change in pass `k + 1` is at least `1e-6`, for each of
the first 81 passes. -/
def six_by_six_cell (k : Nat) : Nat × Nat := if k = 0 then (1, 1) else (2, 2)

/-! ## Theorems -/

/-! ### Partition arithmetic -/

theorem local_ny_pos {NY P : Nat} (hP : 1 ≤ P) (hPN : P ≤ NY - 2) : 1 ≤ local_ny NY P := by
  unfold local_ny
  exact (Nat.le_div_iff_mul_le (by omega)).2 (by simpa using hPN)

theorem local_ny_mul_le (NY P : Nat) : P * local_ny NY P ≤ NY - 2 := by
  unfold local_ny
  exact Nat.mul_div_le (NY - 2) P

/-- Every rank but the last ends where the next one starts. -/
theorem end_y_eq_start_y_succ {NY P r : Nat} (h : r ≠ P - 1) :
    end_y NY P r = start_y NY P (r + 1) := by
  simp only [end_y, start_y, h, if_false]
  ring

theorem start_y_mono {NY P r r' : Nat} (h : r ≤ r') : start_y NY P r ≤ start_y NY P r' := by
  unfold start_y
  exact Nat.add_le_add_right (Nat.mul_le_mul_right _ h) 1

/-- The last rank starts inside the interior. -/
theorem start_y_last_le {NY P : Nat} (hP : 1 ≤ P) (hPN : P ≤ NY - 2) :
    start_y NY P (P - 1) + local_ny NY P ≤ NY - 1 := by
  have h1 := local_ny_mul_le NY P
  have h2 : (P - 1) * local_ny NY P + local_ny NY P = P * local_ny NY P := by
    obtain ⟨q, rfl⟩ : ∃ q, P = q + 1 := ⟨P - 1, by omega⟩
    simp [Nat.succ_mul]
  unfold start_y
  omega

/-- Owned ranges are non-empty when `1 ≤ P ≤ NY - 2`. -/
theorem start_y_lt_end_y {NY P r : Nat} (hP : 1 ≤ P) (hPN : P ≤ NY - 2) (hr : r < P) :
    start_y NY P r + local_ny NY P ≤ end_y NY P r := by
  by_cases h : r = P - 1
  · subst h
    have := start_y_last_le hP hPN
    simp only [end_y, if_true]
    exact this
  · simp [end_y, h]

/-- Owned ranges stay inside the interior rows. -/
theorem end_y_le {NY P r : Nat} (hP : 1 ≤ P) (hPN : P ≤ NY - 2) (hr : r < P) :
    end_y NY P r ≤ NY - 1 := by
  by_cases h : r = P - 1
  · simp [end_y, h]
  · rw [end_y_eq_start_y_succ h]
    have h1 : start_y NY P (r + 1) ≤ start_y NY P (P - 1) := start_y_mono (by omega)
    have h2 := start_y_last_le hP hPN
    omega

/-! ### Loops that write cells -/

theorem forCount_fst {σ τ : Type} (lo : Nat) (body : Nat → σ × τ → σ × τ) (f : Nat → σ → σ)
    (hf : ∀ k s, (body k s).1 = f k s.1) (n : Nat) (s : σ × τ) :
    (forCount lo body n s).1 = forCount lo f n s.1 := by
  induction n with
  | zero => rfl
  | succ n ih => simp only [forCount, hf, ih]

theorem forLoop_fst {σ τ : Type} (lo hi : Nat) (body : Nat → σ × τ → σ × τ) (f : Nat → σ → σ)
    (hf : ∀ k s, (body k s).1 = f k s.1) (s : σ × τ) :
    (forLoop lo hi body s).1 = forLoop lo hi f s.1 :=
  forCount_fst lo body f hf _ s

theorem forLoop_congr {σ : Type} (lo hi : Nat) (body body' : Nat → σ → σ)
    (h : ∀ k s, body k s = body' k s) (s : σ) :
    forLoop lo hi body s = forLoop lo hi body' s := by
  have : body = body' := by funext k s; exact h k s
  rw [this]

theorem setCell_setCell (u : Grid) (i j : Nat) (v w : ℚ) :
    setCell (setCell u i j v) i j w = setCell u i j w := by
  funext a b
  simp only [setCell]
  split_ifs <;> rfl

theorem forCount_setCell_row (i lo : Nat) (val : Nat → ℚ) (n : Nat) (u : Grid) :
    forCount lo (fun j u => setCell u i j (val j)) n u
      = fun a b => if a = i ∧ lo ≤ b ∧ b < lo + n then val b else u a b := by
  induction n with
  | zero =>
    funext a b
    show u a b = _
    rw [if_neg (by omega)]
  | succ n ih =>
    funext a b
    show setCell (forCount lo (fun j u => setCell u i j (val j)) n u) i (lo + n) (val (lo + n)) a b
      = _
    rw [ih]
    unfold setCell
    dsimp only
    by_cases h1 : a = i ∧ b = lo + n
    · rw [if_pos h1, if_pos ⟨h1.1, by omega, by omega⟩, h1.2]
    · rw [if_neg h1]
      by_cases h2 : a = i ∧ lo ≤ b ∧ b < lo + n
      · rw [if_pos h2, if_pos ⟨h2.1, h2.2.1, by omega⟩]
      · rw [if_neg h2, if_neg]
        rintro ⟨ha, hb1, hb2⟩
        by_cases hb : b = lo + n
        · exact h1 ⟨ha, hb⟩
        · exact h2 ⟨ha, hb1, by omega⟩

theorem forCount_setCell_col (j lo : Nat) (val : Nat → ℚ) (n : Nat) (u : Grid) :
    forCount lo (fun i u => setCell u i j (val i)) n u
      = fun a b => if b = j ∧ lo ≤ a ∧ a < lo + n then val a else u a b := by
  induction n with
  | zero =>
    funext a b
    show u a b = _
    rw [if_neg (by omega)]
  | succ n ih =>
    funext a b
    show setCell (forCount lo (fun i u => setCell u i j (val i)) n u) (lo + n) j (val (lo + n)) a b
      = _
    rw [ih]
    unfold setCell
    dsimp only
    by_cases h1 : a = lo + n ∧ b = j
    · rw [if_pos h1, if_pos ⟨h1.2, by omega, by omega⟩, h1.1]
    · rw [if_neg h1]
      by_cases h2 : b = j ∧ lo ≤ a ∧ a < lo + n
      · rw [if_pos h2, if_pos ⟨h2.1, h2.2.1, by omega⟩]
      · rw [if_neg h2, if_neg]
        rintro ⟨hb, ha1, ha2⟩
        by_cases ha : a = lo + n
        · exact h1 ⟨ha, hb⟩
        · exact h2 ⟨hb, ha1, by omega⟩

/-- A loop nest that assigns `val i j` to every cell of a rectangle. -/
theorem forLoop_setCell_nest (ilo ihi jlo jhi : Nat) (val : Nat → Nat → ℚ) (u : Grid) :
    forLoop ilo ihi (fun i u => forLoop jlo jhi (fun j u => setCell u i j (val i j)) u) u
      = fun a b => if ilo ≤ a ∧ a < ihi ∧ jlo ≤ b ∧ b < jhi then val a b else u a b := by
  have key : ∀ n, forCount ilo
      (fun i u => forLoop jlo jhi (fun j u => setCell u i j (val i j)) u) n u
      = fun a b => if ilo ≤ a ∧ a < ilo + n ∧ jlo ≤ b ∧ b < jhi then val a b else u a b := by
    intro n
    induction n with
    | zero =>
      funext a b
      show u a b = _
      rw [if_neg (by omega)]
    | succ n ih =>
      funext a b
      show forCount jlo (fun j u => setCell u (ilo + n) j (val (ilo + n) j)) (jhi - jlo)
        (forCount ilo
          (fun i u => forLoop jlo jhi (fun j u => setCell u i j (val i j)) u) n u) a b = _
      rw [ih, forCount_setCell_row]
      dsimp only
      by_cases h1 : a = ilo + n ∧ jlo ≤ b ∧ b < jlo + (jhi - jlo)
      · have h3 : ilo ≤ a ∧ a < ilo + (n + 1) ∧ jlo ≤ b ∧ b < jhi := by omega
        rw [if_pos h1, if_pos h3, h1.1]
      · rw [if_neg h1]
        by_cases h2 : ilo ≤ a ∧ a < ilo + n ∧ jlo ≤ b ∧ b < jhi
        · have h3 : ilo ≤ a ∧ a < ilo + (n + 1) ∧ jlo ≤ b ∧ b < jhi := by omega
          rw [if_pos h2, if_pos h3]
        · have h3 : ¬ (ilo ≤ a ∧ a < ilo + (n + 1) ∧ jlo ≤ b ∧ b < jhi) := by omega
          rw [if_neg h2, if_neg h3]
  funext a b
  show forCount ilo
      (fun i u => forLoop jlo jhi (fun j u => setCell u i j (val i j)) u) (ihi - ilo) u a b = _
  rw [key]
  dsimp only
  by_cases h : ilo ≤ a ∧ a < ihi ∧ jlo ≤ b ∧ b < jhi
  · have h3 : ilo ≤ a ∧ a < ilo + (ihi - ilo) ∧ jlo ≤ b ∧ b < jhi := by omega
    rw [if_pos h, if_pos h3]
  · have h3 : ¬ (ilo ≤ a ∧ a < ilo + (ihi - ilo) ∧ jlo ≤ b ∧ b < jhi) := by omega
    rw [if_neg h, if_neg h3]

/-! ### Running maxima -/

theorem IsMaxFrom.refl (m0 : ℚ) (P : Nat → Nat → Prop) (d : Nat → Nat → ℚ)
    (hP : ∀ i j, ¬ P i j) : IsMaxFrom m0 P d m0 :=
  ⟨le_refl _, fun i j h => absurd h (hP i j), Or.inl rfl⟩

theorem IsMaxFrom.trans {m0 m1 m2 : ℚ} {P Q R : Nat → Nat → Prop} {d : Nat → Nat → ℚ}
    (h1 : IsMaxFrom m0 P d m1) (h2 : IsMaxFrom m1 Q d m2)
    (hR : ∀ i j, R i j ↔ P i j ∨ Q i j) : IsMaxFrom m0 R d m2 := by
  obtain ⟨a1, b1, c1⟩ := h1
  obtain ⟨a2, b2, c2⟩ := h2
  refine ⟨le_trans a1 a2, ?_, ?_⟩
  · intro i j hij
    rcases (hR i j).1 hij with h | h
    · exact le_trans (b1 i j h) a2
    · exact b2 i j h
  · rcases c2 with h | ⟨i, j, hq, h⟩
    · rcases c1 with h' | ⟨i, j, hp, h'⟩
      · exact Or.inl (h.trans h')
      · exact Or.inr ⟨i, j, (hR i j).2 (Or.inl hp), h.trans h'⟩
    · exact Or.inr ⟨i, j, (hR i j).2 (Or.inr hq), h⟩

theorem IsMaxFrom.step (m : ℚ) (d : Nat → Nat → ℚ) (i j : Nat) :
    IsMaxFrom m (fun a b => a = i ∧ b = j) d (if d i j > m then d i j else m) := by
  by_cases h : d i j > m
  · rw [if_pos h]
    refine ⟨le_of_lt h, ?_, Or.inr ⟨i, j, ⟨rfl, rfl⟩, rfl⟩⟩
    rintro a b ⟨rfl, rfl⟩
    exact le_refl _
  · rw [if_neg h]
    refine ⟨le_refl _, ?_, Or.inl rfl⟩
    rintro a b ⟨rfl, rfl⟩
    exact not_lt.1 h

/-- The running maximum kept by a loop nest over a rectangle: the second component of the
state ends as the larger of its initial value and the greatest `d i j` of the rectangle. -/
theorem forLoop_max_nest {σ : Type} (ilo ihi jlo jhi : Nat)
    (body : Nat → Nat → σ × ℚ → σ × ℚ) (d : Nat → Nat → ℚ)
    (hd : ∀ i j s, (body i j s).2 = if d i j > s.2 then d i j else s.2) (s : σ × ℚ) :
    IsMaxFrom s.2 (fun a b => ilo ≤ a ∧ a < ihi ∧ jlo ≤ b ∧ b < jhi) d
      (forLoop ilo ihi (fun i s => forLoop jlo jhi (body i) s) s).2 := by
  have inner : ∀ (i n : Nat) (s : σ × ℚ),
      IsMaxFrom s.2 (fun a b => a = i ∧ jlo ≤ b ∧ b < jlo + n) d
        (forCount jlo (body i) n s).2 := by
    intro i n s
    induction n with
    | zero => exact IsMaxFrom.refl _ _ _ (by intro a b h; omega)
    | succ n ih =>
      show IsMaxFrom _ _ _ (body i (jlo + n) (forCount jlo (body i) n s)).2
      rw [hd]
      refine IsMaxFrom.trans ih (IsMaxFrom.step _ d i (jlo + n)) ?_
      intro a b
      constructor
      · rintro ⟨ha, h1, h2⟩
        by_cases hb : b = jlo + n
        · exact Or.inr ⟨ha, hb⟩
        · exact Or.inl ⟨ha, h1, by omega⟩
      · rintro (⟨ha, h1, h2⟩ | ⟨ha, hb⟩)
        · exact ⟨ha, h1, by omega⟩
        · exact ⟨ha, by omega, by omega⟩
  have outer : ∀ (n : Nat),
      IsMaxFrom s.2 (fun a b => ilo ≤ a ∧ a < ilo + n ∧ jlo ≤ b ∧ b < jhi) d
        (forCount ilo (fun i s => forLoop jlo jhi (body i) s) n s).2 := by
    intro n
    induction n with
    | zero => exact IsMaxFrom.refl _ _ _ (by intro a b h; omega)
    | succ n ih =>
      refine IsMaxFrom.trans ih (inner (ilo + n) (jhi - jlo) _) ?_
      intro a b
      constructor
      · rintro ⟨h1, h2, h3, h4⟩
        by_cases ha : a = ilo + n
        · exact Or.inr ⟨ha, h3, by omega⟩
        · exact Or.inl ⟨h1, by omega, h3, h4⟩
      · rintro (⟨h1, h2, h3, h4⟩ | ⟨ha, h3, h4⟩)
        · exact ⟨h1, by omega, h3, h4⟩
        · exact ⟨by omega, by omega, h3, by omega⟩
  have h := outer (ihi - ilo)
  refine IsMaxFrom.trans h (IsMaxFrom.refl _ (fun _ _ => False) d (fun _ _ hf => hf)) ?_
  intro a b
  constructor
  · rintro ⟨h1, h2, h3, h4⟩
    exact Or.inl ⟨h1, by omega, h3, h4⟩
  · rintro (⟨h1, h2, h3, h4⟩ | hf)
    · exact ⟨h1, by omega, h3, h4⟩
    · exact absurd hf id

/-! ### The stencil kernel -/

theorem setCell_same (u : Grid) (i j : Nat) (v : ℚ) : setCell u i j v i j = v := by
  simp [setCell]

theorem Interior_iff (NX ny a b : Nat) :
    (1 ≤ a ∧ a < NX - 1 ∧ 1 ≤ b ∧ b < ny - 1) ↔ Interior NX ny a b := by
  unfold Interior
  omega

/-- The array `u_new` after the stencil loop nest. -/
theorem stencil_pass_fst (NX ny : Nat) (u u_new : Grid) :
    (stencil_pass NX ny u u_new).1
      = fun a b => if Interior NX ny a b then stencil u a b else u_new a b := by
  unfold stencil_pass
  rw [forLoop_fst 1 (NX - 1) _
    (fun i g => forLoop 1 (ny - 1) (fun j g => setCell g i j (stencil u i j)) g)
    (fun i s => forLoop_fst 1 (ny - 1) _ _ (fun j s => rfl) s)]
  rw [forLoop_setCell_nest]
  funext a b
  simp only [Interior_iff]

/-- The value `max_diff` after the stencil loop nest. -/
theorem stencil_pass_snd (NX ny : Nat) (u u_new : Grid) :
    IsMaxFrom 0 (Interior NX ny) (fun i j => |stencil u i j - u i j|)
      (stencil_pass NX ny u u_new).2 := by
  have h := forLoop_max_nest 1 (NX - 1) 1 (ny - 1)
    (fun i j (s : Grid × ℚ) =>
      (setCell s.1 i j (0.25 * (u (i + 1) j + u (i - 1) j + u i (j + 1) + u i (j - 1))),
        if |setCell s.1 i j (0.25 * (u (i + 1) j + u (i - 1) j + u i (j + 1) + u i (j - 1))) i j
            - u i j| > s.2
        then |setCell s.1 i j (0.25 * (u (i + 1) j + u (i - 1) j + u i (j + 1) + u i (j - 1))) i j
            - u i j|
        else s.2))
    (fun i j => |stencil u i j - u i j|)
    (fun i j s => by simp only [setCell_same, stencil]) (u_new, 0)
  refine IsMaxFrom.trans h (IsMaxFrom.refl _ (fun _ _ => False) _ (fun _ _ hf => hf)) ?_
  intro a b
  rw [← Interior_iff]
  simp

/-- The array `u` after the copy-back loop nest. -/
theorem copy_back_eq (NX ny : Nat) (u u_new : Grid) :
    copy_back NX ny u u_new
      = fun a b => if Interior NX ny a b then u_new a b else u a b := by
  unfold copy_back
  rw [forLoop_setCell_nest]
  funext a b
  simp only [Interior_iff]

/-- One stencil pass and copy-back, cell by cell. -/
theorem pass_copy_back_eq (NX ny : Nat) (u u_new : Grid) :
    copy_back NX ny u (stencil_pass NX ny u u_new).1
      = fun a b => if Interior NX ny a b then stencil u a b else u a b := by
  rw [copy_back_eq, stencil_pass_fst]
  funext a b
  by_cases h : Interior NX ny a b
  · simp only [h, if_true]
  · simp only [h, if_false]

theorem IsMaxFrom.unique {m0 m1 m2 : ℚ} {P : Nat → Nat → Prop} {d : Nat → Nat → ℚ}
    (h1 : IsMaxFrom m0 P d m1) (h2 : IsMaxFrom m0 P d m2) : m1 = m2 := by
  obtain ⟨a1, b1, c1⟩ := h1
  obtain ⟨a2, b2, c2⟩ := h2
  apply le_antisymm
  · rcases c1 with h | ⟨i, j, hp, h⟩
    · rw [h]; exact a2
    · rw [h]; exact b2 i j hp
  · rcases c2 with h | ⟨i, j, hp, h⟩
    · rw [h]; exact a1
    · rw [h]; exact b1 i j hp

/-- The residual of a pass does not depend on the old content of `u_new`. -/
theorem stencil_pass_snd_indep (NX ny : Nat) (u u_new u_new' : Grid) :
    (stencil_pass NX ny u u_new).2 = (stencil_pass NX ny u u_new').2 :=
  (stencil_pass_snd NX ny u u_new).unique (stencil_pass_snd NX ny u u_new')

/-! ### The flattened kernel simulates the nested one -/

/-- Two loops that run in lock step keep their states related. -/
theorem forLoop_rel {σ τ : Type} (R : σ → τ → Prop) (lo hi : Nat)
    (body : Nat → σ → σ) (body' : Nat → τ → τ)
    (h : ∀ k s t, lo ≤ k → k < hi → R s t → R (body k s) (body' k t))
    (s : σ) (t : τ) (h0 : R s t) :
    R (forLoop lo hi body s) (forLoop lo hi body' t) := by
  have key : ∀ n, lo + n ≤ max lo hi → R (forCount lo body n s) (forCount lo body' n t) := by
    intro n
    induction n with
    | zero => intro _; exact h0
    | succ n ih =>
      intro hn
      have hlt : lo + n < hi := by
        rcases le_total lo hi with hle | hle
        · rw [max_eq_right hle] at hn; omega
        · rw [max_eq_left hle] at hn; omega
      exact h (lo + n) _ _ (by omega) hlt (ih (by omega))
  apply key
  rcases le_total lo hi with hle | hle
  · rw [max_eq_right hle]; omega
  · rw [max_eq_left hle]; omega

theorem flat_index_inj {ny a b i j : Nat} (hb : b < ny) (hj : j < ny)
    (h : a * ny + b = i * ny + j) : a = i ∧ b = j := by
  have hny : 0 < ny := by omega
  have h1 : (a * ny + b) / ny = a := by
    rw [Nat.add_comm, Nat.add_mul_div_right _ _ hny, Nat.div_eq_of_lt hb, Nat.zero_add]
  have h2 : (i * ny + j) / ny = i := by
    rw [Nat.add_comm, Nat.add_mul_div_right _ _ hny, Nat.div_eq_of_lt hj, Nat.zero_add]
  have hai : a = i := by rw [← h1, ← h2, h]
  subst hai
  exact ⟨rfl, by omega⟩

theorem Flat.setIdx {NX ny : Nat} {f : Buffer} {g : Grid} (h : Flat NX ny f g)
    {i j : Nat} (hj : j < ny) (v : ℚ) :
    Flat NX ny (setIdx f (i * ny + j) v) (setCell g i j v) := by
  intro a b ha hb
  unfold Heat.setIdx setCell
  by_cases hab : a = i ∧ b = j
  · obtain ⟨rfl, rfl⟩ := hab
    simp
  · have hne : ¬ (a * ny + b = i * ny + j) := fun he => hab (flat_index_inj hb hj he)
    rw [if_neg hne, if_neg hab]
    exact h a b ha hb

theorem setIdx_same (f : Buffer) (idx : Nat) (v : ℚ) : setIdx f idx v idx = v := by
  simp [setIdx]

/-- The flattened stencil loop nest computes what the nested one computes. -/
theorem stencil_pass_flat_sim (NX ny : Nat) (uf fn : Buffer) (u gn : Grid)
    (hu : Flat NX ny uf u) (hn : Flat NX ny fn gn) :
    Flat NX ny (stencil_pass_flat NX ny uf fn).1 (stencil_pass NX ny u gn).1 ∧
      (stencil_pass_flat NX ny uf fn).2 = (stencil_pass NX ny u gn).2 := by
  unfold stencil_pass_flat stencil_pass
  refine forLoop_rel (fun (s : Buffer × ℚ) (t : Grid × ℚ) => Flat NX ny s.1 t.1 ∧ s.2 = t.2)
    1 (NX - 1) _ _ ?_ _ _ ⟨hn, rfl⟩
  intro i s t hi1 hi2 hst
  refine forLoop_rel (fun (s : Buffer × ℚ) (t : Grid × ℚ) => Flat NX ny s.1 t.1 ∧ s.2 = t.2)
    1 (ny - 1) _ _ ?_ _ _ hst
  rintro j ⟨f, m⟩ ⟨g, m'⟩ hj1 hj2 ⟨hfg, hm⟩
  have e1 : uf ((i + 1) * ny + j) = u (i + 1) j := hu _ _ (by omega) (by omega)
  have e2 : uf ((i - 1) * ny + j) = u (i - 1) j := hu _ _ (by omega) (by omega)
  have e3 : uf (i * ny + j + 1) = u i (j + 1) := by
    rw [Nat.add_assoc]; exact hu _ _ (by omega) (by omega)
  have e4 : uf (i * ny + j - 1) = u i (j - 1) := by
    have : i * ny + j - 1 = i * ny + (j - 1) := by omega
    rw [this]; exact hu _ _ (by omega) (by omega)
  have e5 : uf (i * ny + j) = u i j := hu _ _ (by omega) (by omega)
  simp only at hm
  subst hm
  simp only [setIdx_same, setCell_same, e1, e2, e3, e4, e5, and_true]
  exact hfg.setIdx (by omega) _

/-- The flattened copy-back loop nest computes what the nested one computes. -/
theorem copy_back_flat_sim (NX ny : Nat) (uf fn : Buffer) (u gn : Grid)
    (hu : Flat NX ny uf u) (hn : Flat NX ny fn gn) :
    Flat NX ny (copy_back_flat NX ny uf fn) (copy_back NX ny u gn) := by
  unfold copy_back_flat copy_back
  refine forLoop_rel (Flat NX ny) 1 (NX - 1) _ _ ?_ _ _ hu
  intro i s t hi1 hi2 hst
  refine forLoop_rel (Flat NX ny) 1 (ny - 1) _ _ ?_ _ _ hst
  intro j f g hj1 hj2 hfg
  have e : fn (i * ny + j) = gn i j := hn _ _ (by omega) (by omega)
  simp only [e]
  exact hfg.setIdx (by omega) _

/-! ### Initialisation and single iterations, cell by cell -/

theorem init_grid_eq (NX NY : Nat) (u : Grid) :
    init_grid NX NY u = fun a b =>
      if a < NX ∧ b < NY then (if OnBoundary NX NY a b then 100 else 0) else u a b := by
  unfold init_grid
  rw [forLoop_congr 0 NX _
    (fun i u => forLoop 0 NY
      (fun j u => setCell u i j (if OnBoundary NX NY i j then 100 else 0)) u)]
  · rw [forLoop_setCell_nest]
    funext a b
    simp only [Nat.zero_le, true_and]
  · intro i v
    apply forLoop_congr
    intro j v
    unfold OnBoundary
    dsimp only
    split_ifs
    · rw [setCell_setCell]
    · rfl

theorem init_local_eq (NX NY sy ny : Nat) (u : Grid) :
    init_local NX NY sy ny u = fun a b =>
      if a < NX ∧ b < ny then (if OnBoundary NX NY a (sy + b - 1) then 100 else 0)
      else u a b := by
  unfold init_local
  rw [forLoop_congr 0 NX _
    (fun i u => forLoop 0 ny
      (fun j u => setCell u i j (if OnBoundary NX NY i (sy + j - 1) then 100 else 0)) u)]
  · rw [forLoop_setCell_nest]
    funext a b
    simp only [Nat.zero_le, true_and]
  · intro i v
    apply forLoop_congr
    intro j v
    unfold OnBoundary
    dsimp only
    split_ifs
    · rw [setCell_setCell]
    · rfl

theorem jacobi_iteration_u (NX NY : Nat) (s : SolverState) :
    (jacobi_iteration NX NY s).u
      = fun a b => if Interior NX NY a b then stencil s.u a b else s.u a b :=
  pass_copy_back_eq NX NY s.u s.u_new

theorem serial_after_zero (NX NY : Nat) (mem : SolverState) :
    serial_after NX NY mem 0 = serial_start NX NY mem := rfl

theorem serial_after_succ (NX NY : Nat) (mem : SolverState) (k : Nat) :
    serial_after NX NY mem (k + 1) = jacobi_iteration NX NY (serial_after NX NY mem k) := by
  unfold serial_after
  rw [Function.iterate_succ_apply']

theorem world_after_zero (NX NY size : Nat) (mem : World) :
    world_after NX NY size mem 0 = init_world NX NY size mem := rfl

theorem world_after_succ (NX NY size : Nat) (mem : World) (k : Nat) :
    world_after NX NY size mem (k + 1)
      = parallel_iteration NX NY size (world_after NX NY size mem k) := by
  unfold world_after
  rw [Function.iterate_succ_apply']

theorem parallel_iteration_u (NX NY size : Nat) (w : World) (rank : Nat) :
    (parallel_iteration NX NY size w rank).u
      = fun a b => if Interior NX (actual_ny NY size rank) a b
          then stencil (halo_exchange NX NY size w rank) a b
          else halo_exchange NX NY size w rank a b :=
  pass_copy_back_eq NX _ _ _

theorem halo_top_block_succ (NX NY size : Nat) (w : World) (r : Nat) :
    halo_top_block NX NY size w (r + 1) = fun a b =>
      if b = 0 ∧ a < NX then halo_top_block NX NY size w r a (actual_ny NY size r - 2)
      else (w (r + 1)).u a b := by
  show forCount 0 _ (NX - 0) _ = _
  rw [forCount_setCell_col]
  funext a b
  simp only [Nat.zero_le, true_and, Nat.sub_zero, Nat.zero_add]

/-- The top block only writes row `0`. -/
theorem halo_top_block_of_pos (NX NY size : Nat) (w : World) (r a b : Nat) (hb : b ≠ 0) :
    halo_top_block NX NY size w r a b = (w r).u a b := by
  cases r with
  | zero => rfl
  | succ r =>
    rw [halo_top_block_succ]
    dsimp only
    rw [if_neg (fun h => hb h.1)]

theorem halo_exchange_eq (NX NY size : Nat) (w : World) (rank : Nat) :
    halo_exchange NX NY size w rank = fun a b =>
      if rank < size - 1 ∧ b = actual_ny NY size rank - 1 ∧ a < NX then (w (rank + 1)).u a 1
      else halo_top_block NX NY size w rank a b := by
  unfold halo_exchange
  by_cases h : rank < size - 1
  · rw [if_pos h]
    show forCount 0 _ (NX - 0) _ = _
    rw [forCount_setCell_col]
    funext a b
    simp only [Nat.zero_le, true_and, Nat.sub_zero, Nat.zero_add, h]
  · rw [if_neg h]
    funext a b
    simp only [h, false_and, if_false]

/-! ### The distributed run follows the single-process run -/

theorem partition_facts {NY P r : Nat} (hP : 1 ≤ P) (hPN : P ≤ NY - 2) (hr : r < P) :
    1 ≤ start_y NY P r ∧ start_y NY P r + 1 ≤ end_y NY P r ∧ end_y NY P r ≤ NY - 1 ∧
      actual_ny NY P r = end_y NY P r - start_y NY P r + 2 ∧
      (r = 0 → start_y NY P r = 1) ∧ (r = P - 1 → end_y NY P r = NY - 1) ∧
      (r < P - 1 → end_y NY P r = start_y NY P (r + 1)) := by
  have hL := local_ny_pos hP hPN
  have h1 := start_y_lt_end_y hP hPN hr
  have h2 := end_y_le hP hPN hr
  refine ⟨by unfold start_y; omega, by omega, h2, rfl, ?_, ?_, ?_⟩
  · intro h; subst h; simp [start_y]
  · intro h; simp [end_y, h]
  · intro h; exact end_y_eq_start_y_succ (by omega)

/-- After the halo exchange every local row, halo rows included, holds the global row it
stands for, provided the rows that are not halo rows did so before. -/
theorem halo_exchange_agrees (NX NY P : Nat) (hP : 1 ≤ P) (hPN : P ≤ NY - 2) (w : World)
    (S : Grid)
    (h : ∀ r i j, r < P → i < NX → j < actual_ny NY P r → ¬ IsHalo NY P r j →
      (w r).u i j = S i (start_y NY P r + j - 1)) :
    ∀ r i j, r < P → i < NX → j < actual_ny NY P r →
      halo_exchange NX NY P w r i j = S i (start_y NY P r + j - 1) := by
  intro r i j hr hi hj
  obtain ⟨f1, f2, f3, f4, f5, f6, f7⟩ := partition_facts hP hPN hr
  rw [halo_exchange_eq]
  dsimp only
  by_cases hb : r < P - 1 ∧ j = actual_ny NY P r - 1 ∧ i < NX
  · -- bottom halo: first owned row of the lower neighbour
    rw [if_pos hb]
    have hr1 : r + 1 < P := by omega
    obtain ⟨g1, g2, g3, g4, -, -, -⟩ := partition_facts hP hPN hr1
    have hnh : ¬ IsHalo NY P (r + 1) 1 := by unfold IsHalo; omega
    rw [h (r + 1) i 1 hr1 hi (by omega) hnh]
    congr 1
    have := f7 hb.1
    omega
  · rw [if_neg hb]
    cases r with
    | zero =>
      have hnh : ¬ IsHalo NY P 0 j := by unfold IsHalo; omega
      exact h 0 i j hr hi hj hnh
    | succ q =>
      rw [halo_top_block_succ]
      dsimp only
      by_cases ht : j = 0 ∧ i < NX
      · -- top halo: last owned row of the upper neighbour
        rw [if_pos ht]
        have hq : q < P := by omega
        obtain ⟨g1, g2, g3, g4, -, -, g7⟩ := partition_facts hP hPN hq
        rw [halo_top_block_of_pos _ _ _ _ _ _ _ (by omega)]
        have hnh : ¬ IsHalo NY P q (actual_ny NY P q - 2) := by unfold IsHalo; omega
        rw [h q i _ hq hi (by omega) hnh]
        congr 1
        have := g7 (by omega)
        omega
      · rw [if_neg ht]
        have hnh : ¬ IsHalo NY P (q + 1) j := by unfold IsHalo; omega
        exact h (q + 1) i j hr hi hj hnh

/-- The rows a rank owns hold the values of the single-process run after the same number
of iterations; its halo rows hold the values of the iteration before. -/
theorem world_agrees (NX NY P : Nat) (hP : 1 ≤ P) (hPN : P ≤ NY - 2) (mem : World)
    (smem : SolverState) (k : Nat) :
    ∀ r i j, r < P → i < NX → j < actual_ny NY P r →
      (world_after NX NY P mem k r).u i j
        = (serial_after NX NY smem (if IsHalo NY P r j then k - 1 else k)).u i
            (start_y NY P r + j - 1) := by
  induction k with
  | zero =>
    intro r i j hr hi hj
    obtain ⟨f1, f2, f3, f4, -, -, -⟩ := partition_facts hP hPN hr
    have hk : (if IsHalo NY P r j then 0 - 1 else 0) = 0 := by split_ifs <;> rfl
    rw [hk, world_after_zero, serial_after_zero]
    show init_local NX NY _ _ _ i j = init_grid NX NY _ i _
    have hg : start_y NY P r + j - 1 < NY := by omega
    simp only [init_local_eq, init_grid_eq, hi, hj, hg, and_self, if_true]
  | succ k ih =>
    intro r i j hr hi hj
    obtain ⟨f1, f2, f3, f4, f5, f6, f7⟩ := partition_facts hP hPN hr
    have hex := halo_exchange_agrees NX NY P hP hPN (world_after NX NY P mem k)
      (serial_after NX NY smem k).u
      (by
        intro r i j hr hi hj hnh
        have := ih r i j hr hi hj
        rwa [if_neg hnh] at this)
    rw [world_after_succ, parallel_iteration_u]
    dsimp only
    by_cases hh : IsHalo NY P r j
    · have hni : ¬ Interior NX (actual_ny NY P r) i j := by
        unfold Interior; unfold IsHalo at hh; omega
      rw [if_neg hni, if_pos hh, hex r i j hr hi hj]
      rfl
    · rw [if_neg hh, serial_after_succ, jacobi_iteration_u]
      dsimp only
      by_cases hin : Interior NX (actual_ny NY P r) i j
      · have hin' : Interior NX NY i (start_y NY P r + j - 1) := by
          unfold Interior at hin ⊢; omega
        have hin2 := hin
        unfold Interior at hin2
        rw [if_pos hin, if_pos hin']
        unfold stencil
        rw [hex r (i + 1) j hr (by omega) hj, hex r (i - 1) j hr (by omega) hj,
          hex r i (j + 1) hr hi (by omega), hex r i (j - 1) hr hi (by omega)]
        have e1 : start_y NY P r + (j + 1) - 1 = start_y NY P r + j - 1 + 1 := by omega
        have e2 : start_y NY P r + (j - 1) - 1 = start_y NY P r + j - 1 - 1 := by omega
        rw [e1, e2]
      · have hin' : ¬ Interior NX NY i (start_y NY P r + j - 1) := by
          unfold Interior at hin ⊢
          unfold IsHalo at hh
          have := f5
          have := f6
          omega
        rw [if_neg hin, if_neg hin', hex r i j hr hi hj]

/-- The single-process run never changes a cell of the physical boundary. -/
theorem serial_boundary (NX NY : Nat) (smem : SolverState) (k i g : Nat) (hi : i < NX)
    (hg : g < NY) (hb : OnBoundary NX NY i g) :
    (serial_after NX NY smem k).u i g = 100 := by
  induction k with
  | zero =>
    rw [serial_after_zero]
    show init_grid NX NY _ i g = 100
    simp only [init_grid_eq, hi, hg, hb, and_self, if_true]
  | succ k ih =>
    have hni : ¬ Interior NX NY i g := by
      unfold Interior; unfold OnBoundary at hb; omega
    rw [serial_after_succ, jacobi_iteration_u]
    dsimp only
    rw [if_neg hni, ih]

/-- With one rank the local array is the global array. -/
theorem single_rank_facts {NY : Nat} (hNY : 3 ≤ NY) :
    start_y NY 1 0 = 1 ∧ actual_ny NY 1 0 = NY ∧ ∀ j, ¬ IsHalo NY 1 0 j := by
  have h1 : start_y NY 1 0 = 1 := by simp [start_y]
  have h2 : end_y NY 1 0 = NY - 1 := by simp [end_y]
  refine ⟨h1, ?_, ?_⟩
  · unfold actual_ny; omega
  · intro j; unfold IsHalo; omega

/-! ### The solver loop -/

/-- The loop runs its whole budget when no pass brings the residual below the tolerance. -/
theorem solver_loop_from_never {σ : Type} (TOL : ℚ) (body : σ → σ) (residual : σ → ℚ)
    (n iter passes : Nat) (s : σ)
    (h : ∀ k, 1 ≤ k → k ≤ n → ¬ residual (body^[k] s) < TOL) :
    solver_loop_from TOL body residual n iter passes s
      = { state := body^[n] s, iter := iter + n, converged := false, passes := passes + n } := by
  induction n generalizing iter passes s with
  | zero => rfl
  | succ n ih =>
    have h1 : ¬ residual (body s) < TOL := h 1 (le_refl 1) (by omega)
    show (if residual (body s) < TOL then _ else _) = _
    rw [if_neg h1, ih (iter + 1) (passes + 1) (body s)
      (fun k hk1 hk2 => by
        have := h (k + 1) (by omega) (by omega)
        rwa [Function.iterate_succ_apply] at this)]
    rw [Function.iterate_succ_apply]
    congr 1 <;> omega

/-- The loop stops right after the first pass whose residual is below the tolerance. -/
theorem solver_loop_from_first {σ : Type} (TOL : ℚ) (body : σ → σ) (residual : σ → ℚ)
    (n iter passes : Nat) (s : σ) (m : Nat) (hm1 : 1 ≤ m) (hmn : m ≤ n)
    (hm : residual (body^[m] s) < TOL)
    (h : ∀ k, 1 ≤ k → k < m → ¬ residual (body^[k] s) < TOL) :
    solver_loop_from TOL body residual n iter passes s
      = { state := body^[m] s, iter := iter + (m - 1), converged := true,
          passes := passes + m } := by
  induction n generalizing iter passes s m with
  | zero => omega
  | succ n ih =>
    show (if residual (body s) < TOL then _ else _) = _
    by_cases h1 : residual (body s) < TOL
    · have hm' : m = 1 := by
        by_contra hne
        exact h 1 (le_refl 1) (by omega) h1
      subst hm'
      rw [if_pos h1]
      rfl
    · have hm2 : 2 ≤ m := by
        by_contra hlt
        have hm' : m = 1 := by omega
        subst hm'
        exact h1 hm
      obtain ⟨q, rfl⟩ : ∃ q, m = q + 1 := ⟨m - 1, by omega⟩
      rw [if_neg h1, ih (iter + 1) (passes + 1) (body s) q (by omega) (by omega)
        (by rwa [Function.iterate_succ_apply] at hm)
        (fun k hk1 hk2 => by
          have := h (k + 1) (by omega) (by omega)
          rwa [Function.iterate_succ_apply] at this)]
      rw [Function.iterate_succ_apply]
      congr 1 <;> omega

/-- The body runs at least once when `MAX_ITER` is positive. -/
theorem solver_loop_from_passes_ge {σ : Type} (TOL : ℚ) (body : σ → σ) (residual : σ → ℚ)
    (n iter passes : Nat) (s : σ) :
    passes + min n 1 ≤ (solver_loop_from TOL body residual n iter passes s).passes := by
  induction n generalizing iter passes s with
  | zero => exact le_refl _
  | succ n ih =>
    show _ ≤ (if residual (body s) < TOL then _ else _ : LoopExit σ).passes
    split_ifs
    · show passes + min (n + 1) 1 ≤ passes + 1
      omega
    · have := ih (iter + 1) (passes + 1) (body s)
      omega

/-- What the solver loop does when pass `m` is the first one below the tolerance. -/
theorem solver_loop_first_below {σ : Type} (MAX_ITER : Nat) (TOL : ℚ) (body : σ → σ)
    (residual : σ → ℚ) (s : σ) (m : Nat) (hm1 : 1 ≤ m) (hm : residual (body^[m] s) < TOL)
    (h : ∀ k, 1 ≤ k → k < m → ¬ residual (body^[k] s) < TOL) :
    (solver_loop MAX_ITER TOL body residual s).passes = min MAX_ITER m ∧
    ((solver_loop MAX_ITER TOL body residual s).converged = true ↔ m ≤ MAX_ITER) ∧
    (solver_loop MAX_ITER TOL body residual s).state = body^[min MAX_ITER m] s ∧
    (solver_loop MAX_ITER TOL body residual s).iter = min MAX_ITER (m - 1) := by
  unfold solver_loop
  by_cases hle : m ≤ MAX_ITER
  · rw [solver_loop_from_first TOL body residual MAX_ITER 0 0 s m hm1 hle hm h]
    simp only [Nat.zero_add, min_eq_right hle, hle, true_and]
    omega
  · rw [solver_loop_from_never TOL body residual MAX_ITER 0 0 s
      (fun k hk1 hk2 => h k hk1 (by omega))]
    have hle' : MAX_ITER ≤ m := by omega
    simp only [Nat.zero_add, min_eq_left hle', hle, true_and, iff_false]
    refine ⟨by simp, ?_⟩
    omega

/-- What the solver loop does when none of its passes is below the tolerance. -/
theorem solver_loop_never_below {σ : Type} (MAX_ITER : Nat) (TOL : ℚ) (body : σ → σ)
    (residual : σ → ℚ) (s : σ)
    (h : ∀ k, 1 ≤ k → k ≤ MAX_ITER → ¬ residual (body^[k] s) < TOL) :
    (solver_loop MAX_ITER TOL body residual s).passes = MAX_ITER ∧
    (solver_loop MAX_ITER TOL body residual s).converged = false ∧
    (solver_loop MAX_ITER TOL body residual s).state = body^[MAX_ITER] s ∧
    (solver_loop MAX_ITER TOL body residual s).iter = MAX_ITER := by
  unfold solver_loop
  rw [solver_loop_from_never TOL body residual MAX_ITER 0 0 s h]
  simp

/-! ### The reduction -/

theorem MPI_Allreduce_MAX_spec (size : Nat) (hsize : 1 ≤ size) (sendbuf : Nat → ℚ)
    (rank : Nat) :
    (∀ r, r < size → sendbuf r ≤ MPI_Allreduce_MAX size sendbuf rank) ∧
    (∃ r, r < size ∧ MPI_Allreduce_MAX size sendbuf rank = sendbuf r) := by
  have key : ∀ n,
      (∀ r, r < 1 + n → sendbuf r ≤ forCount 1 (fun r m => max m (sendbuf r)) n (sendbuf 0)) ∧
      (∃ r, r < 1 + n ∧ forCount 1 (fun r m => max m (sendbuf r)) n (sendbuf 0) = sendbuf r) := by
    intro n
    induction n with
    | zero =>
      refine ⟨?_, 0, by omega, rfl⟩
      intro r hr
      have : r = 0 := by omega
      subst this
      exact le_refl _
    | succ n ih =>
      obtain ⟨h1, r0, hr0, h2⟩ := ih
      show (∀ r, r < 1 + (n + 1) → sendbuf r ≤ max _ (sendbuf (1 + n))) ∧
        ∃ r, r < 1 + (n + 1) ∧ max _ (sendbuf (1 + n)) = sendbuf r
      constructor
      · intro r hr
        by_cases hrn : r = 1 + n
        · subst hrn; exact le_max_right _ _
        · exact le_trans (h1 r (by omega)) (le_max_left _ _)
      · rcases max_choice (forCount 1 (fun r m => max m (sendbuf r)) n (sendbuf 0))
          (sendbuf (1 + n)) with h | h
        · exact ⟨r0, by omega, by rw [h, h2]⟩
        · exact ⟨1 + n, by omega, h⟩
  have := key (size - 1)
  have e : 1 + (size - 1) = size := by omega
  rw [e] at this
  exact this

/-- The state the loop ends in is the state after the passes it ran. -/
theorem solver_loop_from_state {σ : Type} (TOL : ℚ) (body : σ → σ) (residual : σ → ℚ)
    (n iter passes : Nat) (s : σ) :
    ∃ k, k ≤ n ∧ (solver_loop_from TOL body residual n iter passes s).state = body^[k] s ∧
      (solver_loop_from TOL body residual n iter passes s).passes = passes + k := by
  induction n generalizing iter passes s with
  | zero => exact ⟨0, le_refl 0, rfl, rfl⟩
  | succ n ih =>
    by_cases h1 : residual (body s) < TOL
    · refine ⟨1, by omega, ?_, ?_⟩
      · show (if residual (body s) < TOL then _ else _ : LoopExit σ).state = _
        rw [if_pos h1]; rfl
      · show (if residual (body s) < TOL then _ else _ : LoopExit σ).passes = _
        rw [if_pos h1]
    · obtain ⟨k, hk, h2, h3⟩ := ih (iter + 1) (passes + 1) (body s)
      refine ⟨k + 1, by omega, ?_, ?_⟩
      · show (if residual (body s) < TOL then _ else _ : LoopExit σ).state = _
        rw [if_neg h1, h2, Function.iterate_succ_apply]
      · show (if residual (body s) < TOL then _ else _ : LoopExit σ).passes = _
        rw [if_neg h1, h3]
        omega

/-- The single-process solver ends in the state after some number of passes. -/
theorem heat_serial_state (NX NY MAX_ITER : Nat) (TOL : ℚ) (mem : SolverState) :
    ∃ k, k ≤ MAX_ITER ∧
      (heat_serial NX NY MAX_ITER TOL mem).state = serial_after NX NY mem k ∧
      (heat_serial NX NY MAX_ITER TOL mem).passes = k := by
  obtain ⟨k, hk, h1, h2⟩ := solver_loop_from_state TOL (jacobi_iteration NX NY)
    (fun s => s.max_diff) MAX_ITER 0 0 (serial_start NX NY mem)
  exact ⟨k, hk, h1, by rw [Nat.zero_add] at h2; exact h2⟩

/-- The distributed solver ends, for every rank, in the state after some number of
iterations. -/
theorem heat_parallel_state (NX NY P MAX_ITER : Nat) (TOL : ℚ) (mem : World) (rank : Nat) :
    ∃ k, k ≤ MAX_ITER ∧
      (heat_parallel NX NY P MAX_ITER TOL mem rank).state = world_after NX NY P mem k ∧
      (heat_parallel NX NY P MAX_ITER TOL mem rank).passes = k := by
  obtain ⟨k, hk, h1, h2⟩ := solver_loop_from_state TOL (parallel_iteration NX NY P)
    (fun w => global_max_diff P w rank) MAX_ITER 0 0 (init_world NX NY P mem)
  exact ⟨k, hk, h1, by rw [Nat.zero_add] at h2; exact h2⟩

/-! ### Symmetry of the single-process run -/

theorem serial_reflect_i (NX NY : Nat) (mem : SolverState) (k : Nat) :
    ∀ i j, i < NX → j < NY →
      (serial_after NX NY mem k).u i j = (serial_after NX NY mem k).u (NX - 1 - i) j := by
  induction k with
  | zero =>
    intro i j hi hj
    have hi' : NX - 1 - i < NX := by omega
    have hb : OnBoundary NX NY i j ↔ OnBoundary NX NY (NX - 1 - i) j := by
      unfold OnBoundary; omega
    rw [serial_after_zero]
    show init_grid NX NY _ i j = init_grid NX NY _ (NX - 1 - i) j
    simp only [init_grid_eq, hi, hj, hi', hb, and_self, if_true]
  | succ k ih =>
    intro i j hi hj
    have hb : Interior NX NY i j ↔ Interior NX NY (NX - 1 - i) j := by
      unfold Interior; omega
    rw [serial_after_succ, jacobi_iteration_u]
    dsimp only
    by_cases hin : Interior NX NY i j
    · rw [if_pos hin, if_pos (hb.1 hin)]
      unfold Interior at hin
      unfold stencil
      have e1 := ih (i + 1) j (by omega) hj
      have e2 := ih (i - 1) j (by omega) hj
      have e3 := ih i (j + 1) hi (by omega)
      have e4 := ih i (j - 1) hi (by omega)
      have a1 : NX - 1 - (i + 1) = NX - 1 - i - 1 := by omega
      have a2 : NX - 1 - (i - 1) = NX - 1 - i + 1 := by omega
      rw [a1] at e1
      rw [a2] at e2
      rw [e1, e2, e3, e4]
      ring
    · rw [if_neg hin, if_neg (fun h => hin (hb.2 h))]
      exact ih i j hi hj

theorem serial_reflect_j (NX NY : Nat) (mem : SolverState) (k : Nat) :
    ∀ i j, i < NX → j < NY →
      (serial_after NX NY mem k).u i j = (serial_after NX NY mem k).u i (NY - 1 - j) := by
  induction k with
  | zero =>
    intro i j hi hj
    have hj' : NY - 1 - j < NY := by omega
    have hb : OnBoundary NX NY i j ↔ OnBoundary NX NY i (NY - 1 - j) := by
      unfold OnBoundary; omega
    rw [serial_after_zero]
    show init_grid NX NY _ i j = init_grid NX NY _ i (NY - 1 - j)
    simp only [init_grid_eq, hi, hj, hj', hb, and_self, if_true]
  | succ k ih =>
    intro i j hi hj
    have hb : Interior NX NY i j ↔ Interior NX NY i (NY - 1 - j) := by
      unfold Interior; omega
    rw [serial_after_succ, jacobi_iteration_u]
    dsimp only
    by_cases hin : Interior NX NY i j
    · rw [if_pos hin, if_pos (hb.1 hin)]
      unfold Interior at hin
      unfold stencil
      have e1 := ih (i + 1) j (by omega) hj
      have e2 := ih (i - 1) j (by omega) hj
      have e3 := ih i (j + 1) hi (by omega)
      have e4 := ih i (j - 1) hi (by omega)
      have a3 : NY - 1 - (j + 1) = NY - 1 - j - 1 := by omega
      have a4 : NY - 1 - (j - 1) = NY - 1 - j + 1 := by omega
      rw [a3] at e3
      rw [a4] at e4
      rw [e1, e2, e3, e4]
      ring
    · rw [if_neg hin, if_neg (fun h => hin (hb.2 h))]
      exact ih i j hi hj

theorem serial_transpose (N : Nat) (mem : SolverState) (k : Nat) :
    ∀ i j, i < N → j < N →
      (serial_after N N mem k).u i j = (serial_after N N mem k).u j i := by
  induction k with
  | zero =>
    intro i j hi hj
    have hb : OnBoundary N N i j ↔ OnBoundary N N j i := by
      unfold OnBoundary; omega
    rw [serial_after_zero]
    show init_grid N N _ i j = init_grid N N _ j i
    simp only [init_grid_eq, hi, hj, hb, and_self, if_true]
  | succ k ih =>
    intro i j hi hj
    have hb : Interior N N i j ↔ Interior N N j i := by
      unfold Interior; omega
    rw [serial_after_succ, jacobi_iteration_u]
    dsimp only
    by_cases hin : Interior N N i j
    · rw [if_pos hin, if_pos (hb.1 hin)]
      unfold Interior at hin
      unfold stencil
      rw [ih (i + 1) j (by omega) hj, ih (i - 1) j (by omega) hj,
        ih i (j + 1) hi (by omega), ih i (j - 1) hi (by omega)]
      ring
    · rw [if_neg hin, if_neg (fun h => hin (hb.2 h))]
      exact ih i j hi hj

/-! ### The VTK writer -/

theorem forCount_append_row (f : Nat → String) (n : Nat) (out : List String) :
    forCount 0 (fun i out => out ++ [f i]) n out = out ++ (List.range n).map f := by
  induction n with
  | zero => simp [forCount]
  | succ n ih =>
    show forCount 0 (fun i out => out ++ [f i]) n out ++ [f (0 + n)] = _
    rw [ih, List.range_succ, List.map_append, Nat.zero_add]
    simp

/-- The data loop nest appends `nx * ny` lines to the header; the value of cell `(i, j)` is
line `j * nx + i` of them. -/
theorem vtk_data_lines (f : Nat → Nat → String) (nx ny : Nat) (out : List String) :
    ∃ D : List String,
      forLoop 0 ny (fun j out => forLoop 0 nx (fun i out => out ++ [f i j]) out) out
        = out ++ D ∧
      D.length = ny * nx ∧ ∀ i j, i < nx → j < ny → D[j * nx + i]? = some (f i j) := by
  have key : ∀ n, ∃ D : List String,
      forCount 0 (fun j out => forLoop 0 nx (fun i out => out ++ [f i j]) out) n out
        = out ++ D ∧
      D.length = n * nx ∧ ∀ i j, i < nx → j < n → D[j * nx + i]? = some (f i j) := by
    intro n
    induction n with
    | zero => exact ⟨[], by simp [forCount], by simp, by intro i j _ h; omega⟩
    | succ n ih =>
      obtain ⟨D, h1, h2, h3⟩ := ih
      refine ⟨D ++ (List.range nx).map (fun i => f i n), ?_, ?_, ?_⟩
      · show forCount 0 (fun i out => out ++ [f i (0 + n)]) (nx - 0) _ = _
        rw [h1, forCount_append_row, Nat.zero_add, Nat.sub_zero, List.append_assoc]
      · rw [List.length_append, h2, List.length_map, List.length_range, Nat.succ_mul]
      · intro i j hi hj
        by_cases hjn : j = n
        · subst hjn
          rw [List.getElem?_append_right (by omega), h2, Nat.add_sub_cancel_left,
            List.getElem?_map, List.getElem?_range hi]
          rfl
        · have hlt : j * nx + i < D.length := by
            have : (j + 1) * nx ≤ n * nx := Nat.mul_le_mul_right nx (by omega)
            rw [Nat.succ_mul] at this
            omega
          rw [List.getElem?_append_left hlt]
          exact h3 i j hi (by omega)
  have := key ny
  rw [← Nat.sub_zero ny] at this
  simpa [forLoop] using this

theorem wrap_int_of_lt (n : Nat) (h : n < 2147483648) : wrap_int n = n := by
  unfold wrap_int
  omega

/-- The file that `write_vtk_file` writes: the header, then `nx * ny` data lines. -/
theorem write_vtk_file_lines (u : Grid) (nx ny : Nat) :
    ∃ D : List String, write_vtk_file true u nx ny = some (vtk_header nx ny ++ D) ∧
      D.length = ny * nx ∧ ∀ i j, i < nx → j < ny → D[j * nx + i]? = some (fmt_f (u i j)) := by
  obtain ⟨D, h1, h2, h3⟩ := vtk_data_lines (fun i j => fmt_f (u i j)) nx ny (vtk_header nx ny)
  refine ⟨D, ?_, h2, h3⟩
  unfold write_vtk_file
  simp only [Bool.true_eq_false, if_false]
  rw [h1]

/-! ### Convergence of the `10 × 10` run -/

theorem weight_nonneg (i j : Nat) : 0 ≤ weight i j := by
  have h : ∀ i, 0 ≤ weight1 i := by
    intro i
    unfold weight1
    split <;> norm_num
  exact mul_nonneg (h i) (h j)

theorem weight_le (i j : Nat) : weight i j ≤ 9801 := by
  have h0 : ∀ i, 0 ≤ weight1 i := by
    intro i
    unfold weight1
    split <;> norm_num
  have h : ∀ i, weight1 i ≤ 99 := by
    intro i
    unfold weight1
    split <;> norm_num
  unfold weight
  calc weight1 i * weight1 j ≤ 99 * 99 := mul_le_mul (h i) (h j) (h0 j) (by norm_num)
    _ = 9801 := by norm_num

theorem weight_interior_ge (i j : Nat) (hi1 : 1 ≤ i) (hi2 : i ≤ 8) (hj1 : 1 ≤ j)
    (hj2 : j ≤ 8) : 1156 ≤ weight i j := by
  have h : ∀ i, 1 ≤ i → i ≤ 8 → 34 ≤ weight1 i := by
    intro i h1 h2
    interval_cases i <;> norm_num [weight1]
  unfold weight
  calc (1156 : ℚ) = 34 * 34 := by norm_num
    _ ≤ weight1 i * weight1 j :=
      mul_le_mul (h i hi1 hi2) (h j hj1 hj2) (by norm_num) (le_trans (by norm_num) (h i hi1 hi2))

theorem weight1_neighbours (i : Nat) (hi1 : 1 ≤ i) (hi2 : i ≤ 8) :
    weight1 (i + 1) + weight1 (i - 1) ≤ 19 / 10 * weight1 i := by
  interval_cases i <;> norm_num [weight1]

/-- Averaging the weight over the four neighbours shrinks it by `19/20`. -/
theorem weight_neighbours (i j : Nat) (hi1 : 1 ≤ i) (hi2 : i ≤ 8) (hj1 : 1 ≤ j)
    (hj2 : j ≤ 8) :
    weight (i + 1) j + weight (i - 1) j + weight i (j + 1) + weight i (j - 1)
      ≤ 4 * (19 / 20 * weight i j) := by
  have h0 : ∀ i, 0 ≤ weight1 i := by
    intro i
    unfold weight1
    split <;> norm_num
  have a := mul_le_mul_of_nonneg_right (weight1_neighbours i hi1 hi2) (h0 j)
  have b := mul_le_mul_of_nonneg_left (weight1_neighbours j hj1 hj2) (h0 i)
  unfold weight
  nlinarith [a, b]

theorem weight_boundary (i j : Nat) (h : i = 0 ∨ 9 ≤ i ∨ j = 0 ∨ 9 ≤ j) : weight i j = 0 := by
  have h9 : ∀ i, 9 ≤ i → weight1 i = 0 := by
    intro i hi
    unfold weight1
    split <;> first | omega | rfl
  unfold weight
  rcases h with h | h | h | h
  · subst h; simp [weight1]
  · rw [h9 i h, zero_mul]
  · subst h; simp [weight1]
  · rw [h9 j h, mul_zero]

/-- One averaging step contracts a bound by the weight: if `|f| ≤ A * weight` on the
whole grid and `g` is the four-neighbour average of `f` in the interior and zero on the
boundary, then `|g| ≤ A * (19/20) * weight`. -/
theorem average_contracts (f g : Grid) (A : ℚ) (hA : 0 ≤ A)
    (hf : ∀ i j, i ≤ 9 → j ≤ 9 → |f i j| ≤ A * weight i j)
    (hz : ∀ i j, i ≤ 9 → j ≤ 9 → (i = 0 ∨ i = 9 ∨ j = 0 ∨ j = 9) → g i j = 0)
    (havg : ∀ i j, 1 ≤ i → i ≤ 8 → 1 ≤ j → j ≤ 8 →
      g i j = (f (i + 1) j + f (i - 1) j + f i (j + 1) + f i (j - 1)) / 4) :
    ∀ i j, i ≤ 9 → j ≤ 9 → |g i j| ≤ A * (19 / 20) * weight i j := by
  intro i j hi hj
  by_cases hb : i = 0 ∨ i = 9 ∨ j = 0 ∨ j = 9
  · rw [hz i j hi hj hb, abs_zero]
    exact mul_nonneg (mul_nonneg hA (by norm_num)) (weight_nonneg i j)
  · have hi1 : 1 ≤ i := by omega
    have hi2 : i ≤ 8 := by omega
    have hj1 : 1 ≤ j := by omega
    have hj2 : j ≤ 8 := by omega
    rw [havg i j hi1 hi2 hj1 hj2]
    have b1 := hf (i + 1) j (by omega) hj
    have b2 := hf (i - 1) j (by omega) hj
    have b3 := hf i (j + 1) hi (by omega)
    have b4 := hf i (j - 1) hi (by omega)
    have hw := weight_neighbours i j hi1 hi2 hj1 hj2
    have hsum : |f (i + 1) j + f (i - 1) j + f i (j + 1) + f i (j - 1)|
        ≤ |f (i + 1) j| + |f (i - 1) j| + |f i (j + 1)| + |f i (j - 1)| :=
      (abs_add _ _).trans (add_le_add_right ((abs_add _ _).trans
        (add_le_add_right (abs_add _ _) _)) _)
    rw [abs_div, abs_of_pos (show (0 : ℚ) < 4 by norm_num), div_le_iff₀ (by norm_num)]
    have hAw := mul_le_mul_of_nonneg_left hw hA
    nlinarith [hsum, b1, b2, b3, b4, hAw]

theorem serial_interior_step (mem : SolverState) (k i j : Nat) (hi1 : 1 ≤ i) (hi2 : i ≤ 8)
    (hj1 : 1 ≤ j) (hj2 : j ≤ 8) :
    (serial_after 10 10 mem (k + 1)).u i j
      = ((serial_after 10 10 mem k).u (i + 1) j + (serial_after 10 10 mem k).u (i - 1) j
          + (serial_after 10 10 mem k).u i (j + 1) + (serial_after 10 10 mem k).u i (j - 1)) / 4 := by
  have hin : Interior 10 10 i j := by unfold Interior; omega
  rw [serial_after_succ, jacobi_iteration_u]
  dsimp only
  rw [if_pos hin]
  unfold stencil
  norm_num
  ring

theorem err_boundary (mem : SolverState) (k i j : Nat) (hi : i ≤ 9) (hj : j ≤ 9)
    (hb : i = 0 ∨ i = 9 ∨ j = 0 ∨ j = 9) : err mem k i j = 0 := by
  unfold err
  rw [serial_boundary 10 10 mem k i j (by omega) (by omega) (by unfold OnBoundary; omega)]
  norm_num

theorem err_step (mem : SolverState) (k i j : Nat) (hi1 : 1 ≤ i) (hi2 : i ≤ 8)
    (hj1 : 1 ≤ j) (hj2 : j ≤ 8) :
    err mem (k + 1) i j
      = (err mem k (i + 1) j + err mem k (i - 1) j + err mem k i (j + 1)
          + err mem k i (j - 1)) / 4 := by
  unfold err
  rw [serial_interior_step mem k i j hi1 hi2 hj1 hj2]
  ring

theorem res_eq_err (mem : SolverState) (k i j : Nat) :
    res mem k i j = err mem k i j - err mem (k + 1) i j := by
  unfold res err
  ring

theorem res_boundary (mem : SolverState) (k i j : Nat) (hi : i ≤ 9) (hj : j ≤ 9)
    (hb : i = 0 ∨ i = 9 ∨ j = 0 ∨ j = 9) : res mem k i j = 0 := by
  rw [res_eq_err, err_boundary mem k i j hi hj hb, err_boundary mem (k + 1) i j hi hj hb]
  norm_num

theorem res_step (mem : SolverState) (k i j : Nat) (hi1 : 1 ≤ i) (hi2 : i ≤ 8)
    (hj1 : 1 ≤ j) (hj2 : j ≤ 8) :
    res mem (k + 1) i j
      = (res mem k (i + 1) j + res mem k (i - 1) j + res mem k i (j + 1)
          + res mem k i (j - 1)) / 4 := by
  simp only [res_eq_err]
  rw [err_step mem (k + 1) i j hi1 hi2 hj1 hj2, err_step mem k i j hi1 hi2 hj1 hj2]
  ring

theorem err_zero_interior (mem : SolverState) (i j : Nat) (hi1 : 1 ≤ i) (hi2 : i ≤ 8)
    (hj1 : 1 ≤ j) (hj2 : j ≤ 8) : err mem 0 i j = 100 := by
  have hnb : ¬ OnBoundary 10 10 i j := by unfold OnBoundary; omega
  have hi : i < 10 := by omega
  have hj : j < 10 := by omega
  unfold err
  rw [serial_after_zero]
  show 100 - init_grid 10 10 _ i j = 100
  simp only [init_grid_eq, hi, hj, hnb, and_self, if_true, if_false]
  norm_num

/-- The field never exceeds the boundary value. -/
theorem err_nonneg (mem : SolverState) (k : Nat) :
    ∀ i j, i ≤ 9 → j ≤ 9 → 0 ≤ err mem k i j := by
  induction k with
  | zero =>
    intro i j hi hj
    by_cases hb : i = 0 ∨ i = 9 ∨ j = 0 ∨ j = 9
    · rw [err_boundary mem 0 i j hi hj hb]
    · rw [err_zero_interior mem i j (by omega) (by omega) (by omega) (by omega)]
      norm_num
  | succ k ih =>
    intro i j hi hj
    by_cases hb : i = 0 ∨ i = 9 ∨ j = 0 ∨ j = 9
    · rw [err_boundary mem (k + 1) i j hi hj hb]
    · rw [err_step mem k i j (by omega) (by omega) (by omega) (by omega)]
      have b1 := ih (i + 1) j (by omega) hj
      have b2 := ih (i - 1) j (by omega) hj
      have b3 := ih i (j + 1) hi (by omega)
      have b4 := ih i (j - 1) hi (by omega)
      linarith

/-- The distance from the boundary value decays geometrically. -/
theorem err_bound (mem : SolverState) (k : Nat) :
    ∀ i j, i ≤ 9 → j ≤ 9 → |err mem k i j| ≤ 100 / 1156 * (19 / 20) ^ k * weight i j := by
  induction k with
  | zero =>
    intro i j hi hj
    by_cases hb : i = 0 ∨ i = 9 ∨ j = 0 ∨ j = 9
    · rw [err_boundary mem 0 i j hi hj hb, abs_zero]
      exact mul_nonneg (by norm_num) (weight_nonneg i j)
    · rw [err_zero_interior mem i j (by omega) (by omega) (by omega) (by omega)]
      have := weight_interior_ge i j (by omega) (by omega) (by omega) (by omega)
      rw [abs_of_pos (by norm_num), pow_zero]
      linarith
  | succ k ih =>
    intro i j hi hj
    have := average_contracts (err mem k) (err mem (k + 1)) (100 / 1156 * (19 / 20) ^ k)
      (by positivity) ih (err_boundary mem (k + 1)) (err_step mem k) i j hi hj
    rw [pow_succ]
    linarith

/-- A bound by the weight on the change of one pass decays geometrically over the later
passes. -/
theorem res_bound (mem : SolverState) (k : Nat) (A : ℚ) (hA : 0 ≤ A)
    (h : ∀ i j, i ≤ 9 → j ≤ 9 → |res mem k i j| ≤ A * weight i j) (t : Nat) :
    ∀ i j, i ≤ 9 → j ≤ 9 → |res mem (k + t) i j| ≤ A * (19 / 20) ^ t * weight i j := by
  induction t with
  | zero =>
    intro i j hi hj
    rw [pow_zero, mul_one]
    exact h i j hi hj
  | succ t ih =>
    intro i j hi hj
    have := average_contracts (res mem (k + t)) (res mem (k + t + 1)) (A * (19 / 20) ^ t)
      (by positivity) ih (res_boundary mem (k + t + 1)) (res_step mem (k + t)) i j hi hj
    rw [pow_succ, ← Nat.add_assoc]
    linarith

/-- Telescoping the later changes: the distance from the boundary value at pass `k + 1` is
at most the distance `T` passes later plus `19 * A * weight`. -/
theorem err_telescope (mem : SolverState) (k : Nat) (A : ℚ) (hA : 0 ≤ A)
    (h : ∀ i j, i ≤ 9 → j ≤ 9 → |res mem k i j| ≤ A * weight i j) (i j : Nat) (hi : i ≤ 9)
    (hj : j ≤ 9) (T : Nat) :
    err mem (k + 1) i j + 19 * A * weight i j * (19 / 20) ^ T
      ≤ err mem (k + 1 + T) i j + 19 * A * weight i j := by
  induction T with
  | zero => simp
  | succ T ih =>
    have hr := res_bound mem k A hA h (1 + T) i j hi hj
    have hr' := (abs_le.1 hr).2
    have e : k + (1 + T) = k + 1 + T := by omega
    rw [e, res_eq_err] at hr'
    have hw := weight_nonneg i j
    have hp : (0 : ℚ) ≤ (19 / 20) ^ T := by positivity
    have hX : 0 ≤ A * weight i j * (19 / 20) ^ T := by positivity
    have e2 : k + 1 + (T + 1) = k + 1 + T + 1 := by omega
    rw [e2]
    have p1 : ((19 : ℚ) / 20) ^ (T + 1) = (19 / 20) ^ T * (19 / 20) := pow_succ _ _
    have p2 : ((19 : ℚ) / 20) ^ (1 + T) = (19 / 20) ^ T * (19 / 20) := by
      rw [Nat.add_comm]; exact pow_succ _ _
    rw [p2] at hr'
    rw [p1]
    nlinarith [hr', ih, hX]

theorem jacobi_iteration_max_diff (NX NY : Nat) (s : SolverState) :
    (jacobi_iteration NX NY s).max_diff = (stencil_pass NX NY s.u s.u_new).2 := rfl

theorem max_diff_isMax (mem : SolverState) (k : Nat) :
    IsMaxFrom 0 (Interior 10 10) (fun i j => |res mem k i j|)
      (serial_after 10 10 mem (k + 1)).max_diff := by
  have h := stencil_pass_snd 10 10 (serial_after 10 10 mem k).u (serial_after 10 10 mem k).u_new
  rw [serial_after_succ, jacobi_iteration_max_diff]
  obtain ⟨h1, h2, h3⟩ := h
  have hd : ∀ i j, Interior 10 10 i j →
      |stencil (serial_after 10 10 mem k).u i j - (serial_after 10 10 mem k).u i j|
        = |res mem k i j| := by
    intro i j hin
    unfold res
    rw [serial_after_succ, jacobi_iteration_u]
    dsimp only
    rw [if_pos hin]
  refine ⟨h1, ?_, ?_⟩
  · intro i j hin
    show |res mem k i j| ≤ _
    rw [← hd i j hin]
    exact h2 i j hin
  · rcases h3 with h | ⟨i, j, hin, h⟩
    · exact Or.inl h
    · refine Or.inr ⟨i, j, hin, ?_⟩
      show _ = |res mem k i j|
      rw [← hd i j hin]
      exact h

theorem max_diff_le (mem : SolverState) (k : Nat) (B : ℚ) (hB : 0 ≤ B)
    (h : ∀ i j, 1 ≤ i → i ≤ 8 → 1 ≤ j → j ≤ 8 → |res mem k i j| ≤ B) :
    (serial_after 10 10 mem (k + 1)).max_diff ≤ B := by
  obtain ⟨-, -, h3⟩ := max_diff_isMax mem k
  rcases h3 with h0 | ⟨i, j, hin, h0⟩
  · rw [h0]; exact hB
  · rw [h0]
    unfold Interior at hin
    exact h i j hin.1 (by omega) hin.2.2.1 (by omega)

theorem res_le_max_diff (mem : SolverState) (k i j : Nat) (hi1 : 1 ≤ i) (hi2 : i ≤ 8)
    (hj1 : 1 ≤ j) (hj2 : j ≤ 8) :
    |res mem k i j| ≤ (serial_after 10 10 mem (k + 1)).max_diff :=
  (max_diff_isMax mem k).2.1 i j (by unfold Interior; omega)

/-- The distance from the boundary value is small on the whole grid after many passes. -/
theorem err_le (mem : SolverState) (k i j : Nat) (hi : i ≤ 9) (hj : j ≤ 9) :
    |err mem k i j| ≤ 100 / 1156 * (19 / 20) ^ k * 9801 :=
  le_trans (err_bound mem k i j hi hj)
    (mul_le_mul_of_nonneg_left (weight_le i j) (by positivity))

theorem res_le (mem : SolverState) (k i j : Nat) (hi : i ≤ 9) (hj : j ≤ 9) :
    |res mem k i j| ≤ 2 * (100 / 1156 * (19 / 20) ^ k * 9801) := by
  have a := err_le mem k i j hi hj
  have b := err_le mem (k + 1) i j hi hj
  have hq : (0 : ℚ) ≤ 100 / 1156 * (19 / 20) ^ k * 9801 := by positivity
  rw [pow_succ] at b
  rw [res_eq_err]
  have hab : |err mem k i j - err mem (k + 1) i j| ≤ |err mem k i j| + |err mem (k + 1) i j| :=
    abs_sub _ _
  nlinarith [hab, a, b, hq]

/-- Pass 301 of the `10 × 10` run changes no cell by `1e-3` or more. -/
theorem max_diff_small (mem : SolverState) :
    (serial_after 10 10 mem (300 + 1)).max_diff < 1 / 1000 := by
  have hB : (0 : ℚ) ≤ 2 * (100 / 1156 * (19 / 20) ^ 300 * 9801) := by positivity
  refine lt_of_le_of_lt (max_diff_le mem 300 _ hB ?_) (by norm_num)
  intro i j hi1 hi2 hj1 hj2
  exact res_le mem 300 i j (by omega) (by omega)

/-- When a pass changes no interior cell by `1e-3` or more, every cell is within `1` of the
boundary value after it. -/
theorem err_small_at_convergence (mem : SolverState) (k : Nat)
    (h : (serial_after 10 10 mem (k + 1)).max_diff < 1 / 1000) (i j : Nat) (hi : i ≤ 9)
    (hj : j ≤ 9) : err mem (k + 1) i j ≤ 1 := by
  have hA : (0 : ℚ) ≤ 1 / 1156000 := by norm_num
  have hres : ∀ i j, i ≤ 9 → j ≤ 9 → |res mem k i j| ≤ 1 / 1156000 * weight i j := by
    intro i j hi hj
    by_cases hb : i = 0 ∨ i = 9 ∨ j = 0 ∨ j = 9
    · rw [res_boundary mem k i j hi hj hb, abs_zero]
      exact mul_nonneg hA (weight_nonneg i j)
    · have h1 := res_le_max_diff mem k i j (by omega) (by omega) (by omega) (by omega)
      have h2 := weight_interior_ge i j (by omega) (by omega) (by omega) (by omega)
      linarith
  have hX0 : (0 : ℚ) ≤ (19 / 20) ^ 300 := by positivity
  have hnum : (100 : ℚ) / 1156 * (19 / 20) ^ 300 * 9801 + 19 * (1 / 1156000) * 9801 ≤ 1 := by
    norm_num
  have tele := err_telescope mem k (1 / 1156000) hA hres i j hi hj 300
  have hfar := le_trans (le_abs_self _) (err_le mem (k + 1 + 300) i j hi hj)
  rw [pow_add] at hfar
  have hk1 : ((19 : ℚ) / 20) ^ (k + 1) ≤ 1 := pow_le_one₀ (by norm_num) (by norm_num)
  have hk0 : (0 : ℚ) ≤ (19 / 20) ^ (k + 1) := by positivity
  have hw := weight_le i j
  have hw0 := weight_nonneg i j
  generalize ((19 : ℚ) / 20) ^ 300 = X at hX0 hnum tele hfar
  generalize ((19 : ℚ) / 20) ^ (k + 1) = Y at hk1 hk0 hfar
  have hwX : 0 ≤ weight i j * X := mul_nonneg hw0 hX0
  have hYX : Y * X ≤ X := by nlinarith [hk1, hX0]
  nlinarith [tele, hfar, hw, hw0, hwX, hYX, hnum]

/-- A predicate on the naturals that holds somewhere holds at a first place. -/
theorem exists_first (Q : Nat → Prop) (h : ∃ m, Q m) : ∃ m, Q m ∧ ∀ k, k < m → ¬ Q k := by
  classical
  exact ⟨Nat.find h, Nat.find_spec h, fun k hk => Nat.find_min h hk⟩

/-! ### A run on the `3 × 3` grid -/

/-- The first pass on the `3 × 3` grid lifts the only interior cell from `0` to `100`. -/
theorem three_by_three_first_pass : (serial_after 3 3 zero_mem 1).max_diff = 100 := by
  simp [serial_after, serial_start, jacobi_iteration, stencil_pass, forLoop, forCount, setCell,
    init_grid, zero_mem]
  norm_num

/-- The second pass on the `3 × 3` grid changes nothing. -/
theorem three_by_three_second_pass : (serial_after 3 3 zero_mem 2).max_diff = 0 := by
  simp [serial_after, serial_start, jacobi_iteration, stencil_pass, copy_back, forLoop,
    forCount, setCell, init_grid, zero_mem]

/-! ### The single-process run, cell by cell, for every grid size -/

theorem serial_init_cell (NX NY : Nat) (mem : SolverState) (i j : Nat) (hi : i < NX)
    (hj : j < NY) :
    (serial_after NX NY mem 0).u i j = if OnBoundary NX NY i j then 100 else 0 := by
  rw [serial_after_zero]
  show init_grid NX NY _ i j = _
  simp only [init_grid_eq, hi, hj, and_self, if_true]

theorem serial_step_interior (NX NY : Nat) (mem : SolverState) (k i j : Nat)
    (h : Interior NX NY i j) :
    (serial_after NX NY mem (k + 1)).u i j
      = ((serial_after NX NY mem k).u (i + 1) j + (serial_after NX NY mem k).u (i - 1) j
          + (serial_after NX NY mem k).u i (j + 1) + (serial_after NX NY mem k).u i (j - 1)) / 4 := by
  rw [serial_after_succ, jacobi_iteration_u]
  dsimp only
  rw [if_pos h]
  unfold stencil
  norm_num
  ring

theorem serial_step_other (NX NY : Nat) (mem : SolverState) (k i j : Nat)
    (h : ¬ Interior NX NY i j) :
    (serial_after NX NY mem (k + 1)).u i j = (serial_after NX NY mem k).u i j := by
  rw [serial_after_succ, jacobi_iteration_u]
  dsimp only
  rw [if_neg h]

theorem change_other (NX NY : Nat) (mem : SolverState) (k i j : Nat)
    (h : ¬ Interior NX NY i j) : change NX NY mem k i j = 0 := by
  unfold change
  rw [serial_step_other NX NY mem k i j h]
  ring

theorem change_step (NX NY : Nat) (mem : SolverState) (k i j : Nat)
    (h : Interior NX NY i j) :
    change NX NY mem (k + 1) i j
      = (change NX NY mem k (i + 1) j + change NX NY mem k (i - 1) j
          + change NX NY mem k i (j + 1) + change NX NY mem k i (j - 1)) / 4 := by
  unfold change
  rw [serial_step_interior NX NY mem (k + 1) i j h, serial_step_interior NX NY mem k i j h]
  ring

/-- Every cell of the field stays between the interior and the boundary value. -/
theorem serial_range (NX NY : Nat) (mem : SolverState) (k : Nat) :
    ∀ i j, i < NX → j < NY →
      0 ≤ (serial_after NX NY mem k).u i j ∧ (serial_after NX NY mem k).u i j ≤ 100 := by
  induction k with
  | zero =>
    intro i j hi hj
    rw [serial_init_cell NX NY mem i j hi hj]
    split_ifs <;> norm_num
  | succ k ih =>
    intro i j hi hj
    by_cases h : Interior NX NY i j
    · rw [serial_step_interior NX NY mem k i j h]
      unfold Interior at h
      have b1 := ih (i + 1) j (by omega) hj
      have b2 := ih (i - 1) j (by omega) hj
      have b3 := ih i (j + 1) hi (by omega)
      have b4 := ih i (j - 1) hi (by omega)
      constructor <;> linarith [b1.1, b1.2, b2.1, b2.2, b3.1, b3.2, b4.1, b4.2]
    · rw [serial_step_other NX NY mem k i j h]
      exact ih i j hi hj

/-- No pass lowers a cell. -/
theorem change_nonneg (NX NY : Nat) (mem : SolverState) (k : Nat) :
    ∀ i j, i < NX → j < NY → 0 ≤ change NX NY mem k i j := by
  induction k with
  | zero =>
    intro i j hi hj
    by_cases h : Interior NX NY i j
    · have h0 : (serial_after NX NY mem 0).u i j = 0 := by
        rw [serial_init_cell NX NY mem i j hi hj, if_neg]
        unfold Interior at h; unfold OnBoundary; omega
      have h1 := (serial_range NX NY mem 1 i j hi hj).1
      unfold change
      rw [h0]
      linarith
    · rw [change_other NX NY mem 0 i j h]
  | succ k ih =>
    intro i j hi hj
    by_cases h : Interior NX NY i j
    · rw [change_step NX NY mem k i j h]
      unfold Interior at h
      have b1 := ih (i + 1) j (by omega) hj
      have b2 := ih (i - 1) j (by omega) hj
      have b3 := ih i (j + 1) hi (by omega)
      have b4 := ih i (j - 1) hi (by omega)
      linarith
    · rw [change_other NX NY mem (k + 1) i j h]

/-- The residual of pass `k + 1` is the greatest change of an interior cell. -/
theorem serial_max_diff_isMax (NX NY : Nat) (mem : SolverState) (k : Nat) :
    IsMaxFrom 0 (Interior NX NY) (fun i j => |change NX NY mem k i j|)
      (serial_after NX NY mem (k + 1)).max_diff := by
  have h := stencil_pass_snd NX NY (serial_after NX NY mem k).u (serial_after NX NY mem k).u_new
  rw [serial_after_succ, jacobi_iteration_max_diff]
  obtain ⟨h1, h2, h3⟩ := h
  have hd : ∀ i j, Interior NX NY i j →
      |stencil (serial_after NX NY mem k).u i j - (serial_after NX NY mem k).u i j|
        = |change NX NY mem k i j| := by
    intro i j hin
    unfold change
    rw [serial_after_succ, jacobi_iteration_u]
    dsimp only
    rw [if_pos hin]
  refine ⟨h1, ?_, ?_⟩
  · intro i j hin
    show |change NX NY mem k i j| ≤ _
    rw [← hd i j hin]
    exact h2 i j hin
  · rcases h3 with h | ⟨i, j, hin, h⟩
    · exact Or.inl h
    · refine Or.inr ⟨i, j, hin, ?_⟩
      show _ = |change NX NY mem k i j|
      rw [← hd i j hin]
      exact h

/-! ### The halo exchange, cell by cell -/

theorem actual_ny_ge (NY size rank : Nat) : 2 ≤ actual_ny NY size rank := by
  unfold actual_ny; omega

/-- What one halo exchange does to the array of a rank, for `1 ≤ P ≤ NY - 2`. -/
theorem halo_exchange_cells (NX NY P : Nat) (hP : 1 ≤ P) (hPN : P ≤ NY - 2) (w : World)
    (r i j : Nat) (hr : r < P) :
    halo_exchange NX NY P w r i j =
      if 0 < r ∧ j = 0 ∧ i < NX then (w (r - 1)).u i (actual_ny NY P (r - 1) - 2)
      else if r < P - 1 ∧ j = actual_ny NY P r - 1 ∧ i < NX then (w (r + 1)).u i 1
      else (w r).u i j := by
  obtain ⟨f1, f2, f3, f4, -, -, -⟩ := partition_facts hP hPN hr
  rw [halo_exchange_eq]
  dsimp only
  by_cases ht : 0 < r ∧ j = 0 ∧ i < NX
  · rw [if_pos ht, if_neg (by omega)]
    obtain ⟨q, rfl⟩ : ∃ q, r = q + 1 := ⟨r - 1, by omega⟩
    obtain ⟨g1, g2, g3, g4, -, -, -⟩ := partition_facts hP hPN (show q < P by omega)
    rw [halo_top_block_succ]
    dsimp only
    rw [if_pos ⟨ht.2.1, ht.2.2⟩, halo_top_block_of_pos _ _ _ _ _ _ _ (by omega)]
    rfl
  · rw [if_neg ht]
    by_cases hb : r < P - 1 ∧ j = actual_ny NY P r - 1 ∧ i < NX
    · rw [if_pos hb, if_pos hb]
    · rw [if_neg hb, if_neg hb]
      cases r with
      | zero => rfl
      | succ q =>
        rw [halo_top_block_succ]
        dsimp only
        rw [if_neg (by omega)]

/-! ### The flattened solver simulates the nested one -/

theorem Flat.setIdx_zero {NX ny : Nat} {f : Buffer} {g : Grid} (h : Flat NX ny f g)
    {i : Nat} (hny : 0 < ny) (v : ℚ) :
    Flat NX ny (Heat.setIdx f (i * ny) v) (setCell g i 0 v) := by
  have := h.setIdx (i := i) hny v
  rwa [Nat.add_zero] at this

theorem init_local_flat_sim (NX NY sy ny : Nat) (uf : Buffer) (u : Grid)
    (h : Flat NX ny uf u) :
    Flat NX ny (init_local_flat NX NY sy ny uf) (init_local NX NY sy ny u) := by
  unfold init_local_flat init_local
  refine forLoop_rel (Flat NX ny) 0 NX _ _ ?_ _ _ h
  intro i s t _ _ hst
  refine forLoop_rel (Flat NX ny) 0 ny _ _ ?_ _ _ hst
  intro j f g _ hj hfg
  dsimp only
  split_ifs
  · exact (hfg.setIdx hj 0).setIdx hj 100
  · exact hfg.setIdx hj 0

theorem halo_top_block_flat_sim (NX NY size : Nat) (wf : FlatWorld) (w : World)
    (h : ∀ r, Flat NX (actual_ny NY size r) (wf r).u (w r).u) (r : Nat) :
    Flat NX (actual_ny NY size r) (halo_top_block_flat NX NY size wf r)
      (halo_top_block NX NY size w r) := by
  induction r with
  | zero => exact h 0
  | succ r ih =>
    show Flat NX _ (forLoop 0 NX _ _) (forLoop 0 NX _ _)
    refine forLoop_rel (Flat NX (actual_ny NY size (r + 1))) 0 NX _ _ ?_ _ _ (h (r + 1))
    intro i f g _ hi hfg
    have hny := actual_ny_ge NY size r
    have e := ih i (actual_ny NY size r - 2) hi (by omega)
    rw [e]
    exact hfg.setIdx_zero (by have := actual_ny_ge NY size (r + 1); omega) _

theorem halo_exchange_flat_sim (NX NY size : Nat) (wf : FlatWorld) (w : World)
    (h : ∀ r, Flat NX (actual_ny NY size r) (wf r).u (w r).u) (r : Nat) :
    Flat NX (actual_ny NY size r) (halo_exchange_flat NX NY size wf r)
      (halo_exchange NX NY size w r) := by
  unfold halo_exchange_flat halo_exchange
  have htop := halo_top_block_flat_sim NX NY size wf w h r
  by_cases hr : r < size - 1
  · rw [if_pos hr, if_pos hr]
    refine forLoop_rel (Flat NX (actual_ny NY size r)) 0 NX _ _ ?_ _ _ htop
    intro i f g _ hi hfg
    have hny := actual_ny_ge NY size r
    have hny' := actual_ny_ge NY size (r + 1)
    have e := h (r + 1) i 1 hi (by omega)
    have e2 : i * actual_ny NY size r + actual_ny NY size r - 1
        = i * actual_ny NY size r + (actual_ny NY size r - 1) := by omega
    rw [e, e2]
    exact hfg.setIdx (by omega) _
  · rw [if_neg hr, if_neg hr]
    exact htop

theorem gpu_iteration_sim (NX NY size : Nat) (wf : FlatWorld) (w : World)
    (h : FlatRel NX NY size wf w) :
    FlatRel NX NY size (gpu_iteration NX NY size wf) (parallel_iteration NX NY size w) := by
  intro r
  have hex := halo_exchange_flat_sim NX NY size wf w (fun r => (h r).1) r
  obtain ⟨s1, s2⟩ := stencil_pass_flat_sim NX (actual_ny NY size r) _ _ _ _ hex (h r).2.1
  exact ⟨copy_back_flat_sim NX _ _ _ _ _ hex s1, s1, s2⟩

theorem init_world_flat_sim (NX NY size : Nat) (mem : FlatWorld) :
    FlatRel NX NY size (init_world_flat NX NY size mem)
      (init_world NX NY size (unflatten_world NY size mem)) := by
  intro r
  refine ⟨?_, ?_, rfl⟩
  · exact init_local_flat_sim NX NY _ _ _ _ (fun i j _ _ => rfl)
  · exact fun i j _ _ => rfl

theorem flat_world_after_sim (NX NY size : Nat) (mem : FlatWorld) (k : Nat) :
    FlatRel NX NY size (flat_world_after NX NY size mem k)
      (world_after NX NY size (unflatten_world NY size mem) k) := by
  induction k with
  | zero => exact init_world_flat_sim NX NY size mem
  | succ k ih =>
    unfold flat_world_after world_after
    rw [Function.iterate_succ_apply', Function.iterate_succ_apply']
    exact gpu_iteration_sim NX NY size _ _ ih

theorem global_max_diff_flat_eq (NX NY size : Nat) (wf : FlatWorld) (w : World)
    (h : FlatRel NX NY size wf w) (rank : Nat) :
    global_max_diff_flat size wf rank = global_max_diff size w rank := by
  unfold global_max_diff_flat global_max_diff
  have : (fun r => (wf r).max_diff) = (fun r => (w r).max_diff) := funext (fun r => (h r).2.2)
  rw [this]

/-! ### The residual of the distributed run is the residual of the single-process run -/

/-- Every interior row has an owner. -/
theorem exists_owner {NY P : Nat} (hP : 1 ≤ P) (hPN : P ≤ NY - 2) (g : Nat) (hg1 : 1 ≤ g)
    (hg2 : g ≤ NY - 2) : ∃ r, r < P ∧ start_y NY P r ≤ g ∧ g < end_y NY P r := by
  have hL := local_ny_pos hP hPN
  by_cases hq : (g - 1) / local_ny NY P < P - 1
  · refine ⟨(g - 1) / local_ny NY P, by omega, ?_, ?_⟩
    · have := Nat.div_mul_le_self (g - 1) (local_ny NY P)
      unfold start_y
      omega
    · have h1 : (g - 1) / local_ny NY P ≠ P - 1 := by omega
      have h2 : g - 1 < local_ny NY P * ((g - 1) / local_ny NY P + 1) :=
        Nat.lt_mul_div_succ (g - 1) hL
      rw [end_y_eq_start_y_succ h1]
      unfold start_y
      have h3 : local_ny NY P * ((g - 1) / local_ny NY P + 1)
          = ((g - 1) / local_ny NY P + 1) * local_ny NY P := Nat.mul_comm _ _
      omega
  · refine ⟨P - 1, by omega, ?_, ?_⟩
    · have h1 : (P - 1) * local_ny NY P ≤ (g - 1) / local_ny NY P * local_ny NY P :=
        Nat.mul_le_mul_right _ (by omega)
      have h2 := Nat.div_mul_le_self (g - 1) (local_ny NY P)
      unfold start_y
      omega
    · simp only [end_y, if_true]
      omega

/-- On the exchanged local array of a rank the change of an interior cell is the change
of the global cell it stands for. -/
theorem local_diff_eq (NX NY P : Nat) (hP : 1 ≤ P) (hPN : P ≤ NY - 2) (mem : World)
    (smem : SolverState) (k r i j : Nat) (hr : r < P)
    (hin : Interior NX (actual_ny NY P r) i j) :
    Interior NX NY i (start_y NY P r + j - 1) ∧
    |stencil (halo_exchange NX NY P (world_after NX NY P mem k) r) i j
        - halo_exchange NX NY P (world_after NX NY P mem k) r i j|
      = |change NX NY smem k i (start_y NY P r + j - 1)| := by
  obtain ⟨f1, f2, f3, f4, f5, f6, f7⟩ := partition_facts hP hPN hr
  have hex := halo_exchange_agrees NX NY P hP hPN (world_after NX NY P mem k)
    (serial_after NX NY smem k).u
    (by
      intro r i j hr hi hj hnh
      have := world_agrees NX NY P hP hPN mem smem k r i j hr hi hj
      rwa [if_neg hnh] at this)
  have hin2 := hin
  unfold Interior at hin2
  have hin' : Interior NX NY i (start_y NY P r + j - 1) := by
    unfold Interior; omega
  refine ⟨hin', ?_⟩
  unfold change
  rw [serial_after_succ, jacobi_iteration_u]
  dsimp only
  rw [if_pos hin']
  unfold stencil
  rw [hex r (i + 1) j hr (by omega) (by omega), hex r (i - 1) j hr (by omega) (by omega),
    hex r i (j + 1) hr (by omega) (by omega), hex r i (j - 1) hr (by omega) (by omega),
    hex r i j hr (by omega) (by omega)]
  have e1 : start_y NY P r + (j + 1) - 1 = start_y NY P r + j - 1 + 1 := by omega
  have e2 : start_y NY P r + (j - 1) - 1 = start_y NY P r + j - 1 - 1 := by omega
  rw [e1, e2]

theorem world_after_max_diff (NX NY P : Nat) (mem : World) (k r : Nat) :
    IsMaxFrom 0 (Interior NX (actual_ny NY P r))
      (fun i j => |stencil (halo_exchange NX NY P (world_after NX NY P mem k) r) i j
        - halo_exchange NX NY P (world_after NX NY P mem k) r i j|)
      (world_after NX NY P mem (k + 1) r).max_diff := by
  rw [world_after_succ]
  exact stencil_pass_snd NX _ _ _

/-- For `1 ≤ P ≤ NY - 2` the value `global_max_diff` of pass `k + 1` of the distributed run
is the residual `max_diff` of pass `k + 1` of the single-process run. -/
theorem global_max_diff_eq_serial (NX NY P : Nat) (hP : 1 ≤ P) (hPN : P ≤ NY - 2)
    (mem : World) (smem : SolverState) (k rank : Nat) :
    global_max_diff P (world_after NX NY P mem (k + 1)) rank
      = (serial_after NX NY smem (k + 1)).max_diff := by
  obtain ⟨hle, r0, hr0, hG⟩ := MPI_Allreduce_MAX_spec P hP
    (fun r => (world_after NX NY P mem (k + 1) r).max_diff) rank
  refine IsMaxFrom.unique ?_ (serial_max_diff_isMax NX NY smem k)
  show IsMaxFrom 0 (Interior NX NY) (fun i j => |change NX NY smem k i j|)
    (MPI_Allreduce_MAX P (fun r => (world_after NX NY P mem (k + 1) r).max_diff) rank)
  refine ⟨?_, ?_, ?_⟩
  · rw [hG]
    exact (world_after_max_diff NX NY P mem k r0).1
  · intro i g hin
    have hin2 := hin
    unfold Interior at hin2
    obtain ⟨r, hr, hs, he⟩ := exists_owner hP hPN g hin2.2.2.1 hin2.2.2.2
    obtain ⟨f1, f2, f3, f4, -, -, -⟩ := partition_facts hP hPN hr
    have hloc : Interior NX (actual_ny NY P r) i (g - start_y NY P r + 1) := by
      unfold Interior; omega
    obtain ⟨-, hd⟩ := local_diff_eq NX NY P hP hPN mem smem k r i _ hr hloc
    have hg : start_y NY P r + (g - start_y NY P r + 1) - 1 = g := by omega
    rw [hg] at hd
    show |change NX NY smem k i g| ≤ _
    rw [← hd]
    exact le_trans ((world_after_max_diff NX NY P mem k r).2.1 i _ hloc) (hle r hr)
  · rcases (world_after_max_diff NX NY P mem k r0).2.2 with h0 | ⟨i, j, hin, h⟩
    · left
      rw [hG]
      exact h0
    · right
      obtain ⟨hin', hd⟩ := local_diff_eq NX NY P hP hPN mem smem k r0 i j hr0 hin
      refine ⟨i, _, hin', ?_⟩
      show _ = |change NX NY smem k i (start_y NY P r0 + j - 1)|
      rw [hG, ← hd]
      exact h

/-- The same for every pass counted from 1. -/
theorem global_max_diff_eq_serial_pos (NX NY P : Nat) (hP : 1 ≤ P) (hPN : P ≤ NY - 2)
    (mem : World) (smem : SolverState) (m rank : Nat) (hm : 1 ≤ m) :
    global_max_diff P (world_after NX NY P mem m) rank
      = (serial_after NX NY smem m).max_diff := by
  obtain ⟨k, rfl⟩ : ∃ k, m = k + 1 := ⟨m - 1, by omega⟩
  exact global_max_diff_eq_serial NX NY P hP hPN mem smem k rank

/-- The residual sequence of `heat_gpu_openacc.c` is the one of `heat_parallel.c`. -/
theorem global_max_diff_flat_eq_parallel (NX NY size : Nat) (mem : FlatWorld) (k rank : Nat) :
    global_max_diff_flat size (flat_world_after NX NY size mem k) rank
      = global_max_diff size (world_after NX NY size (unflatten_world NY size mem) k) rank :=
  global_max_diff_flat_eq NX NY size _ _ (flat_world_after_sim NX NY size mem k) rank

/-! ### Changes below a bound stay below it -/

/-- Averaging does not raise the greatest change: if no cell changes by more than `δ` in
one pass, no cell does in any later pass. -/
theorem change_bound_persists (NX NY : Nat) (mem : SolverState) (k : Nat) (δ : ℚ)
    (h : ∀ i j, i < NX → j < NY → |change NX NY mem k i j| ≤ δ) (t : Nat) :
    ∀ i j, i < NX → j < NY → |change NX NY mem (k + t) i j| ≤ δ := by
  induction t with
  | zero => exact h
  | succ t ih =>
    intro i j hi hj
    have hδ : 0 ≤ δ := le_trans (abs_nonneg _) (h i j hi hj)
    by_cases hin : Interior NX NY i j
    · rw [← Nat.add_assoc, change_step NX NY mem (k + t) i j hin]
      unfold Interior at hin
      have b1 := abs_le.1 (ih (i + 1) j (by omega) hj)
      have b2 := abs_le.1 (ih (i - 1) j (by omega) hj)
      have b3 := abs_le.1 (ih i (j + 1) hi (by omega))
      have b4 := abs_le.1 (ih i (j - 1) hi (by omega))
      rw [abs_le]
      constructor <;> linarith [b1.1, b1.2, b2.1, b2.2, b3.1, b3.2, b4.1, b4.2]
    · rw [← Nat.add_assoc, change_other NX NY mem (k + t + 1) i j hin, abs_zero]
      exact hδ

/-- Over `T` passes a cell rises by at most `T` times a bound on the change of the first
of them. -/
theorem rise_le (NX NY : Nat) (mem : SolverState) (k : Nat) (δ : ℚ)
    (h : ∀ i j, i < NX → j < NY → |change NX NY mem k i j| ≤ δ) (i j : Nat) (hi : i < NX)
    (hj : j < NY) (T : Nat) :
    (serial_after NX NY mem (k + T)).u i j - (serial_after NX NY mem k).u i j ≤ T * δ := by
  induction T with
  | zero => simp
  | succ T ih =>
    have hc := (abs_le.1 (change_bound_persists NX NY mem k δ h T i j hi hj)).2
    unfold change at hc
    rw [← Nat.add_assoc]
    push_cast
    linarith

/-! ### The `500 × 500` run does not reach the tolerance `1e-6` in 1000 passes -/

theorem parabola_nonneg (i : Nat) (hi : i ≤ 499) : 0 ≤ parabola i := by
  unfold parabola
  have h1 : (0 : ℚ) ≤ (i : ℚ) := Nat.cast_nonneg i
  have h2 : (i : ℚ) ≤ 499 := by exact_mod_cast hi
  exact mul_nonneg h1 (by linarith)

theorem parabola_zero : parabola 0 = 0 := by
  unfold parabola; norm_num

theorem parabola_last : parabola 499 = 0 := by
  unfold parabola; norm_num

theorem parabola_ge (i : Nat) (hi1 : 1 ≤ i) (hi2 : i ≤ 498) : 498 ≤ parabola i := by
  unfold parabola
  have h1 : (1 : ℚ) ≤ (i : ℚ) := by exact_mod_cast hi1
  have h2 : (i : ℚ) ≤ 498 := by exact_mod_cast hi2
  nlinarith [mul_nonneg (sub_nonneg.2 h1) (sub_nonneg.2 h2)]

theorem parabola_le (i : Nat) : parabola i ≤ 62250 := by
  unfold parabola
  rcases Nat.lt_or_ge i 250 with h | h
  · have h1 : (i : ℚ) ≤ 249 := by exact_mod_cast (show i ≤ 249 by omega)
    nlinarith [mul_nonneg (sub_nonneg.2 h1) (show (0 : ℚ) ≤ 250 - i by linarith)]
  · have h1 : (250 : ℚ) ≤ (i : ℚ) := by exact_mod_cast h
    nlinarith [mul_nonneg (sub_nonneg.2 h1) (show (0 : ℚ) ≤ (i : ℚ) - 249 by linarith)]

theorem parabola_neighbours (i : Nat) (hi : 1 ≤ i) :
    parabola (i + 1) + parabola (i - 1) = 2 * parabola i - 2 := by
  unfold parabola
  rw [Nat.cast_sub hi]
  push_cast
  ring

theorem parabola_centre : parabola 249 = 62250 := by
  unfold parabola; norm_num

/-- The sum of the product weight over the four neighbours of an interior cell. -/
theorem parabola_product_neighbours (i j : Nat) (hi : 1 ≤ i) (hj : 1 ≤ j) :
    parabola (i + 1) * parabola j + parabola (i - 1) * parabola j
        + parabola i * parabola (j + 1) + parabola i * parabola (j - 1)
      = 4 * (parabola i * parabola j) - 2 * (parabola i + parabola j) := by
  have a := parabola_neighbours i hi
  have b := parabola_neighbours j hj
  have e1 : parabola (i + 1) * parabola j + parabola (i - 1) * parabola j
      = (parabola (i + 1) + parabola (i - 1)) * parabola j := by ring
  have e2 : parabola i * parabola (j + 1) + parabola i * parabola (j - 1)
      = parabola i * (parabola (j + 1) + parabola (j - 1)) := by ring
  rw [add_assoc, e1, e2, a, b]
  ring

theorem serial_500_boundary (mem : SolverState) (k i j : Nat) (hi : i ≤ 499) (hj : j ≤ 499)
    (hb : ¬ Interior 500 500 i j) :
    (serial_after 500 500 mem k).u i j = 100 ∧ parabola i * parabola j = 0 := by
  have hb' : i = 0 ∨ i = 499 ∨ j = 0 ∨ j = 499 := by unfold Interior at hb; omega
  constructor
  · exact serial_boundary 500 500 mem k i j (by omega) (by omega) (by unfold OnBoundary; omega)
  · rcases hb' with h | h | h | h <;> subst h <;> simp [parabola_zero, parabola_last]

/-- The field stays away from the boundary value: a lower bound on `100 - u` that decays by
`497/498` per pass. -/
theorem deficit_lower (mem : SolverState) (k : Nat) :
    ∀ i j, i ≤ 499 → j ≤ 499 →
      100 / (62250 * 62250) * (497 / 498) ^ k * (parabola i * parabola j)
        ≤ 100 - (serial_after 500 500 mem k).u i j := by
  induction k with
  | zero =>
    intro i j hi hj
    by_cases hin : Interior 500 500 i j
    · have h0 : (serial_after 500 500 mem 0).u i j = 0 := by
        rw [serial_init_cell 500 500 mem i j (by omega) (by omega), if_neg]
        unfold Interior at hin; unfold OnBoundary; omega
      rw [h0, pow_zero]
      have a := parabola_le i
      have b := parabola_le j
      have a0 := parabola_nonneg i hi
      have b0 := parabola_nonneg j hj
      have hab : parabola i * parabola j ≤ 62250 * 62250 := mul_le_mul a b b0 (by norm_num)
      have : 100 / (62250 * 62250) * 1 * (parabola i * parabola j)
          = 100 * (parabola i * parabola j) / (62250 * 62250) := by ring
      rw [this, div_le_iff₀ (by norm_num)]
      linarith
    · obtain ⟨h1, h2⟩ := serial_500_boundary mem 0 i j hi hj hin
      rw [h1, h2]
      norm_num
  | succ k ih =>
    intro i j hi hj
    by_cases hin : Interior 500 500 i j
    · rw [serial_step_interior 500 500 mem k i j hin]
      unfold Interior at hin
      have b1 := ih (i + 1) j (by omega) hj
      have b2 := ih (i - 1) j (by omega) hj
      have b3 := ih i (j + 1) hi (by omega)
      have b4 := ih i (j - 1) hi (by omega)
      have hs := parabola_product_neighbours i j hin.1 hin.2.2.1
      have pi := parabola_ge i hin.1 (by omega)
      have pj := parabola_ge j hin.2.2.1 (by omega)
      have hA : (0 : ℚ) ≤ 100 / (62250 * 62250) * (497 / 498) ^ k := by positivity
      have key : 4 * (497 / 498 * (parabola i * parabola j))
          ≤ 4 * (parabola i * parabola j) - 2 * (parabola i + parabola j) := by
        nlinarith [mul_nonneg (sub_nonneg.2 pi) (sub_nonneg.2 pj), pi, pj]
      rw [← hs] at key
      have hk := mul_le_mul_of_nonneg_left key hA
      rw [pow_succ]
      generalize (497 / 498 : ℚ) ^ k = X at *
      nlinarith [hk, b1, b2, b3, b4]
    · obtain ⟨h1, h2⟩ := serial_500_boundary mem (k + 1) i j hi hj hin
      rw [h1, h2]
      norm_num

/-- The field approaches the boundary value no slower than by the factor
`248997/249001` per pass. -/
theorem deficit_upper (mem : SolverState) (k : Nat) :
    ∀ i j, i ≤ 499 → j ≤ 499 →
      100 - (serial_after 500 500 mem k).u i j
        ≤ 100 / (498 * 498) * (248997 / 249001) ^ k * (parabola i * parabola j) := by
  induction k with
  | zero =>
    intro i j hi hj
    by_cases hin : Interior 500 500 i j
    · have h0 : (serial_after 500 500 mem 0).u i j = 0 := by
        rw [serial_init_cell 500 500 mem i j (by omega) (by omega), if_neg]
        unfold Interior at hin; unfold OnBoundary; omega
      unfold Interior at hin
      rw [h0, pow_zero]
      have a := parabola_ge i hin.1 (by omega)
      have b := parabola_ge j hin.2.2.1 (by omega)
      have hab : (498 : ℚ) * 498 ≤ parabola i * parabola j :=
        mul_le_mul a b (by norm_num) (le_trans (by norm_num) a)
      have : 100 / (498 * 498) * 1 * (parabola i * parabola j)
          = 100 * (parabola i * parabola j) / (498 * 498) := by ring
      rw [this, le_div_iff₀ (by norm_num)]
      linarith
    · obtain ⟨h1, h2⟩ := serial_500_boundary mem 0 i j hi hj hin
      rw [h1, h2]
      norm_num
  | succ k ih =>
    intro i j hi hj
    by_cases hin : Interior 500 500 i j
    · rw [serial_step_interior 500 500 mem k i j hin]
      unfold Interior at hin
      have b1 := ih (i + 1) j (by omega) hj
      have b2 := ih (i - 1) j (by omega) hj
      have b3 := ih i (j + 1) hi (by omega)
      have b4 := ih i (j - 1) hi (by omega)
      have hs := parabola_product_neighbours i j hin.1 hin.2.2.1
      have pi := parabola_le i
      have pj := parabola_le j
      have pi0 := parabola_nonneg i hi
      have pj0 := parabola_nonneg j hj
      have hA : (0 : ℚ) ≤ 100 / (498 * 498) * (248997 / 249001) ^ k := by positivity
      have key : 4 * (parabola i * parabola j) - 2 * (parabola i + parabola j)
          ≤ 4 * (248997 / 249001 * (parabola i * parabola j)) := by
        nlinarith [mul_nonneg pi0 (sub_nonneg.2 pj), mul_nonneg pj0 (sub_nonneg.2 pi)]
      rw [← hs] at key
      have hk := mul_le_mul_of_nonneg_left key hA
      rw [pow_succ]
      generalize (248997 / 249001 : ℚ) ^ k = X at *
      nlinarith [hk, b1, b2, b3, b4]
    · obtain ⟨h1, h2⟩ := serial_500_boundary mem (k + 1) i j hi hj hin
      rw [h1, h2]
      norm_num

theorem pow_497_498 : (13 : ℚ) / 100 ≤ (497 / 498) ^ 999 := by norm_num

theorem pow_248997_249001 : ((248997 : ℚ) / 249001) ^ (1000 * 1000) ≤ 3 / 10000000 := by
  have n2 : ((248997 : ℚ) / 249001) ^ 1000 ≤ 985 / 1000 := by norm_num
  have n3 : ((985 : ℚ) / 1000) ^ 1000 ≤ 3 / 10000000 := by norm_num
  rw [pow_mul]
  exact le_trans (pow_le_pow_left₀ (by norm_num) n2 1000) n3

/-- No pass among the first 1000 of the `500 × 500` run has a residual below `1e-6`. -/
theorem no_pass_below_tolerance (mem : SolverState) (m : Nat) (hm1 : 1 ≤ m) (hm : m ≤ 1000) :
    ¬ (serial_after 500 500 mem m).max_diff < 1 / 1000000 := by
  intro hlt
  obtain ⟨k, rfl⟩ : ∃ k, m = k + 1 := ⟨m - 1, by omega⟩
  have hδ : ∀ i j, i < 500 → j < 500 → |change 500 500 mem k i j| ≤ 1 / 1000000 := by
    intro i j _ _
    by_cases hin : Interior 500 500 i j
    · exact le_of_lt (lt_of_le_of_lt ((serial_max_diff_isMax 500 500 mem k).2.1 i j hin) hlt)
    · rw [change_other 500 500 mem k i j hin, abs_zero]
      norm_num
  -- a million further passes, kept as the variable `T`
  obtain ⟨T, hTq, hTpow⟩ : ∃ T : Nat, (T : ℚ) = 1000000 ∧
      ((248997 : ℚ) / 249001) ^ T ≤ 3 / 10000000 :=
    ⟨1000 * 1000, by norm_num, pow_248997_249001⟩
  have rise := rise_le 500 500 mem k (1 / 1000000) hδ 249 249 (by omega) (by omega) T
  have lo := deficit_lower mem k 249 249 (by omega) (by omega)
  have up := deficit_upper mem (k + T) 249 249 (by omega) (by omega)
  rw [parabola_centre] at lo up
  have hX : ((497 : ℚ) / 498) ^ 999 ≤ (497 / 498) ^ k :=
    pow_le_pow_of_le_one (by norm_num) (by norm_num) (by omega)
  have hX' := le_trans pow_497_498 hX
  have hY : ((248997 : ℚ) / 249001) ^ (k + T) ≤ 3 / 10000000 := by
    rw [pow_add]
    have h1 : ((248997 : ℚ) / 249001) ^ k ≤ 1 := pow_le_one₀ (by norm_num) (by norm_num)
    have h0 : (0 : ℚ) ≤ (248997 / 249001) ^ T := by positivity
    generalize ((248997 : ℚ) / 249001) ^ T = Z at *
    generalize ((248997 : ℚ) / 249001) ^ k = Z' at *
    nlinarith
  rw [hTq] at rise
  generalize ((497 : ℚ) / 498) ^ k = X at *
  generalize ((248997 : ℚ) / 249001) ^ (k + T) = Y at *
  have e1 : (100 : ℚ) / (62250 * 62250) * X * (62250 * 62250) = 100 * X := by ring
  have e2 : (100 : ℚ) / (498 * 498) * Y * (62250 * 62250) = 1562500 * Y := by ring
  rw [e1] at lo
  rw [e2] at up
  linarith

/-- The single-process solver on the `500 × 500` grid runs all `1000` passes. -/
theorem heat_serial_500_exhausts (mem : SolverState) :
    (heat_serial 500 500 1000 (1 / 1000000) mem).passes = 1000 ∧
    (heat_serial 500 500 1000 (1 / 1000000) mem).converged = false ∧
    (heat_serial 500 500 1000 (1 / 1000000) mem).state = serial_after 500 500 mem 1000 ∧
    (heat_serial 500 500 1000 (1 / 1000000) mem).iter = 1000 :=
  solver_loop_never_below 1000 (1 / 1000000) (jacobi_iteration 500 500)
    (fun s => s.max_diff) (serial_start 500 500 mem)
    (fun k hk1 hk2 => no_pass_below_tolerance mem k hk1 hk2)

/-- The distributed solver on the `500 × 500` grid runs all `1000` passes on every rank,
for every number of ranks from `1` to `498`. -/
theorem heat_parallel_500_exhausts (P : Nat) (hP : 1 ≤ P) (hPN : P ≤ 498) (mem : World)
    (rank : Nat) :
    (heat_parallel 500 500 P 1000 (1 / 1000000) mem rank).passes = 1000 ∧
    (heat_parallel 500 500 P 1000 (1 / 1000000) mem rank).converged = false ∧
    (heat_parallel 500 500 P 1000 (1 / 1000000) mem rank).state
      = world_after 500 500 P mem 1000 ∧
    (heat_parallel 500 500 P 1000 (1 / 1000000) mem rank).iter = 1000 :=
  solver_loop_never_below 1000 (1 / 1000000) (parallel_iteration 500 500 P)
    (fun w => global_max_diff P w rank) (init_world 500 500 P mem)
    (fun k hk1 hk2 => by
      have e := global_max_diff_eq_serial_pos 500 500 P hP (by omega) mem zero_mem k rank hk1
      show ¬ global_max_diff P (world_after 500 500 P mem k) rank < 1 / 1000000
      rw [e]
      exact no_pass_below_tolerance zero_mem k hk1 hk2)

/-- The accelerated solver on the `500 × 500` grid runs all `1000` passes as well. -/
theorem heat_gpu_openacc_500_exhausts (P : Nat) (hP : 1 ≤ P) (hPN : P ≤ 498)
    (mem : FlatWorld) (rank : Nat) :
    (heat_gpu_openacc 500 500 P 1000 (1 / 1000000) mem rank).passes = 1000 ∧
    (heat_gpu_openacc 500 500 P 1000 (1 / 1000000) mem rank).converged = false ∧
    (heat_gpu_openacc 500 500 P 1000 (1 / 1000000) mem rank).state
      = flat_world_after 500 500 P mem 1000 ∧
    (heat_gpu_openacc 500 500 P 1000 (1 / 1000000) mem rank).iter = 1000 :=
  solver_loop_never_below 1000 (1 / 1000000) (gpu_iteration 500 500 P)
    (fun w => global_max_diff_flat P w rank) (init_world_flat 500 500 P mem)
    (fun k hk1 hk2 => by
      have e1 := global_max_diff_flat_eq_parallel 500 500 P mem k rank
      have e2 := global_max_diff_eq_serial_pos 500 500 P hP (by omega)
        (unflatten_world 500 P mem) zero_mem k rank hk1
      show ¬ global_max_diff_flat P (flat_world_after 500 500 P mem k) rank < 1 / 1000000
      rw [e1, e2]
      exact no_pass_below_tolerance zero_mem k hk1 hk2)

/-! ### The run does not depend on the initial memory content -/

theorem serial_u_indep (NX NY : Nat) (mem mem' : SolverState) (k : Nat) :
    ∀ i j, i < NX → j < NY →
      (serial_after NX NY mem k).u i j = (serial_after NX NY mem' k).u i j := by
  induction k with
  | zero =>
    intro i j hi hj
    rw [serial_init_cell NX NY mem i j hi hj, serial_init_cell NX NY mem' i j hi hj]
  | succ k ih =>
    intro i j hi hj
    by_cases h : Interior NX NY i j
    · rw [serial_step_interior NX NY mem k i j h, serial_step_interior NX NY mem' k i j h]
      unfold Interior at h
      rw [ih (i + 1) j (by omega) hj, ih (i - 1) j (by omega) hj, ih i (j + 1) hi (by omega),
        ih i (j - 1) hi (by omega)]
    · rw [serial_step_other NX NY mem k i j h, serial_step_other NX NY mem' k i j h]
      exact ih i j hi hj

theorem IsMaxFrom.congr {m0 m : ℚ} {P : Nat → Nat → Prop} {d d' : Nat → Nat → ℚ}
    (h : IsMaxFrom m0 P d m) (hd : ∀ i j, P i j → d i j = d' i j) : IsMaxFrom m0 P d' m := by
  obtain ⟨a, b, c⟩ := h
  refine ⟨a, fun i j hp => by rw [← hd i j hp]; exact b i j hp, ?_⟩
  rcases c with c | ⟨i, j, hp, c⟩
  · exact Or.inl c
  · exact Or.inr ⟨i, j, hp, by rw [← hd i j hp]; exact c⟩

theorem serial_max_diff_indep (NX NY : Nat) (mem mem' : SolverState) (m : Nat) (hm : 1 ≤ m) :
    (serial_after NX NY mem m).max_diff = (serial_after NX NY mem' m).max_diff := by
  obtain ⟨k, rfl⟩ : ∃ k, m = k + 1 := ⟨m - 1, by omega⟩
  refine IsMaxFrom.unique (serial_max_diff_isMax NX NY mem k)
    ((serial_max_diff_isMax NX NY mem' k).congr ?_)
  intro i j hin
  unfold Interior at hin
  show |change NX NY mem' k i j| = |change NX NY mem k i j|
  unfold change
  rw [serial_u_indep NX NY mem' mem (k + 1) i j (by omega) (by omega),
    serial_u_indep NX NY mem' mem k i j (by omega) (by omega)]

/-! ### Where the programs leave their loops -/

/-- A single-process solver whose pass `m ≤ MAX_ITER` is the first below the tolerance
leaves its loop through `break` with `iter = m - 1` after `m` passes. -/
theorem heat_serial_converges_at (NX NY MAX_ITER : Nat) (TOL : ℚ) (mem mem' : SolverState)
    (m : Nat) (hm1 : 1 ≤ m) (hmM : m ≤ MAX_ITER)
    (hm : (serial_after NX NY mem m).max_diff < TOL)
    (hfirst : ∀ k, 1 ≤ k → k < m → ¬ (serial_after NX NY mem k).max_diff < TOL) :
    (heat_serial NX NY MAX_ITER TOL mem').passes = m ∧
    (heat_serial NX NY MAX_ITER TOL mem').converged = true ∧
    (heat_serial NX NY MAX_ITER TOL mem').iter = m - 1 := by
  obtain ⟨h1, h2, -, h4⟩ := solver_loop_first_below MAX_ITER TOL (jacobi_iteration NX NY)
    (fun s => s.max_diff) (serial_start NX NY mem') m hm1
    (by
      show (serial_after NX NY mem' m).max_diff < TOL
      rw [serial_max_diff_indep NX NY mem' mem m hm1]; exact hm)
    (fun k hk1 hk2 => by
      show ¬ (serial_after NX NY mem' k).max_diff < TOL
      rw [serial_max_diff_indep NX NY mem' mem k hk1]; exact hfirst k hk1 hk2)
  refine ⟨?_, h2.2 hmM, ?_⟩
  · show (solver_loop MAX_ITER TOL _ _ _).passes = m
    rw [h1]; exact min_eq_right hmM
  · show (solver_loop MAX_ITER TOL _ _ _).iter = m - 1
    rw [h4]; exact min_eq_right (by omega)

/-- The distributed solver leaves its loop where the single-process solver does. -/
theorem heat_parallel_converges_at (NX NY P MAX_ITER : Nat) (TOL : ℚ) (hP : 1 ≤ P)
    (hPN : P ≤ NY - 2) (mem : SolverState) (wmem : World) (rank : Nat)
    (m : Nat) (hm1 : 1 ≤ m) (hmM : m ≤ MAX_ITER)
    (hm : (serial_after NX NY mem m).max_diff < TOL)
    (hfirst : ∀ k, 1 ≤ k → k < m → ¬ (serial_after NX NY mem k).max_diff < TOL) :
    (heat_parallel NX NY P MAX_ITER TOL wmem rank).passes = m ∧
    (heat_parallel NX NY P MAX_ITER TOL wmem rank).converged = true ∧
    (heat_parallel NX NY P MAX_ITER TOL wmem rank).iter = m - 1 := by
  obtain ⟨h1, h2, -, h4⟩ := solver_loop_first_below MAX_ITER TOL (parallel_iteration NX NY P)
    (fun w => global_max_diff P w rank) (init_world NX NY P wmem) m hm1
    (by
      show global_max_diff P (world_after NX NY P wmem m) rank < TOL
      rw [global_max_diff_eq_serial_pos NX NY P hP hPN wmem mem m rank hm1]; exact hm)
    (fun k hk1 hk2 => by
      show ¬ global_max_diff P (world_after NX NY P wmem k) rank < TOL
      rw [global_max_diff_eq_serial_pos NX NY P hP hPN wmem mem k rank hk1]
      exact hfirst k hk1 hk2)
  refine ⟨?_, h2.2 hmM, ?_⟩
  · show (solver_loop MAX_ITER TOL _ _ _).passes = m
    rw [h1]; exact min_eq_right hmM
  · show (solver_loop MAX_ITER TOL _ _ _).iter = m - 1
    rw [h4]; exact min_eq_right (by omega)

/-- The accelerated solver leaves its loop where the single-process solver does. -/
theorem heat_gpu_openacc_converges_at (NX NY P MAX_ITER : Nat) (TOL : ℚ) (hP : 1 ≤ P)
    (hPN : P ≤ NY - 2) (mem : SolverState) (fmem : FlatWorld) (rank : Nat)
    (m : Nat) (hm1 : 1 ≤ m) (hmM : m ≤ MAX_ITER)
    (hm : (serial_after NX NY mem m).max_diff < TOL)
    (hfirst : ∀ k, 1 ≤ k → k < m → ¬ (serial_after NX NY mem k).max_diff < TOL) :
    (heat_gpu_openacc NX NY P MAX_ITER TOL fmem rank).passes = m ∧
    (heat_gpu_openacc NX NY P MAX_ITER TOL fmem rank).converged = true ∧
    (heat_gpu_openacc NX NY P MAX_ITER TOL fmem rank).iter = m - 1 := by
  have e : ∀ k, 1 ≤ k → global_max_diff_flat P (flat_world_after NX NY P fmem k) rank
      = (serial_after NX NY mem k).max_diff := by
    intro k hk
    rw [global_max_diff_flat_eq_parallel,
      global_max_diff_eq_serial_pos NX NY P hP hPN _ mem k rank hk]
  obtain ⟨h1, h2, -, h4⟩ := solver_loop_first_below MAX_ITER TOL (gpu_iteration NX NY P)
    (fun w => global_max_diff_flat P w rank) (init_world_flat NX NY P fmem) m hm1
    (by
      show global_max_diff_flat P (flat_world_after NX NY P fmem m) rank < TOL
      rw [e m hm1]; exact hm)
    (fun k hk1 hk2 => by
      show ¬ global_max_diff_flat P (flat_world_after NX NY P fmem k) rank < TOL
      rw [e k hk1]
      exact hfirst k hk1 hk2)
  refine ⟨?_, h2.2 hmM, ?_⟩
  · show (solver_loop MAX_ITER TOL _ _ _).passes = m
    rw [h1]; exact min_eq_right hmM
  · show (solver_loop MAX_ITER TOL _ _ _).iter = m - 1
    rw [h4]; exact min_eq_right (by omega)

/-- The conversion `%d` of `m - 1 + 1` is the one of `m`. -/
theorem fmt_d_succ_pred (m : Nat) (hm : 1 ≤ m) :
    fmt_d (((m - 1 : Nat) : Int) + 1) = fmt_d (m : Int) := by
  have : ((m - 1 : Nat) : Int) + 1 = (m : Int) := by omega
  rw [this]

/-! ### The rounding to `double` -/

/-- The exponent search returns the largest `k` of its range with `d * 2 ^ k ≤ n`, or the
start of the range. -/
theorem search_exponent_spec (n d : Nat) (bits lo : Nat) :
    lo ≤ search_exponent n d bits lo ∧ search_exponent n d bits lo < lo + 2 ^ bits ∧
    (search_exponent n d bits lo = lo ∨ d * 2 ^ search_exponent n d bits lo ≤ n) ∧
    (search_exponent n d bits lo + 1 < lo + 2 ^ bits →
      n < d * 2 ^ (search_exponent n d bits lo + 1)) := by
  induction bits generalizing lo with
  | zero =>
    refine ⟨le_refl _, ?_, Or.inl rfl, fun h => ?_⟩
    · show lo < lo + 2 ^ 0
      omega
    · exfalso
      have : search_exponent n d 0 lo = lo := rfl
      rw [this] at h
      simp at h
  | succ b ih =>
    have hp : 2 ^ (b + 1) = 2 ^ b + 2 ^ b := by rw [pow_succ]; omega
    by_cases h : d * 2 ^ (lo + 2 ^ b) ≤ n
    · have e : search_exponent n d (b + 1) lo = search_exponent n d b (lo + 2 ^ b) := by
        show (if d * 2 ^ (lo + 2 ^ b) ≤ n then _ else _) = _
        rw [if_pos h]
      rw [e, hp]
      obtain ⟨h1, h2, h3, h4⟩ := ih (lo + 2 ^ b)
      refine ⟨by omega, by omega, Or.inr ?_, fun hlt => h4 (by omega)⟩
      rcases h3 with h3 | h3
      · rw [h3]; exact h
      · exact h3
    · have e : search_exponent n d (b + 1) lo = search_exponent n d b lo := by
        show (if d * 2 ^ (lo + 2 ^ b) ≤ n then _ else _) = _
        rw [if_neg h]
      rw [e, hp]
      obtain ⟨h1, h2, h3, h4⟩ := ih lo
      refine ⟨h1, by omega, h3, fun _ => ?_⟩
      by_cases hc : search_exponent n d b lo + 1 < lo + 2 ^ b
      · exact h4 hc
      · have e2 : search_exponent n d b lo + 1 = lo + 2 ^ b := by omega
        rw [e2]
        exact not_le.1 h

/-- The value of `round_half_even a b` is within `1 / 2` of `a / b`, and even when it is at
`1 / 2`. -/
theorem round_half_even_spec (a b : Nat) (hb : 0 < b) :
    |(a : ℚ) / b - round_half_even a b| ≤ 1 / 2 ∧
    (|(a : ℚ) / b - round_half_even a b| = 1 / 2 → round_half_even a b % 2 = 0) := by
  have hbq : (0 : ℚ) < b := by exact_mod_cast hb
  have hdiv : (a : ℚ) / b = (a / b : Nat) + ((a % b : Nat) : ℚ) / b := by
    have h := Nat.div_add_mod a b
    have h2 : (a : ℚ) = (b : ℚ) * (a / b : Nat) + (a % b : Nat) := by exact_mod_cast h.symm
    rw [h2]
    field_simp
    ring
  have hr : a % b < b := Nat.mod_lt a hb
  have hrq : ((a % b : Nat) : ℚ) < b := by exact_mod_cast hr
  have hr0 : (0 : ℚ) ≤ ((a % b : Nat) : ℚ) := Nat.cast_nonneg _
  have hfrac0 : (0 : ℚ) ≤ ((a % b : Nat) : ℚ) / b := div_nonneg hr0 hbq.le
  unfold round_half_even
  dsimp only
  by_cases h1 : 2 * (a % b) < b
  · rw [if_pos h1, hdiv]
    have h1q : 2 * ((a % b : Nat) : ℚ) < b := by exact_mod_cast h1
    have hlt : ((a % b : Nat) : ℚ) / b < 1 / 2 := by
      rw [div_lt_iff₀ hbq]; linarith
    have e : ((a / b : Nat) : ℚ) + ((a % b : Nat) : ℚ) / b - (a / b : Nat)
        = ((a % b : Nat) : ℚ) / b := by ring
    rw [e, abs_of_nonneg hfrac0]
    exact ⟨hlt.le, fun h => absurd h (ne_of_lt hlt)⟩
  · rw [if_neg h1]
    by_cases h2 : b < 2 * (a % b)
    · rw [if_pos h2, hdiv]
      have h2q : (b : ℚ) < 2 * ((a % b : Nat) : ℚ) := by exact_mod_cast h2
      have hgt : 1 / 2 < ((a % b : Nat) : ℚ) / b := by
        rw [lt_div_iff₀ hbq]; linarith
      have hlt1 : ((a % b : Nat) : ℚ) / b < 1 := by
        rw [div_lt_iff₀ hbq]; linarith
      have e : ((a / b : Nat) : ℚ) + ((a % b : Nat) : ℚ) / b - ((a / b + 1 : Nat) : ℚ)
          = -(1 - ((a % b : Nat) : ℚ) / b) := by push_cast; ring
      rw [e, abs_neg, abs_of_nonneg (by linarith)]
      exact ⟨by linarith, fun h => absurd h (by linarith)⟩
    · rw [if_neg h2]
      have h3 : 2 * (a % b) = b := by omega
      have h3q : 2 * ((a % b : Nat) : ℚ) = b := by exact_mod_cast h3
      have hhalf : ((a % b : Nat) : ℚ) / b = 1 / 2 := by
        rw [div_eq_iff (ne_of_gt hbq)]; linarith
      by_cases h4 : a / b % 2 = 0
      · rw [if_pos h4, hdiv, hhalf]
        have e : ((a / b : Nat) : ℚ) + 1 / 2 - (a / b : Nat) = 1 / 2 := by ring
        rw [e, abs_of_nonneg (by norm_num)]
        exact ⟨le_refl _, fun _ => h4⟩
      · rw [if_neg h4, hdiv, hhalf]
        have e : ((a / b : Nat) : ℚ) + 1 / 2 - ((a / b + 1 : Nat) : ℚ) = -(1 / 2) := by
          push_cast; ring
        rw [e, abs_neg, abs_of_nonneg (by norm_num)]
        exact ⟨le_refl _, fun _ => by omega⟩

/-- The rounding with the two powers of two of the format as parameters. -/
theorem round_core_spec (x : ℚ) (P Q k m : Nat) (hP : 0 < P) (hQ : 0 < Q)
    (hk : search_exponent (x.num.natAbs * P) x.den 11 0 = k)
    (hm : round_half_even (x.num.natAbs * Q) (x.den * 2 ^ k) = m) :
    k < 2048 ∧
      mkRat (if x.num < 0 then -((m * 2 ^ k : Nat) : Int) else ((m * 2 ^ k : Nat) : Int)) Q
        = (if x < 0 then -1 else 1) * ((m : ℚ) * (2 ^ k / Q)) ∧
      (k = 0 ∨ (2 : ℚ) ^ k / P ≤ |x|) ∧
      (k = 2047 ∨ |x| < (2 : ℚ) ^ (k + 1) / P) ∧
      |(|x| - (m : ℚ) * (2 ^ k / Q))| ≤ 2 ^ k / Q / 2 ∧
      (|(|x| - (m : ℚ) * (2 ^ k / Q))| = 2 ^ k / Q / 2 → m % 2 = 0) := by
  have hd : 0 < x.den := x.den_pos
  have hdq : (0 : ℚ) < x.den := by exact_mod_cast hd
  have hPq : (0 : ℚ) < P := by exact_mod_cast hP
  have hQq : (0 : ℚ) < Q := by exact_mod_cast hQ
  have habs : |x| = (x.num.natAbs : ℚ) / x.den := by
    rw [Rat.abs_def, Rat.divInt_eq_div, Int.cast_natCast, Int.cast_natCast]
  obtain ⟨-, h2, h3, h4⟩ := search_exponent_spec (x.num.natAbs * P) x.den 11 0
  rw [hk] at h2 h3 h4
  have hB : 0 < x.den * 2 ^ k := Nat.mul_pos hd (pow_pos (by norm_num) _)
  obtain ⟨r1, r2⟩ := round_half_even_spec (x.num.natAbs * Q) (x.den * 2 ^ k) hB
  rw [hm] at r1 r2
  have h2k : (0 : ℚ) < 2 ^ k := by positivity
  have hu : (0 : ℚ) < 2 ^ k / Q := div_pos h2k hQq
  have hscale : ((x.num.natAbs * Q : Nat) : ℚ) / ((x.den * 2 ^ k : Nat) : ℚ)
      = |x| / (2 ^ k / Q) := by
    rw [habs]
    push_cast
    field_simp
  rw [hscale] at r1 r2
  have hdist : |(|x| - (m : ℚ) * (2 ^ k / Q))|
      = |(|x| / (2 ^ k / Q) - m)| * (2 ^ k / Q) := by
    have e1 : |x| - (m : ℚ) * (2 ^ k / Q) = (|x| / (2 ^ k / Q) - m) * (2 ^ k / Q) := by
      field_simp
      ring
    rw [e1, abs_mul, abs_of_pos hu]
  have hk2 : k < 2048 := by
    have e : (0 : Nat) + 2 ^ 11 = 2048 := by norm_num
    omega
  refine ⟨hk2, ?_, ?_, ?_, ?_, ?_⟩
  · rw [Rat.mkRat_eq_div]
    by_cases hneg : x < 0
    · rw [if_pos hneg, if_pos (Rat.num_neg.2 hneg)]
      push_cast
      ring
    · rw [if_neg hneg, if_neg (fun h => hneg (Rat.num_neg.1 h))]
      push_cast
      ring
  · rcases h3 with h3 | h3
    · exact Or.inl h3
    · right
      have hq : (x.den : ℚ) * 2 ^ k ≤ (x.num.natAbs : ℚ) * P := by exact_mod_cast h3
      rw [habs, div_le_div_iff₀ hPq hdq]
      linarith
  · by_cases hk1 : k = 2047
    · exact Or.inl hk1
    · right
      have h := h4 (by
        have e : (0 : Nat) + 2 ^ 11 = 2048 := by norm_num
        omega)
      have hq : (x.num.natAbs : ℚ) * P < (x.den : ℚ) * 2 ^ (k + 1) := by exact_mod_cast h
      rw [habs, div_lt_div_iff₀ hdq hPq]
      linarith
  · rw [hdist]
    calc |(|x| / (2 ^ k / Q) - m)| * (2 ^ k / Q)
        ≤ 1 / 2 * (2 ^ k / Q) := mul_le_mul_of_nonneg_right r1 hu.le
      _ = 2 ^ k / Q / 2 := by ring
  · intro h
    rw [hdist] at h
    apply r2
    have h5 : |(|x| / (2 ^ k / Q) - m)| * (2 ^ k / Q) = 1 / 2 * (2 ^ k / Q) := by
      rw [h]; ring
    exact mul_right_cancel₀ (ne_of_gt hu) h5

/-- The rounding for a format with least normal exponent `-p` and least unit `2 ^ (-q)`. -/
theorem round_format_spec (x : ℚ) (p q : Nat) :
    ∃ k m : Nat, k < 2048 ∧
      mkRat (if x.num < 0
          then -((round_half_even (x.num.natAbs * 2 ^ q)
            (x.den * 2 ^ search_exponent (x.num.natAbs * 2 ^ p) x.den 11 0)
              * 2 ^ search_exponent (x.num.natAbs * 2 ^ p) x.den 11 0 : Nat) : Int)
          else ((round_half_even (x.num.natAbs * 2 ^ q)
            (x.den * 2 ^ search_exponent (x.num.natAbs * 2 ^ p) x.den 11 0)
              * 2 ^ search_exponent (x.num.natAbs * 2 ^ p) x.den 11 0 : Nat) : Int)) (2 ^ q)
        = (if x < 0 then -1 else 1) * ((m : ℚ) * (2 ^ k / 2 ^ q)) ∧
      (k = 0 ∨ (2 : ℚ) ^ k / 2 ^ p ≤ |x|) ∧
      (k = 2047 ∨ |x| < (2 : ℚ) ^ (k + 1) / 2 ^ p) ∧
      |(|x| - (m : ℚ) * (2 ^ k / 2 ^ q))| ≤ 2 ^ k / 2 ^ q / 2 ∧
      (|(|x| - (m : ℚ) * (2 ^ k / 2 ^ q))| = 2 ^ k / 2 ^ q / 2 → m % 2 = 0) := by
  have h := round_core_spec x (2 ^ p) (2 ^ q) _ _ (Nat.two_pow_pos p) (Nat.two_pow_pos q)
    rfl rfl
  have eP : ((2 ^ p : Nat) : ℚ) = 2 ^ p := Nat.cast_pow 2 p
  have eQ : ((2 ^ q : Nat) : ℚ) = 2 ^ q := Nat.cast_pow 2 q
  rw [eP, eQ] at h
  exact ⟨_, _, h⟩

/-- What `round_double` computes.  With `k - 1022` the binary exponent of `|x|`, not below
`-1022`, the value is the multiple `m * 2 ^ (k - 1074)` nearest to `|x|`, with the even `m`
when `|x|` is half-way between two multiples, and it has the sign of `x`. -/
theorem round_double_spec (x : ℚ) :
    ∃ k m : Nat, k < 2048 ∧
      round_double x = (if x < 0 then -1 else 1) * ((m : ℚ) * (2 ^ k / 2 ^ 1074)) ∧
      (k = 0 ∨ (2 : ℚ) ^ k / 2 ^ 1022 ≤ |x|) ∧
      (k = 2047 ∨ |x| < (2 : ℚ) ^ (k + 1) / 2 ^ 1022) ∧
      |(|x| - (m : ℚ) * (2 ^ k / 2 ^ 1074))| ≤ 2 ^ k / 2 ^ 1074 / 2 ∧
      (|(|x| - (m : ℚ) * (2 ^ k / 2 ^ 1074))| = 2 ^ k / 2 ^ 1074 / 2 → m % 2 = 0) :=
  round_format_spec x 1022 1074

/-! ### The single-process run with rounding -/

/-- Without rounding the iteration body is the one of exact arithmetic. -/
theorem jacobi_iteration_rounded_id (NX NY : Nat) :
    jacobi_iteration_rounded id NX NY = jacobi_iteration NX NY := rfl

theorem serial_after_rounded_id (NX NY : Nat) (mem : SolverState) (k : Nat) :
    serial_after_rounded id NX NY mem k = serial_after NX NY mem k := rfl

theorem heat_serial_rounded_id (NX NY MAX_ITER : Nat) (TOL : ℚ) (mem : SolverState) :
    heat_serial_rounded id NX NY MAX_ITER TOL mem = heat_serial NX NY MAX_ITER TOL mem := rfl

/-- The array `u_new` after the stencil loop nest with rounding. -/
theorem stencil_pass_rounded_fst (rnd : ℚ → ℚ) (NX ny : Nat) (u u_new : Grid) :
    (stencil_pass_rounded rnd NX ny u u_new).1
      = fun a b => if Interior NX ny a b then stencil_rounded rnd u a b else u_new a b := by
  unfold stencil_pass_rounded
  rw [forLoop_fst 1 (NX - 1) _
    (fun i g => forLoop 1 (ny - 1) (fun j g => setCell g i j (stencil_rounded rnd u i j)) g)
    (fun i s => forLoop_fst 1 (ny - 1) _ _ (fun j s => rfl) s)]
  rw [forLoop_setCell_nest]
  funext a b
  simp only [Interior_iff]

/-- The value `max_diff` after the stencil loop nest with rounding. -/
theorem stencil_pass_rounded_snd (rnd : ℚ → ℚ) (NX ny : Nat) (u u_new : Grid) :
    IsMaxFrom 0 (Interior NX ny) (fun i j => |rnd (stencil_rounded rnd u i j - u i j)|)
      (stencil_pass_rounded rnd NX ny u u_new).2 := by
  have h := forLoop_max_nest 1 (NX - 1) 1 (ny - 1)
    (fun i j (s : Grid × ℚ) =>
      (setCell s.1 i j (stencil_rounded rnd u i j),
        if |rnd (setCell s.1 i j (stencil_rounded rnd u i j) i j - u i j)| > s.2
        then |rnd (setCell s.1 i j (stencil_rounded rnd u i j) i j - u i j)|
        else s.2))
    (fun i j => |rnd (stencil_rounded rnd u i j - u i j)|)
    (fun i j s => by simp only [setCell_same]) (u_new, 0)
  refine IsMaxFrom.trans h (IsMaxFrom.refl _ (fun _ _ => False) _ (fun _ _ hf => hf)) ?_
  intro a b
  rw [← Interior_iff]
  simp

theorem jacobi_iteration_rounded_u (rnd : ℚ → ℚ) (NX NY : Nat) (s : SolverState) :
    (jacobi_iteration_rounded rnd NX NY s).u
      = fun a b => if Interior NX NY a b then stencil_rounded rnd s.u a b else s.u a b := by
  show copy_back NX NY s.u (stencil_pass_rounded rnd NX NY s.u s.u_new).1 = _
  rw [copy_back_eq, stencil_pass_rounded_fst]
  funext a b
  by_cases h : Interior NX NY a b
  · simp only [h, if_true]
  · simp only [h, if_false]

theorem serial_after_rounded_zero (rnd : ℚ → ℚ) (NX NY : Nat) (mem : SolverState) :
    serial_after_rounded rnd NX NY mem 0 = serial_start NX NY mem := rfl

theorem serial_after_rounded_succ (rnd : ℚ → ℚ) (NX NY : Nat) (mem : SolverState) (k : Nat) :
    serial_after_rounded rnd NX NY mem (k + 1)
      = jacobi_iteration_rounded rnd NX NY (serial_after_rounded rnd NX NY mem k) := by
  unfold serial_after_rounded
  rw [Function.iterate_succ_apply']

/-- The reflection of the first index swaps the two addends of the first addition only, so
it is a symmetry of the field whatever the rounding is. -/
theorem serial_rounded_reflect_i (rnd : ℚ → ℚ) (NX NY : Nat) (mem : SolverState) (k : Nat) :
    ∀ i j, i < NX → j < NY →
      (serial_after_rounded rnd NX NY mem k).u i j
        = (serial_after_rounded rnd NX NY mem k).u (NX - 1 - i) j := by
  induction k with
  | zero =>
    intro i j hi hj
    have hi' : NX - 1 - i < NX := by omega
    have hb : OnBoundary NX NY i j ↔ OnBoundary NX NY (NX - 1 - i) j := by
      unfold OnBoundary; omega
    rw [serial_after_rounded_zero]
    show init_grid NX NY _ i j = init_grid NX NY _ (NX - 1 - i) j
    simp only [init_grid_eq, hi, hj, hi', hb, and_self, if_true]
  | succ k ih =>
    intro i j hi hj
    have hb : Interior NX NY i j ↔ Interior NX NY (NX - 1 - i) j := by
      unfold Interior; omega
    rw [serial_after_rounded_succ, jacobi_iteration_rounded_u]
    dsimp only
    by_cases hin : Interior NX NY i j
    · rw [if_pos hin, if_pos (hb.1 hin)]
      unfold Interior at hin
      unfold stencil_rounded
      have e1 := ih (i + 1) j (by omega) hj
      have e2 := ih (i - 1) j (by omega) hj
      have e3 := ih i (j + 1) hi (by omega)
      have e4 := ih i (j - 1) hi (by omega)
      have a1 : NX - 1 - (i + 1) = NX - 1 - i - 1 := by omega
      have a2 : NX - 1 - (i - 1) = NX - 1 - i + 1 := by omega
      rw [a1] at e1
      rw [a2] at e2
      rw [e1, e2, e3, e4, add_comm ((serial_after_rounded rnd NX NY mem k).u (NX - 1 - i - 1) j)]
    · rw [if_neg hin, if_neg (fun h => hin (hb.2 h))]
      exact ih i j hi hj

/-- The single-process solver with rounding ends in the state after some number of
passes. -/
theorem heat_serial_rounded_state (rnd : ℚ → ℚ) (NX NY MAX_ITER : Nat) (TOL : ℚ)
    (mem : SolverState) :
    ∃ k, k ≤ MAX_ITER ∧
      (heat_serial_rounded rnd NX NY MAX_ITER TOL mem).state
        = serial_after_rounded rnd NX NY mem k ∧
      (heat_serial_rounded rnd NX NY MAX_ITER TOL mem).passes = k := by
  obtain ⟨k, hk, h1, h2⟩ := solver_loop_from_state TOL (jacobi_iteration_rounded rnd NX NY)
    (fun s => s.max_diff) MAX_ITER 0 0 (serial_start NX NY mem)
  exact ⟨k, hk, h1, by rw [Nat.zero_add] at h2; exact h2⟩

/-! ### Tables follow the run with rounding -/

theorem grid_of_tabulate (NX NY : Nat) (u : Grid) (i j : Nat) (hi : i < NX) (hj : j < NY) :
    grid_of (tabulate NX NY u) i j = u i j := by
  simp [grid_of, tabulate, List.getD_eq_getElem?_getD, List.getElem?_range hi,
    List.getElem?_range hj]

theorem tabulated_init (rnd : ℚ → ℚ) (NX NY : Nat) (mem : SolverState) :
    Tabulated NX NY (serial_after_rounded rnd NX NY mem 0).u (table_init NX NY) := by
  intro i j hi hj
  rw [serial_after_rounded_zero]
  show init_grid NX NY _ i j = _
  unfold table_init
  rw [grid_of_tabulate NX NY _ i j hi hj, init_grid_eq]
  simp only [hi, hj, and_self, if_true]

theorem stencil_rounded_congr (rnd : ℚ → ℚ) (NX NY : Nat) (u v : Grid)
    (h : ∀ i j, i < NX → j < NY → u i j = v i j) (i j : Nat) (hin : Interior NX NY i j) :
    stencil_rounded rnd u i j = stencil_rounded rnd v i j := by
  unfold Interior at hin
  unfold stencil_rounded
  rw [h (i + 1) j (by omega) (by omega), h (i - 1) j (by omega) (by omega),
    h i (j + 1) (by omega) (by omega), h i (j - 1) (by omega) (by omega)]

theorem tabulated_step (rnd : ℚ → ℚ) (NX NY : Nat) (s : SolverState) (t : List (List ℚ))
    (h : Tabulated NX NY s.u t) :
    Tabulated NX NY (jacobi_iteration_rounded rnd NX NY s).u (table_step rnd NX NY t) := by
  intro i j hi hj
  unfold table_step
  rw [grid_of_tabulate NX NY _ i j hi hj, jacobi_iteration_rounded_u]
  dsimp only
  by_cases hin : Interior NX NY i j
  · rw [if_pos hin, if_pos hin]
    exact stencil_rounded_congr rnd NX NY _ _ h i j hin
  · rw [if_neg hin, if_neg hin]
    exact h i j hi hj

theorem residual_tabulated (rnd : ℚ → ℚ) (NX NY : Nat) (s : SolverState)
    (t : List (List ℚ)) (h : Tabulated NX NY s.u t) :
    (jacobi_iteration_rounded rnd NX NY s).max_diff = table_residual rnd NX NY t := by
  show (stencil_pass_rounded rnd NX NY s.u s.u_new).2 = _
  unfold table_residual
  have h1 := stencil_pass_rounded_snd rnd NX NY s.u s.u_new
  have h2 := stencil_pass_rounded_snd rnd NX NY (grid_of t) (grid_of t)
  have e : ∀ i j, Interior NX NY i j →
      |rnd (stencil_rounded rnd s.u i j - s.u i j)|
        = |rnd (stencil_rounded rnd (grid_of t) i j - grid_of t i j)| := by
    intro i j hin
    rw [stencil_rounded_congr rnd NX NY _ _ h i j hin]
    unfold Interior at hin
    rw [h i j (by omega) (by omega)]
  obtain ⟨a1, b1, c1⟩ := h1
  obtain ⟨a2, b2, c2⟩ := h2
  apply le_antisymm
  · rcases c1 with hc | ⟨i, j, hp, hc⟩
    · rw [hc]; exact a2
    · rw [hc]; exact (e i j hp).le.trans (b2 i j hp)
  · rcases c2 with hc | ⟨i, j, hp, hc⟩
    · rw [hc]; exact a1
    · rw [hc]; exact (e i j hp).ge.trans (b1 i j hp)

/-- A list of tables that follows a run: the first is the initial table, each next one is
the table after one more pass. -/
theorem tables_follow_run (rnd : ℚ → ℚ) (NX NY : Nat) (mem : SolverState)
    (ts : List (List (List ℚ))) (n : Nat) (h0 : ts.getD 0 [] = table_init NX NY)
    (hs : ∀ k, k < n → table_step rnd NX NY (ts.getD k []) = ts.getD (k + 1) []) :
    ∀ k, k ≤ n → Tabulated NX NY (serial_after_rounded rnd NX NY mem k).u (ts.getD k []) := by
  intro k
  induction k with
  | zero =>
    intro _
    rw [h0]
    exact tabulated_init rnd NX NY mem
  | succ k ih =>
    intro hk
    rw [serial_after_rounded_succ, ← hs k (by omega)]
    exact tabulated_step rnd NX NY _ _ (ih (by omega))

/-- The residual of a pass is at least the change of each interior cell. -/
theorem cell_change_le_residual (rnd : ℚ → ℚ) (NX NY : Nat) (s : SolverState) (i j : Nat)
    (hin : Interior NX NY i j) :
    |rnd ((jacobi_iteration_rounded rnd NX NY s).u i j - s.u i j)|
      ≤ (jacobi_iteration_rounded rnd NX NY s).max_diff := by
  have h := (stencil_pass_rounded_snd rnd NX NY s.u s.u_new).2.1 i j hin
  rw [jacobi_iteration_rounded_u]
  dsimp only
  rw [if_pos hin]
  exact h

/-- A run of the solver loop that a list of tables follows: the loop makes as many passes
as the list has steps when the residual of the last step is the first below the tolerance. -/
theorem tables_follow_loop (rnd : ℚ → ℚ) (NX NY MAX_ITER : Nat) (TOL : ℚ)
    (mem : SolverState)
    (ts : List (List (List ℚ))) (cell : Nat → Nat × Nat) (n : Nat) (hn : 1 ≤ n)
    (hmax : n ≤ MAX_ITER)
    (h0 : ts.getD 0 [] = table_init NX NY)
    (hs : ∀ k, k < n → table_step rnd NX NY (ts.getD k []) = ts.getD (k + 1) [])
    (hc : ∀ k, k + 1 < n → Interior NX NY (cell k).1 (cell k).2 ∧
      TOL ≤ |rnd (grid_of (ts.getD (k + 1) []) (cell k).1 (cell k).2
        - grid_of (ts.getD k []) (cell k).1 (cell k).2)|)
    (hl : table_residual rnd NX NY (ts.getD (n - 1) []) < TOL) :
    (heat_serial_rounded rnd NX NY MAX_ITER TOL mem).passes = n ∧
    (heat_serial_rounded rnd NX NY MAX_ITER TOL mem).converged = true ∧
    ∀ i j, i < NX → j < NY →
      (heat_serial_rounded rnd NX NY MAX_ITER TOL mem).state.u i j
        = grid_of (ts.getD n []) i j := by
  have tab := tables_follow_run rnd NX NY mem ts n h0 hs
  have hbelow : (serial_after_rounded rnd NX NY mem n).max_diff < TOL := by
    obtain ⟨m, rfl⟩ : ∃ m, n = m + 1 := ⟨n - 1, by omega⟩
    rw [serial_after_rounded_succ, residual_tabulated rnd NX NY _ _ (tab m (by omega))]
    exact hl
  have habove : ∀ k, 1 ≤ k → k < n →
      ¬ (serial_after_rounded rnd NX NY mem k).max_diff < TOL := by
    intro k hk1 hkn
    obtain ⟨m, rfl⟩ : ∃ m, k = m + 1 := ⟨k - 1, by omega⟩
    obtain ⟨hin, hge⟩ := hc m hkn
    have hi : (cell m).1 < NX := by unfold Interior at hin; omega
    have hj : (cell m).2 < NY := by unfold Interior at hin; omega
    have h1 := cell_change_le_residual rnd NX NY (serial_after_rounded rnd NX NY mem m) _ _ hin
    rw [← serial_after_rounded_succ, tab (m + 1) (by omega) _ _ hi hj,
      tab m (by omega) _ _ hi hj] at h1
    exact not_lt.2 (le_trans hge h1)
  obtain ⟨h1, h2, h3, -⟩ := solver_loop_first_below MAX_ITER TOL
    (jacobi_iteration_rounded rnd NX NY) (fun s => s.max_diff) (serial_start NX NY mem) n hn
    hbelow habove
  rw [min_eq_right hmax] at h1 h3
  refine ⟨h1, h2.2 hmax, ?_⟩
  intro i j hi hj
  show (solver_loop MAX_ITER TOL (jacobi_iteration_rounded rnd NX NY) (fun s => s.max_diff)
    (serial_start NX NY mem)).state.u i j = _
  rw [h3]
  exact tab n (le_refl n) i j hi hj

/-! ### The runs on the `4 × 6` and the `6 × 6` grid in `double` -/

theorem four_by_six_init : four_by_six_tables.getD 0 [] = table_init 4 6 := by
  decide!

theorem four_by_six_steps : ∀ k, k < 43 →
    table_step round_double 4 6 (four_by_six_tables.getD k []) = four_by_six_tables.getD (k + 1) [] := by
  decide!

theorem four_by_six_changes : ∀ k, k < 42 →
    Interior 4 6 (four_by_six_cell k).1 (four_by_six_cell k).2 ∧
    round_double (1 / 1000000) ≤ |round_double
      (grid_of (four_by_six_tables.getD (k + 1) []) (four_by_six_cell k).1 (four_by_six_cell k).2
        - grid_of (four_by_six_tables.getD k []) (four_by_six_cell k).1 (four_by_six_cell k).2)| := by
  decide!

theorem four_by_six_last_residual :
    table_residual round_double 4 6 (four_by_six_tables.getD (43 - 1) [])
      < round_double (1 / 1000000) := by
  decide!

theorem four_by_six_last_table :
    grid_of (four_by_six_tables.getD 43 []) 1 2 = 7036874317713999 / 70368744177664 ∧
    grid_of (four_by_six_tables.getD 43 []) 1 3 = 7036874317714000 / 70368744177664 := by
  decide!

/-- The run on the `4 × 6` grid in `double` with `MAX_ITER = 1000` and `TOLERANCE = 1e-6`:
it converges in pass 43, and its final field is the last table. -/
theorem four_by_six_run :
    (heat_serial_rounded round_double 4 6 1000 (round_double (1 / 1000000)) zero_mem).passes
      = 43 ∧
    (heat_serial_rounded round_double 4 6 1000 (round_double (1 / 1000000))
      zero_mem).converged = true ∧
    ∀ i j, i < 4 → j < 6 →
      (heat_serial_rounded round_double 4 6 1000 (round_double (1 / 1000000))
        zero_mem).state.u i j = grid_of (four_by_six_tables.getD 43 []) i j :=
  tables_follow_loop round_double 4 6 1000 (round_double (1 / 1000000)) zero_mem
    four_by_six_tables four_by_six_cell 43 (by decide) (by decide) four_by_six_init four_by_six_steps
    (fun k hk => four_by_six_changes k (by omega)) four_by_six_last_residual

theorem six_by_six_init : six_by_six_tables.getD 0 [] = table_init 6 6 := by
  decide!

theorem six_by_six_steps : ∀ k, k < 82 →
    table_step round_double 6 6 (six_by_six_tables.getD k []) = six_by_six_tables.getD (k + 1) [] := by
  decide!

theorem six_by_six_changes : ∀ k, k < 81 →
    Interior 6 6 (six_by_six_cell k).1 (six_by_six_cell k).2 ∧
    round_double (1 / 1000000) ≤ |round_double
      (grid_of (six_by_six_tables.getD (k + 1) []) (six_by_six_cell k).1 (six_by_six_cell k).2
        - grid_of (six_by_six_tables.getD k []) (six_by_six_cell k).1 (six_by_six_cell k).2)| := by
  decide!

theorem six_by_six_last_residual :
    table_residual round_double 6 6 (six_by_six_tables.getD (82 - 1) [])
      < round_double (1 / 1000000) := by
  decide!

theorem six_by_six_last_table :
    grid_of (six_by_six_tables.getD 82 []) 1 2 = 7036874248761393 / 70368744177664 ∧
    grid_of (six_by_six_tables.getD 82 []) 2 1 = 7036874248761392 / 70368744177664 := by
  decide!

/-- The run on the `6 × 6` grid in `double` with `MAX_ITER = 1000` and `TOLERANCE = 1e-6`:
it converges in pass 82, and its final field is the last table. -/
theorem six_by_six_run :
    (heat_serial_rounded round_double 6 6 1000 (round_double (1 / 1000000)) zero_mem).passes
      = 82 ∧
    (heat_serial_rounded round_double 6 6 1000 (round_double (1 / 1000000))
      zero_mem).converged = true ∧
    ∀ i j, i < 6 → j < 6 →
      (heat_serial_rounded round_double 6 6 1000 (round_double (1 / 1000000))
        zero_mem).state.u i j = grid_of (six_by_six_tables.getD 82 []) i j :=
  tables_follow_loop round_double 6 6 1000 (round_double (1 / 1000000)) zero_mem
    six_by_six_tables six_by_six_cell 82 (by decide) (by decide) six_by_six_init six_by_six_steps
    (fun k hk => six_by_six_changes k (by omega)) six_by_six_last_residual

/-! ### Claims -/

/-- C1: for `1 ≤ P ≤ NY - 2` the owned half-open ranges `[start_y r, end_y r)` of the
ranks `r < P` partition the interior rows `1 .. NY - 2`: every interior row lies in the
range of exactly one rank, and every row of a range is an interior row. -/
theorem partition_covers_interior_exactly_once (NY P : Nat) (hP : 1 ≤ P) (hPN : P ≤ NY - 2) :
    (∀ g, 1 ≤ g → g ≤ NY - 2 →
      ∃! r, r < P ∧ start_y NY P r ≤ g ∧ g < end_y NY P r) ∧
    (∀ r g, r < P → start_y NY P r ≤ g → g < end_y NY P r → 1 ≤ g ∧ g ≤ NY - 2) := by
  have hL := local_ny_pos hP hPN
  constructor
  · intro g hg1 hg2
    -- the owner is `(g - 1) / local_ny`, capped at the last rank
    have hex : ∃ r, r < P ∧ start_y NY P r ≤ g ∧ g < end_y NY P r := by
      by_cases hq : (g - 1) / local_ny NY P < P - 1
      · refine ⟨(g - 1) / local_ny NY P, by omega, ?_, ?_⟩
        · have := Nat.div_mul_le_self (g - 1) (local_ny NY P)
          unfold start_y
          omega
        · have h1 : (g - 1) / local_ny NY P ≠ P - 1 := by omega
          have h2 : g - 1 < local_ny NY P * ((g - 1) / local_ny NY P + 1) :=
            Nat.lt_mul_div_succ (g - 1) hL
          simp only [end_y, h1, if_false, start_y]
          have h3 : local_ny NY P * ((g - 1) / local_ny NY P + 1)
              = (g - 1) / local_ny NY P * local_ny NY P + local_ny NY P := by ring
          omega
      · refine ⟨P - 1, by omega, ?_, ?_⟩
        · have h1 : (P - 1) * local_ny NY P ≤ (g - 1) / local_ny NY P * local_ny NY P :=
            Nat.mul_le_mul_right _ (by omega)
          have h2 := Nat.div_mul_le_self (g - 1) (local_ny NY P)
          unfold start_y
          omega
        · simp only [end_y, if_true]
          omega
    obtain ⟨r, hr, hs, he⟩ := hex
    refine ⟨r, ⟨hr, hs, he⟩, ?_⟩
    rintro r' ⟨hr', hs', he'⟩
    -- two different owners would have disjoint ranges
    rcases Nat.lt_trichotomy r' r with hlt | heq | hgt
    · exfalso
      have h1 : r' ≠ P - 1 := by omega
      have h2 : start_y NY P (r' + 1) ≤ start_y NY P r := start_y_mono (by omega)
      rw [end_y_eq_start_y_succ h1] at he'
      omega
    · exact heq
    · exfalso
      have h1 : r ≠ P - 1 := by omega
      have h2 : start_y NY P (r + 1) ≤ start_y NY P r' := start_y_mono (by omega)
      rw [end_y_eq_start_y_succ h1] at he
      omega
  · intro r g hr hs he
    have h1 := end_y_le hP hPN hr
    have h2 : 1 ≤ start_y NY P r := by unfold start_y; omega
    omega

/-- Witness for C1: 500 rows on 12 ranks (`12` does not divide `498`). -/
theorem partition_covers_interior_exactly_once_witness :
    (∀ g, 1 ≤ g → g ≤ 500 - 2 →
      ∃! r, r < 12 ∧ start_y 500 12 r ≤ g ∧ g < end_y 500 12 r) ∧
    (∀ r g, r < 12 → start_y 500 12 r ≤ g → g < end_y 500 12 r → 1 ≤ g ∧ g ≤ 500 - 2) :=
  partition_covers_interior_exactly_once 500 12 (by decide) (by decide)

/-- C2: for `1 ≤ P ≤ NY - 2` and every iteration count `k`, after `k` iterations of the
distributed loop (halo exchange, stencil pass, copy-back) the owned rows of every rank
(local columns `1 .. actual_ny-2`, global rows `start_y .. end_y-1`) hold exactly the
values that the serial loop of `heat_serial_local.c`, and the distributed loop run with a
single rank, hold in those global rows after `k` iterations. -/
theorem distributed_rows_equal_single_partition_rows (NX NY P : Nat) (hP : 1 ≤ P)
    (hPN : P ≤ NY - 2) (mem mem1 : World) (smem : SolverState) (k r i j : Nat) (hr : r < P)
    (hi : i < NX) (hj1 : 1 ≤ j) (hj2 : j ≤ actual_ny NY P r - 2) :
    (start_y NY P r ≤ start_y NY P r + j - 1 ∧ start_y NY P r + j - 1 < end_y NY P r) ∧
    (world_after NX NY P mem k r).u i j
      = (serial_after NX NY smem k).u i (start_y NY P r + j - 1) ∧
    (world_after NX NY P mem k r).u i j
      = (world_after NX NY 1 mem1 k 0).u i (start_y NY P r + j - 1) := by
  obtain ⟨f1, f2, f3, f4, -, -, -⟩ := partition_facts hP hPN hr
  have hnh : ¬ IsHalo NY P r j := by unfold IsHalo; omega
  have h1 := world_agrees NX NY P hP hPN mem smem k r i j hr hi (by omega)
  rw [if_neg hnh] at h1
  obtain ⟨g1, g2, g3⟩ := single_rank_facts (show 3 ≤ NY by omega)
  have h2 := world_agrees NX NY 1 (le_refl 1) (by omega) mem1 smem k 0 i
    (start_y NY P r + j - 1) (by omega) hi (by omega)
  rw [if_neg (g3 _), g1] at h2
  have e : 1 + (start_y NY P r + j - 1) - 1 = start_y NY P r + j - 1 := by omega
  rw [e] at h2
  exact ⟨⟨by omega, by omega⟩, h1, by rw [h1, h2]⟩

/-- Witness for C2: a `5 × 6` grid on two ranks, rank 1, local cell `(2, 1)`, after three
iterations. -/
theorem distributed_rows_equal_single_partition_rows_witness :
    (1 ≤ 2 ∧ 2 ≤ 6 - 2 ∧ 1 < 2 ∧ 2 < 5 ∧ 1 ≤ 1 ∧ 1 ≤ actual_ny 6 2 1 - 2) ∧
    (start_y 6 2 1 ≤ start_y 6 2 1 + 1 - 1 ∧ start_y 6 2 1 + 1 - 1 < end_y 6 2 1) ∧
    (world_after 5 6 2 zero_world 3 1).u 2 1
      = (serial_after 5 6 zero_mem 3).u 2 (start_y 6 2 1 + 1 - 1) ∧
    (world_after 5 6 2 zero_world 3 1).u 2 1
      = (world_after 5 6 1 zero_world 3 0).u 2 (start_y 6 2 1 + 1 - 1) :=
  ⟨by decide,
    distributed_rows_equal_single_partition_rows 5 6 2 (by decide) (by decide) zero_world
      zero_world zero_mem 3 1 2 1 (by decide) (by decide) (by decide) (by decide)⟩

/-- C3: in the distributed solver with `1 ≤ P ≤ NY - 2` ranks, every local cell of every
rank whose global coordinates lie on the physical boundary (`i = 0`, `i = NX-1`, global
row `0` or global row `NY-1`), halo rows included, holds `100` after the initialisation
(`k = 0`), after the stencil pass and copy-back of every iteration, and after the halo
exchange of every iteration. -/
theorem distributed_boundary_cells_hold_100 (NX NY P : Nat) (hP : 1 ≤ P) (hPN : P ≤ NY - 2)
    (mem : World) (k r i j : Nat) (hr : r < P) (hi : i < NX) (hj : j < actual_ny NY P r)
    (hb : i = 0 ∨ i = NX - 1 ∨ start_y NY P r + j - 1 = 0 ∨ start_y NY P r + j - 1 = NY - 1) :
    (world_after NX NY P mem k r).u i j = 100 ∧
    halo_exchange NX NY P (world_after NX NY P mem k) r i j = 100 := by
  obtain ⟨f1, f2, f3, f4, -, -, -⟩ := partition_facts hP hPN hr
  have hg : start_y NY P r + j - 1 < NY := by omega
  constructor
  · rw [world_agrees NX NY P hP hPN mem zero_mem k r i j hr hi hj]
    exact serial_boundary NX NY zero_mem _ i _ hi hg hb
  · rw [halo_exchange_agrees NX NY P hP hPN (world_after NX NY P mem k)
      (serial_after NX NY zero_mem k).u _ r i j hr hi hj]
    · exact serial_boundary NX NY zero_mem _ i _ hi hg hb
    · intro r i j hr hi hj hnh
      have := world_agrees NX NY P hP hPN mem zero_mem k r i j hr hi hj
      rwa [if_neg hnh] at this

/-- Witness for C3: a `5 × 6` grid on two ranks, the top halo cell `(0, 0)` of rank 1
after three iterations. -/
theorem distributed_boundary_cells_hold_100_witness :
    (1 ≤ 2 ∧ 2 ≤ 6 - 2 ∧ 1 < 2 ∧ 0 < 5 ∧ 0 < actual_ny 6 2 1 ∧
      (0 = 0 ∨ 0 = 5 - 1 ∨ start_y 6 2 1 + 0 - 1 = 0 ∨ start_y 6 2 1 + 0 - 1 = 6 - 1)) ∧
    (world_after 5 6 2 zero_world 3 1).u 0 0 = 100 ∧
    halo_exchange 5 6 2 (world_after 5 6 2 zero_world 3) 1 0 0 = 100 :=
  ⟨by decide,
    distributed_boundary_cells_hold_100 5 6 2 (by decide) (by decide) zero_world 3 1 0 0
      (by decide) (by decide) (by decide) (by decide)⟩

/-- C4, as the code behaves: a worker count `P > NY - 2` (with `NY ≥ 2`) is not rejected.
The value `local_ny` is `0`, every rank but the last gets the empty owned range `[1, 1)`,
the last rank owns all interior rows `[1, NY-1)`, and the solver loop runs all the same: at
least one pass when `MAX_ITER ≥ 1`. -/
theorem oversized_worker_count_still_runs (NX NY P MAX_ITER : Nat) (TOL : ℚ) (mem : World)
    (rank : Nat) (_hNY : 2 ≤ NY) (hP : NY - 2 < P) (hM : 1 ≤ MAX_ITER) :
    local_ny NY P = 0 ∧
    (∀ r, r < P - 1 → start_y NY P r = 1 ∧ end_y NY P r = 1) ∧
    (start_y NY P (P - 1) = 1 ∧ end_y NY P (P - 1) = NY - 1) ∧
    1 ≤ (heat_parallel NX NY P MAX_ITER TOL mem rank).passes := by
  have hL : local_ny NY P = 0 := Nat.div_eq_of_lt hP
  refine ⟨hL, ?_, ?_, ?_⟩
  · intro r hr
    have hne : r ≠ P - 1 := by omega
    simp [start_y, end_y, hL, hne]
  · simp [start_y, end_y, hL]
  · have := solver_loop_from_passes_ge TOL (parallel_iteration NX NY P)
      (fun w => global_max_diff P w rank) MAX_ITER 0 0 (init_world NX NY P mem)
    rw [min_eq_right hM] at this
    exact this

/-- Witness for C4 as the code behaves: three ranks on a grid with four rows. -/
theorem oversized_worker_count_still_runs_witness :
    (2 ≤ 4 ∧ 4 - 2 < 3 ∧ 1 ≤ 1000) ∧
    local_ny 4 3 = 0 ∧
    (∀ r, r < 3 - 1 → start_y 4 3 r = 1 ∧ end_y 4 3 r = 1) ∧
    (start_y 4 3 (3 - 1) = 1 ∧ end_y 4 3 (3 - 1) = 4 - 1) ∧
    1 ≤ (heat_parallel 4 4 3 1000 (1 / 1000000) zero_world 0).passes :=
  ⟨by decide,
    oversized_worker_count_still_runs 4 4 3 1000 (1 / 1000000) zero_world 0 (by decide)
      (by decide) (by decide)⟩

/-- Counterexample to C4 as stated: with `NY = 4` and `P = 3 > NY - 2` rank `0` is given
an empty owned range and the solver loop runs a pass instead of rejecting. -/
theorem oversized_worker_count_not_rejected :
    4 - 2 < 3 ∧ ¬ (start_y 4 3 0 < end_y 4 3 0) ∧
    1 ≤ (heat_parallel 4 4 3 1000 (1 / 1000000) zero_world 0).passes :=
  ⟨by decide, by decide,
    solver_loop_from_passes_ge (1 / 1000000) (parallel_iteration 4 4 3)
      (fun w => global_max_diff 3 w 0) 1000 0 0 (init_world 4 4 3 zero_world)⟩

/-- C5: in every state `w` of the ranks the value `global_max_diff` that a rank tests
against `TOLERANCE` is the maximum of the local `max_diff` values of ranks `0 .. P-1`;
it is the same on every rank, so the `break` decision is the same, and all ranks leave the
solver loop with the same `iter`, after the same number of passes, and with the same
outcome. -/
theorem global_max_diff_is_max_and_exit_is_common (NX NY P MAX_ITER : Nat) (TOL : ℚ)
    (mem w : World) (rank rank' : Nat) (hP : 1 ≤ P) :
    (∀ r, r < P → (w r).max_diff ≤ global_max_diff P w rank) ∧
    (∃ r, r < P ∧ global_max_diff P w rank = (w r).max_diff) ∧
    global_max_diff P w rank = global_max_diff P w rank' ∧
    (global_max_diff P w rank < TOL ↔ global_max_diff P w rank' < TOL) ∧
    (heat_parallel NX NY P MAX_ITER TOL mem rank).iter
      = (heat_parallel NX NY P MAX_ITER TOL mem rank').iter ∧
    (heat_parallel NX NY P MAX_ITER TOL mem rank).passes
      = (heat_parallel NX NY P MAX_ITER TOL mem rank').passes ∧
    (heat_parallel NX NY P MAX_ITER TOL mem rank).converged
      = (heat_parallel NX NY P MAX_ITER TOL mem rank').converged := by
  obtain ⟨h1, h2⟩ := MPI_Allreduce_MAX_spec P hP (fun r => (w r).max_diff) rank
  have hsame : ∀ v : World, global_max_diff P v rank = global_max_diff P v rank' :=
    fun v => rfl
  have hfun : (fun v : World => global_max_diff P v rank)
      = (fun v : World => global_max_diff P v rank') := funext hsame
  refine ⟨h1, h2, hsame w, by rw [hsame w], ?_, ?_, ?_⟩ <;>
  · unfold heat_parallel
    rw [hfun]

/-- Witness for C5: two ranks on the `5 × 6` grid, the state after one iteration. -/
theorem global_max_diff_is_max_and_exit_is_common_witness :
    (1 ≤ 2) ∧
    (∀ r, r < 2 → (world_after 5 6 2 zero_world 1 r).max_diff
      ≤ global_max_diff 2 (world_after 5 6 2 zero_world 1) 0) ∧
    (∃ r, r < 2 ∧ global_max_diff 2 (world_after 5 6 2 zero_world 1) 0
      = (world_after 5 6 2 zero_world 1 r).max_diff) ∧
    global_max_diff 2 (world_after 5 6 2 zero_world 1) 0
      = global_max_diff 2 (world_after 5 6 2 zero_world 1) 1 ∧
    (global_max_diff 2 (world_after 5 6 2 zero_world 1) 0 < 1 / 1000000 ↔
      global_max_diff 2 (world_after 5 6 2 zero_world 1) 1 < 1 / 1000000) ∧
    (heat_parallel 5 6 2 1000 (1 / 1000000) zero_world 0).iter
      = (heat_parallel 5 6 2 1000 (1 / 1000000) zero_world 1).iter ∧
    (heat_parallel 5 6 2 1000 (1 / 1000000) zero_world 0).passes
      = (heat_parallel 5 6 2 1000 (1 / 1000000) zero_world 1).passes ∧
    (heat_parallel 5 6 2 1000 (1 / 1000000) zero_world 0).converged
      = (heat_parallel 5 6 2 1000 (1 / 1000000) zero_world 1).converged :=
  ⟨by decide,
    global_max_diff_is_max_and_exit_is_common 5 6 2 1000 (1 / 1000000) zero_world
      (world_after 5 6 2 zero_world 1) 0 1 (by decide)⟩

/-- C6: one stencil pass followed by the copy-back sets every interior cell
(`1 ≤ i ≤ NX-2`, `1 ≤ j ≤ actual_ny-2`) to
`0.25 * (u[i+1][j] + u[i-1][j] + u[i][j+1] + u[i][j-1])` taken from the array as it was
before the pass, leaves all other cells unchanged, and returns as `max_diff` the greatest
`|new - old|` over the interior cells (`0` when there is none); the kernel of
`heat_gpu_openacc.c` on a flattened buffer (index `i * actual_ny + j`) yields the same
cells and the same `max_diff`. -/
theorem stencil_pass_copy_back_spec (NX ny : Nat) (u u_new : Grid) :
    (∀ i j, 1 ≤ i → i ≤ NX - 2 → 1 ≤ j → j ≤ ny - 2 →
      copy_back NX ny u (stencil_pass NX ny u u_new).1 i j
        = 0.25 * (u (i + 1) j + u (i - 1) j + u i (j + 1) + u i (j - 1))) ∧
    (∀ i j, ¬ (1 ≤ i ∧ i ≤ NX - 2 ∧ 1 ≤ j ∧ j ≤ ny - 2) →
      copy_back NX ny u (stencil_pass NX ny u u_new).1 i j = u i j) ∧
    (∀ i j, 1 ≤ i → i ≤ NX - 2 → 1 ≤ j → j ≤ ny - 2 →
      |copy_back NX ny u (stencil_pass NX ny u u_new).1 i j - u i j|
        ≤ (stencil_pass NX ny u u_new).2) ∧
    ((∃ i j, (1 ≤ i ∧ i ≤ NX - 2 ∧ 1 ≤ j ∧ j ≤ ny - 2) ∧
        (stencil_pass NX ny u u_new).2
          = |copy_back NX ny u (stencil_pass NX ny u u_new).1 i j - u i j|) ∨
      ((∀ i j, ¬ (1 ≤ i ∧ i ≤ NX - 2 ∧ 1 ≤ j ∧ j ≤ ny - 2)) ∧
        (stencil_pass NX ny u u_new).2 = 0)) ∧
    (∀ uf fn : Buffer, (∀ i j, i < NX → j < ny → uf (i * ny + j) = u i j) →
      (∀ i j, i < NX → j < ny →
        copy_back_flat NX ny uf (stencil_pass_flat NX ny uf fn).1 (i * ny + j)
          = copy_back NX ny u (stencil_pass NX ny u u_new).1 i j) ∧
      (stencil_pass_flat NX ny uf fn).2 = (stencil_pass NX ny u u_new).2) := by
  have hnew : ∀ i j, Interior NX ny i j →
      copy_back NX ny u (stencil_pass NX ny u u_new).1 i j = stencil u i j := by
    intro i j h
    rw [pass_copy_back_eq]
    simp only [h, if_true]
  obtain ⟨m0, mle, mex⟩ := stencil_pass_snd NX ny u u_new
  refine ⟨?_, ?_, ?_, ?_, ?_⟩
  · intro i j h1 h2 h3 h4
    exact hnew i j ⟨h1, h2, h3, h4⟩
  · intro i j h
    rw [pass_copy_back_eq]
    have h' : ¬ Interior NX ny i j := h
    simp only [h', if_false]
  · intro i j h1 h2 h3 h4
    rw [hnew i j ⟨h1, h2, h3, h4⟩]
    exact mle i j ⟨h1, h2, h3, h4⟩
  · by_cases hne : ∃ i j, Interior NX ny i j
    · left
      obtain ⟨i, j, hij⟩ := hne
      rcases mex with h0 | ⟨a, b, hab, h⟩
      · refine ⟨i, j, hij, ?_⟩
        rw [hnew i j hij]
        have h1 := mle i j hij
        rw [h0] at h1
        rw [h0]
        exact le_antisymm (abs_nonneg _) h1
      · exact ⟨a, b, hab, by rw [hnew a b hab]; exact h⟩
    · right
      have hall : ∀ i j, ¬ Interior NX ny i j := fun i j h => hne ⟨i, j, h⟩
      refine ⟨hall, ?_⟩
      rcases mex with h0 | ⟨a, b, hab, -⟩
      · exact h0
      · exact absurd hab (hall a b)
  · intro uf fn huf
    have hfn : Flat NX ny fn (fun i j => fn (i * ny + j)) := fun i j _ _ => rfl
    obtain ⟨s1, s2⟩ := stencil_pass_flat_sim NX ny uf fn u _ huf hfn
    have s3 := copy_back_flat_sim NX ny uf _ u _ huf s1
    constructor
    · intro i j hi hj
      rw [s3 i j hi hj, pass_copy_back_eq, pass_copy_back_eq]
    · rw [s2]
      exact stencil_pass_snd_indep NX ny u _ _

/-- C7: the solver loop of `heat_serial_local.c` and, for every rank, of `heat_parallel.c`
runs exactly `min(MAX_ITER, m)` stencil passes when pass `m` (counted from 1) is the first
whose residual (`max_diff`, resp. `global_max_diff`) is below `TOLERANCE`, and exactly
`MAX_ITER` passes when no pass up to `MAX_ITER` is below it; it never runs more than `MAX_ITER`
passes.  The loop is left through
`break` exactly when `m ≤ MAX_ITER`, so a pass that is both the `MAX_ITER`-th and the
first below the tolerance ends the run as converged; the final state is the one right
after the last pass run. -/
theorem solver_loop_runs_min_passes (NX NY P MAX_ITER : Nat) (TOL : ℚ) (mem : SolverState)
    (wmem : World) (rank : Nat) :
    ((heat_serial NX NY MAX_ITER TOL mem).passes ≤ MAX_ITER ∧
      (heat_parallel NX NY P MAX_ITER TOL wmem rank).passes ≤ MAX_ITER) ∧
    (∀ m, 1 ≤ m → (serial_after NX NY mem m).max_diff < TOL →
      (∀ k, 1 ≤ k → k < m → ¬ (serial_after NX NY mem k).max_diff < TOL) →
      (heat_serial NX NY MAX_ITER TOL mem).passes = min MAX_ITER m ∧
      ((heat_serial NX NY MAX_ITER TOL mem).converged = true ↔ m ≤ MAX_ITER) ∧
      (heat_serial NX NY MAX_ITER TOL mem).state
        = serial_after NX NY mem (min MAX_ITER m)) ∧
    ((∀ k, 1 ≤ k → k ≤ MAX_ITER → ¬ (serial_after NX NY mem k).max_diff < TOL) →
      (heat_serial NX NY MAX_ITER TOL mem).passes = MAX_ITER ∧
      (heat_serial NX NY MAX_ITER TOL mem).converged = false ∧
      (heat_serial NX NY MAX_ITER TOL mem).state = serial_after NX NY mem MAX_ITER) ∧
    (∀ m, 1 ≤ m → global_max_diff P (world_after NX NY P wmem m) rank < TOL →
      (∀ k, 1 ≤ k → k < m → ¬ global_max_diff P (world_after NX NY P wmem k) rank < TOL) →
      (heat_parallel NX NY P MAX_ITER TOL wmem rank).passes = min MAX_ITER m ∧
      ((heat_parallel NX NY P MAX_ITER TOL wmem rank).converged = true ↔ m ≤ MAX_ITER) ∧
      (heat_parallel NX NY P MAX_ITER TOL wmem rank).state
        = world_after NX NY P wmem (min MAX_ITER m)) ∧
    ((∀ k, 1 ≤ k → k ≤ MAX_ITER →
        ¬ global_max_diff P (world_after NX NY P wmem k) rank < TOL) →
      (heat_parallel NX NY P MAX_ITER TOL wmem rank).passes = MAX_ITER ∧
      (heat_parallel NX NY P MAX_ITER TOL wmem rank).converged = false ∧
      (heat_parallel NX NY P MAX_ITER TOL wmem rank).state
        = world_after NX NY P wmem MAX_ITER) := by
  refine ⟨?_, ?_, ?_, ?_, ?_⟩
  · obtain ⟨k, hk, -, h1⟩ := heat_serial_state NX NY MAX_ITER TOL mem
    obtain ⟨k', hk', -, h2⟩ := heat_parallel_state NX NY P MAX_ITER TOL wmem rank
    exact ⟨by rw [h1]; exact hk, by rw [h2]; exact hk'⟩
  · intro m hm1 hm hfirst
    obtain ⟨h1, h2, h3, -⟩ := solver_loop_first_below MAX_ITER TOL (jacobi_iteration NX NY)
      (fun s => s.max_diff) (serial_start NX NY mem) m hm1 hm hfirst
    exact ⟨h1, h2, h3⟩
  · intro h
    obtain ⟨h1, h2, h3, -⟩ := solver_loop_never_below MAX_ITER TOL (jacobi_iteration NX NY)
      (fun s => s.max_diff) (serial_start NX NY mem) h
    exact ⟨h1, h2, h3⟩
  · intro m hm1 hm hfirst
    obtain ⟨h1, h2, h3, -⟩ := solver_loop_first_below MAX_ITER TOL
      (parallel_iteration NX NY P) (fun w => global_max_diff P w rank)
      (init_world NX NY P wmem) m hm1 hm hfirst
    exact ⟨h1, h2, h3⟩
  · intro h
    obtain ⟨h1, h2, h3, -⟩ := solver_loop_never_below MAX_ITER TOL
      (parallel_iteration NX NY P) (fun w => global_max_diff P w rank)
      (init_world NX NY P wmem) h
    exact ⟨h1, h2, h3⟩

/-- Witness for C7: on the `3 × 3` grid with `MAX_ITER = 2` the second pass is the first
below the tolerance and the last allowed one; the run makes two passes and ends as
converged. -/
theorem solver_loop_runs_min_passes_witness :
    (heat_serial 3 3 2 (1 / 1000000) zero_mem).passes = min 2 2 ∧
    ((heat_serial 3 3 2 (1 / 1000000) zero_mem).converged = true ↔ 2 ≤ 2) ∧
    (heat_serial 3 3 2 (1 / 1000000) zero_mem).state = serial_after 3 3 zero_mem (min 2 2) :=
  (solver_loop_runs_min_passes 3 3 1 2 (1 / 1000000) zero_mem zero_world 0).2.1 2 (by decide)
    (by rw [three_by_three_second_pass]; norm_num)
    (fun k hk1 hk2 => by
      have hk : k = 1 := by omega
      subst hk
      rw [three_by_three_first_pass]
      norm_num)

/-- C8, restricted to grids whose cell count fits the type `int`: for `nx, ny ≥ 1` with
`nx * ny ≤ 2147483647` and every field `u`, `write_vtk_file` (when the file opens) writes
the ten header lines in the fixed order, with `DIMENSIONS nx ny 1` and `POINT_DATA nx*ny`,
followed by exactly `nx * ny` lines, where the line at position `j * nx + i` after the
header is `u[i][j]` printed by `%f` (the `Y` index varies slowest); for the `4 × 4` grid
whose cells are all `100` these are 16 lines `100.000000`.  When the file does not open,
nothing is written. -/
theorem write_vtk_file_format (nx ny : Nat) (u : Grid) (_hnx : 1 ≤ nx) (_hny : 1 ≤ ny)
    (hfit : nx * ny ≤ 2147483647) :
    (∃ lines : List String, write_vtk_file true u nx ny = some lines ∧
      lines.take 10 =
        ["# vtk DataFile Version 2.0",
         "2D Heat Equation Data",
         "ASCII",
         "DATASET STRUCTURED_POINTS",
         "DIMENSIONS " ++ toString nx ++ " " ++ toString ny ++ " 1",
         "ORIGIN 0 0 0",
         "SPACING 1 1 1",
         "POINT_DATA " ++ toString (nx * ny),
         "SCALARS temperature float 1",
         "LOOKUP_TABLE default"] ∧
      lines.length = 10 + nx * ny ∧
      ∀ i j, i < nx → j < ny → lines[10 + (j * nx + i)]? = some (fmt_f (u i j))) ∧
    write_vtk_file true (fun _ _ => 100) 4 4 =
      some (["# vtk DataFile Version 2.0",
         "2D Heat Equation Data",
         "ASCII",
         "DATASET STRUCTURED_POINTS",
         "DIMENSIONS 4 4 1",
         "ORIGIN 0 0 0",
         "SPACING 1 1 1",
         "POINT_DATA 16",
         "SCALARS temperature float 1",
         "LOOKUP_TABLE default"] ++ List.replicate 16 "100.000000") ∧
    write_vtk_file false u nx ny = none := by
  refine ⟨?_, by decide, rfl⟩
  obtain ⟨D, h1, h2, h3⟩ := write_vtk_file_lines u nx ny
  refine ⟨_, h1, ?_, ?_, ?_⟩
  · rw [List.take_left' (by rfl)]
    have hw : wrap_int ((nx * ny : Nat) : Int) = ((nx * ny : Nat) : Int) :=
      wrap_int_of_lt _ (by omega)
    have hw' : wrap_int ((nx : Int) * (ny : Int)) = ((nx * ny : Nat) : Int) := by
      rw [← hw]; push_cast; rfl
    unfold vtk_header
    rw [hw']
    rfl
  · rw [List.length_append, h2, Nat.mul_comm]
    rfl
  · intro i j hi hj
    rw [List.getElem?_append_right (by show 10 ≤ _; omega)]
    have : 10 + (j * nx + i) - (vtk_header nx ny).length = j * nx + i := by
      show 10 + (j * nx + i) - 10 = _
      omega
    rw [this]
    exact h3 i j hi hj

/-- Witness for C8 with the size restriction: the `200 × 200` grid of `heat_vtk_small.c`,
all cells zero. -/
theorem write_vtk_file_format_witness :
    (1 ≤ 200 ∧ 1 ≤ 200 ∧ 200 * 200 ≤ 2147483647) ∧
    (∃ lines : List String, write_vtk_file true (fun _ _ => 0) 200 200 = some lines ∧
      lines.take 10 =
        ["# vtk DataFile Version 2.0",
         "2D Heat Equation Data",
         "ASCII",
         "DATASET STRUCTURED_POINTS",
         "DIMENSIONS " ++ toString 200 ++ " " ++ toString 200 ++ " 1",
         "ORIGIN 0 0 0",
         "SPACING 1 1 1",
         "POINT_DATA " ++ toString (200 * 200),
         "SCALARS temperature float 1",
         "LOOKUP_TABLE default"] ∧
      lines.length = 10 + 200 * 200 ∧
      ∀ i j, i < 200 → j < 200 →
        lines[10 + (j * 200 + i)]? = some (fmt_f ((fun _ _ => 0 : Grid) i j))) ∧
    write_vtk_file true (fun _ _ => 100) 4 4 =
      some (["# vtk DataFile Version 2.0",
         "2D Heat Equation Data",
         "ASCII",
         "DATASET STRUCTURED_POINTS",
         "DIMENSIONS 4 4 1",
         "ORIGIN 0 0 0",
         "SPACING 1 1 1",
         "POINT_DATA 16",
         "SCALARS temperature float 1",
         "LOOKUP_TABLE default"] ++ List.replicate 16 "100.000000") ∧
    write_vtk_file false (fun _ _ => 0) 200 200 = none :=
  ⟨by decide, write_vtk_file_format 200 200 (fun _ _ => 0) (by decide) (by decide) (by decide)⟩

/-- Counterexample to C8 as stated (every `nx, ny ≥ 1`): for `nx = 65536`, `ny = 32768`
the file has `65536 * 32768 = 2147483648` data lines, but the `int` product in the header
wraps around and line 8 of the header reads `POINT_DATA -2147483648`. -/
theorem write_vtk_file_point_data_overflow :
    ∃ lines : List String, write_vtk_file true (fun _ _ => 0) 65536 32768 = some lines ∧
      lines.length = 10 + 2147483648 ∧
      lines[7]? = some "POINT_DATA -2147483648" ∧
      lines[7]? ≠ some ("POINT_DATA " ++ toString (65536 * 32768)) := by
  obtain ⟨D, h1, h2, -⟩ := write_vtk_file_lines (fun _ _ => 0) 65536 32768
  have h7 : (vtk_header 65536 32768 ++ D)[7]? = some "POINT_DATA -2147483648" := by
    rw [List.getElem?_append_left (by show 7 < 10; omega)]
    decide
  refine ⟨_, h1, ?_, h7, ?_⟩
  · rw [List.length_append, h2]
    rfl
  · rw [h7]
    decide

/-- C9: on the `10 × 10` grid with boundary `100`, interior `0`, tolerance `1e-3` and
`max_iter = 500` the solver loop (initialisation, stencil pass, copy-back, residual test,
in exact arithmetic) reaches a pass with residual below `1e-3` after fewer than `500`
passes and leaves through `break`; in the field it ends with, the four centre cells
`u[4][4]`, `u[4][5]`, `u[5][4]`, `u[5][5]` lie between `99` and `100`. -/
theorem ten_by_ten_run_converges (mem : SolverState) :
    (heat_serial 10 10 500 (1 / 1000) mem).converged = true ∧
    1 ≤ (heat_serial 10 10 500 (1 / 1000) mem).passes ∧
    (heat_serial 10 10 500 (1 / 1000) mem).passes < 500 ∧
    (heat_serial 10 10 500 (1 / 1000) mem).state.max_diff < 1 / 1000 ∧
    (99 ≤ (heat_serial 10 10 500 (1 / 1000) mem).state.u 4 4 ∧
      (heat_serial 10 10 500 (1 / 1000) mem).state.u 4 4 ≤ 100) ∧
    (99 ≤ (heat_serial 10 10 500 (1 / 1000) mem).state.u 4 5 ∧
      (heat_serial 10 10 500 (1 / 1000) mem).state.u 4 5 ≤ 100) ∧
    (99 ≤ (heat_serial 10 10 500 (1 / 1000) mem).state.u 5 4 ∧
      (heat_serial 10 10 500 (1 / 1000) mem).state.u 5 4 ≤ 100) ∧
    (99 ≤ (heat_serial 10 10 500 (1 / 1000) mem).state.u 5 5 ∧
      (heat_serial 10 10 500 (1 / 1000) mem).state.u 5 5 ≤ 100) := by
  obtain ⟨m, ⟨hm1, hm⟩, hfirst⟩ := exists_first
    (fun m => 1 ≤ m ∧ (serial_after 10 10 mem m).max_diff < 1 / 1000)
    ⟨300 + 1, by omega, max_diff_small mem⟩
  have hm301 : m ≤ 300 + 1 := by
    by_contra hlt
    exact hfirst (300 + 1) (by omega) ⟨by omega, max_diff_small mem⟩
  obtain ⟨h1, h2, h3, -⟩ := solver_loop_first_below 500 (1 / 1000) (jacobi_iteration 10 10)
    (fun s => s.max_diff) (serial_start 10 10 mem) m hm1 hm
    (fun k hk1 hk2 hk => hfirst k hk2 ⟨hk1, hk⟩)
  have hmin : min 500 m = m := min_eq_right (by omega)
  rw [hmin] at h1 h3
  have hstate : (heat_serial 10 10 500 (1 / 1000) mem).state = serial_after 10 10 mem m := h3
  have hpasses : (heat_serial 10 10 500 (1 / 1000) mem).passes = m := h1
  obtain ⟨k, rfl⟩ : ∃ k, m = k + 1 := ⟨m - 1, by omega⟩
  have cell : ∀ i j, i ≤ 9 → j ≤ 9 →
      99 ≤ (heat_serial 10 10 500 (1 / 1000) mem).state.u i j ∧
      (heat_serial 10 10 500 (1 / 1000) mem).state.u i j ≤ 100 := by
    intro i j hi hj
    have e1 := err_small_at_convergence mem k hm i j hi hj
    have e2 := err_nonneg mem (k + 1) i j hi hj
    rw [hstate]
    unfold err at e1 e2
    constructor <;> linarith
  refine ⟨h2.2 (by omega), by omega, by omega, ?_, cell 4 4 (by omega) (by omega),
    cell 4 5 (by omega) (by omega), cell 5 4 (by omega) (by omega),
    cell 5 5 (by omega) (by omega)⟩
  rw [hstate]
  exact hm

/-- C10, as the code behaves: for every grid size, every iteration count `k` and every
`MAX_ITER` and `TOLERANCE`, the field the solver produces from boundary `100` and
interior `0` is invariant under the reflection `u[i][j] = u[NX-1-i][j]`, whatever the
rounding `rnd` of the arithmetic is (`round_double` for the `double` of the programs, no
rounding for exact arithmetic): this reflection only swaps the two addends of the first
addition of `u[i+1][j] + u[i-1][j] + u[i][j+1] + u[i][j-1]`.  So is the final field of the
solver loop.  In exact arithmetic the field after `k` iterations and the final field are
also invariant under the reflection `u[i][j] = u[i][NY-1-j]` and, when `NX = NY`, under
transposition, `u[i][j] = u[j][i]`. -/
theorem field_symmetry_rounded_and_exact (rnd : ℚ → ℚ) (NX NY : Nat) (mem : SolverState)
    (k MAX_ITER : Nat) (TOL : ℚ) (i j : Nat) (hi : i < NX) (hj : j < NY) :
    ((serial_after_rounded rnd NX NY mem k).u i j
        = (serial_after_rounded rnd NX NY mem k).u (NX - 1 - i) j ∧
      (heat_serial_rounded rnd NX NY MAX_ITER TOL mem).state.u i j
        = (heat_serial_rounded rnd NX NY MAX_ITER TOL mem).state.u (NX - 1 - i) j) ∧
    ((serial_after NX NY mem k).u i j = (serial_after NX NY mem k).u (NX - 1 - i) j ∧
      (serial_after NX NY mem k).u i j = (serial_after NX NY mem k).u i (NY - 1 - j) ∧
      (NX = NY → (serial_after NX NY mem k).u i j = (serial_after NX NY mem k).u j i)) ∧
    ((heat_serial NX NY MAX_ITER TOL mem).state.u i j
        = (heat_serial NX NY MAX_ITER TOL mem).state.u (NX - 1 - i) j ∧
      (heat_serial NX NY MAX_ITER TOL mem).state.u i j
        = (heat_serial NX NY MAX_ITER TOL mem).state.u i (NY - 1 - j) ∧
      (NX = NY → (heat_serial NX NY MAX_ITER TOL mem).state.u i j
        = (heat_serial NX NY MAX_ITER TOL mem).state.u j i)) := by
  have all : ∀ k, (serial_after NX NY mem k).u i j = (serial_after NX NY mem k).u (NX - 1 - i) j ∧
      (serial_after NX NY mem k).u i j = (serial_after NX NY mem k).u i (NY - 1 - j) ∧
      (NX = NY → (serial_after NX NY mem k).u i j = (serial_after NX NY mem k).u j i) := by
    intro k
    refine ⟨serial_reflect_i NX NY mem k i j hi hj, serial_reflect_j NX NY mem k i j hi hj, ?_⟩
    intro h
    subst h
    exact serial_transpose NX mem k i j hi hj
  refine ⟨⟨serial_rounded_reflect_i rnd NX NY mem k i j hi hj, ?_⟩, all k, ?_⟩
  · obtain ⟨k', -, hk', -⟩ := heat_serial_rounded_state rnd NX NY MAX_ITER TOL mem
    rw [hk']
    exact serial_rounded_reflect_i rnd NX NY mem k' i j hi hj
  · obtain ⟨k', -, hk', -⟩ := heat_serial_state NX NY MAX_ITER TOL mem
    rw [hk']
    exact all k'

/-- Witness for C10 as the code behaves: cell `(1, 2)` of the `6 × 6` grid in `double` and
in exact arithmetic, after 82 iterations and at the end of the run with
`MAX_ITER = 1000`, `TOLERANCE = 1e-6`. -/
theorem field_symmetry_rounded_and_exact_witness :
    (1 < 6 ∧ 2 < 6) ∧
    ((serial_after_rounded round_double 6 6 zero_mem 82).u 1 2
        = (serial_after_rounded round_double 6 6 zero_mem 82).u (6 - 1 - 1) 2 ∧
      (heat_serial_rounded round_double 6 6 1000 (round_double (1 / 1000000)) zero_mem).state.u 1 2
        = (heat_serial_rounded round_double 6 6 1000 (round_double (1 / 1000000))
            zero_mem).state.u (6 - 1 - 1) 2) ∧
    ((serial_after 6 6 zero_mem 82).u 1 2 = (serial_after 6 6 zero_mem 82).u (6 - 1 - 1) 2 ∧
      (serial_after 6 6 zero_mem 82).u 1 2 = (serial_after 6 6 zero_mem 82).u 1 (6 - 1 - 2) ∧
      (6 = 6 → (serial_after 6 6 zero_mem 82).u 1 2 = (serial_after 6 6 zero_mem 82).u 2 1)) ∧
    ((heat_serial 6 6 1000 (round_double (1 / 1000000)) zero_mem).state.u 1 2
        = (heat_serial 6 6 1000 (round_double (1 / 1000000)) zero_mem).state.u (6 - 1 - 1) 2 ∧
      (heat_serial 6 6 1000 (round_double (1 / 1000000)) zero_mem).state.u 1 2
        = (heat_serial 6 6 1000 (round_double (1 / 1000000)) zero_mem).state.u 1 (6 - 1 - 2) ∧
      (6 = 6 → (heat_serial 6 6 1000 (round_double (1 / 1000000)) zero_mem).state.u 1 2
        = (heat_serial 6 6 1000 (round_double (1 / 1000000)) zero_mem).state.u 2 1)) :=
  ⟨by decide,
    field_symmetry_rounded_and_exact round_double 6 6 zero_mem 82 1000
      (round_double (1 / 1000000)) 1 2 (by decide) (by decide)⟩

/-- Counterexample to C10 as stated: computed in `double` the field is not invariant
under the reflection `u[i][j] = u[i][NY-1-j]` nor under transposition.  With the constants
of the programs, `MAX_ITER = 1000` and `TOLERANCE = 1e-6`, the run on the `4 × 6` grid
converges after 43 passes with `u[1][2] = 0x1.8fffffa09524fp+6` and
`u[1][3] = 0x1.8fffffa095250p+6`, and the run on the `6 × 6` grid converges after 82 passes
with `u[1][2] = 0x1.8fffff5ed3031p+6` and `u[2][1] = 0x1.8fffff5ed3030p+6`; the fractions
below have the denominator `2 ^ 46`. -/
theorem double_field_breaks_reflection_and_transposition :
    ((heat_serial_rounded round_double 4 6 1000 (round_double (1 / 1000000)) zero_mem).passes
        = 43 ∧
      (heat_serial_rounded round_double 4 6 1000 (round_double (1 / 1000000))
        zero_mem).converged = true ∧
      (heat_serial_rounded round_double 4 6 1000 (round_double (1 / 1000000)) zero_mem).state.u 1 2
        = 7036874317713999 / 70368744177664 ∧
      (heat_serial_rounded round_double 4 6 1000 (round_double (1 / 1000000))
        zero_mem).state.u 1 (6 - 1 - 2) = 7036874317714000 / 70368744177664 ∧
      (heat_serial_rounded round_double 4 6 1000 (round_double (1 / 1000000)) zero_mem).state.u 1 2
        ≠ (heat_serial_rounded round_double 4 6 1000 (round_double (1 / 1000000))
            zero_mem).state.u 1 (6 - 1 - 2)) ∧
    ((heat_serial_rounded round_double 6 6 1000 (round_double (1 / 1000000)) zero_mem).passes
        = 82 ∧
      (heat_serial_rounded round_double 6 6 1000 (round_double (1 / 1000000))
        zero_mem).converged = true ∧
      (heat_serial_rounded round_double 6 6 1000 (round_double (1 / 1000000)) zero_mem).state.u 1 2
        = 7036874248761393 / 70368744177664 ∧
      (heat_serial_rounded round_double 6 6 1000 (round_double (1 / 1000000)) zero_mem).state.u 2 1
        = 7036874248761392 / 70368744177664 ∧
      (heat_serial_rounded round_double 6 6 1000 (round_double (1 / 1000000)) zero_mem).state.u 1 2
        ≠ (heat_serial_rounded round_double 6 6 1000 (round_double (1 / 1000000))
            zero_mem).state.u 2 1) := by
  obtain ⟨p4, c4, s4⟩ := four_by_six_run
  obtain ⟨p6, c6, s6⟩ := six_by_six_run
  obtain ⟨a4, b4⟩ := four_by_six_last_table
  obtain ⟨a6, b6⟩ := six_by_six_last_table
  have e1 := (s4 1 2 (by decide) (by decide)).trans a4
  have e2 := (s4 1 (6 - 1 - 2) (by decide) (by decide)).trans b4
  have e3 := (s6 1 2 (by decide) (by decide)).trans a6
  have e4 := (s6 2 1 (by decide) (by decide)).trans b6
  refine ⟨⟨p4, c4, e1, e2, ?_⟩, p6, c6, e3, e4, ?_⟩
  · rw [e1, e2]; norm_num
  · rw [e3, e4]; norm_num

/-- C11, as the code behaves: on the configured `500 × 500` grid with boundary `100`,
interior `0`, `TOLERANCE = 1e-6` and `MAX_ITER = 1000` the solver does not converge (in
exact arithmetic).  Every one of the 1000 passes has a maximum residual of at least
`1e-6`, so the loop of the single-process programs runs all 1000 passes and ends with
`iter == MAX_ITER`, not through `break`; so do the loops of `heat_parallel.c` and
`heat_gpu_openacc.c` on every rank, for every number of ranks from `1` to `498`. -/
theorem configured_run_exhausts_iterations (mem : SolverState) (wmem : World)
    (fmem : FlatWorld) (P rank : Nat) :
    (∀ m, 1 ≤ m → m ≤ 1000 → 1 / 1000000 ≤ (serial_after 500 500 mem m).max_diff) ∧
    ((heat_serial 500 500 1000 (1 / 1000000) mem).passes = 1000 ∧
      (heat_serial 500 500 1000 (1 / 1000000) mem).converged = false ∧
      (heat_serial 500 500 1000 (1 / 1000000) mem).iter = 1000) ∧
    (1 ≤ P → P ≤ 498 →
      (heat_parallel 500 500 P 1000 (1 / 1000000) wmem rank).passes = 1000 ∧
      (heat_parallel 500 500 P 1000 (1 / 1000000) wmem rank).converged = false ∧
      (heat_parallel 500 500 P 1000 (1 / 1000000) wmem rank).iter = 1000) ∧
    (1 ≤ P → P ≤ 498 →
      (heat_gpu_openacc 500 500 P 1000 (1 / 1000000) fmem rank).passes = 1000 ∧
      (heat_gpu_openacc 500 500 P 1000 (1 / 1000000) fmem rank).converged = false ∧
      (heat_gpu_openacc 500 500 P 1000 (1 / 1000000) fmem rank).iter = 1000) := by
  refine ⟨?_, ?_, ?_, ?_⟩
  · intro m hm1 hm
    exact not_lt.1 (no_pass_below_tolerance mem m hm1 hm)
  · obtain ⟨h1, h2, -, h4⟩ := heat_serial_500_exhausts mem
    exact ⟨h1, h2, h4⟩
  · intro hP hPN
    obtain ⟨h1, h2, -, h4⟩ := heat_parallel_500_exhausts P hP hPN wmem rank
    exact ⟨h1, h2, h4⟩
  · intro hP hPN
    obtain ⟨h1, h2, -, h4⟩ := heat_gpu_openacc_500_exhausts P hP hPN fmem rank
    exact ⟨h1, h2, h4⟩

/-- Counterexample to C11 as stated: the configured run started on zeroed memory has no
pass with a residual below `1e-6` among its 1000 passes and ends as not converged. -/
theorem configured_run_does_not_converge :
    (¬ ∃ m, 1 ≤ m ∧ m ≤ 1000 ∧ (serial_after 500 500 zero_mem m).max_diff < 1 / 1000000) ∧
    (heat_serial 500 500 1000 (1 / 1000000) zero_mem).converged = false ∧
    (heat_serial 500 500 1000 (1 / 1000000) zero_mem).passes = 1000 := by
  refine ⟨?_, (heat_serial_500_exhausts zero_mem).2.1, (heat_serial_500_exhausts zero_mem).1⟩
  rintro ⟨m, hm1, hm, hlt⟩
  exact no_pass_below_tolerance zero_mem m hm1 hm hlt

/-- C12, the code at the failing input: `heat_parallel.c` as configured (`500 × 500`,
`MAX_ITER = 1000`, `TOLERANCE = 1e-6`) on four ranks runs all 1000 passes without
convergence and rank `0` prints no line about the outcome, where `heat_serial_local.c` on
the same grid prints that the maximum of iterations was reached. -/
theorem heat_parallel_prints_no_outcome :
    (heat_parallel 500 500 4 1000 (1 / 1000000) zero_world 0).converged = false ∧
    (heat_parallel 500 500 4 1000 (1 / 1000000) zero_world 0).passes = 1000 ∧
    heat_parallel_outcome 500 500 4 1000 (1 / 1000000) zero_world 0 = [] ∧
    heat_serial_local_outcome 500 500 1000 (1 / 1000000) zero_mem
      = ["Maximum iterations (1000) reached without convergence."] := by
  obtain ⟨h1, h2, -, -⟩ := heat_parallel_500_exhausts 4 (by omega) (by omega) zero_world 0
  obtain ⟨-, g2, -, g4⟩ := heat_serial_500_exhausts zero_mem
  refine ⟨h2, h1, ?_, ?_⟩
  · unfold heat_parallel_outcome
    simp only [h2, Bool.false_eq_true, false_and, if_false]
  · unfold heat_serial_local_outcome
    simp only [g2, g4, Bool.false_eq_true, if_false, if_true, List.nil_append]
    decide

/-- C13: for `1 ≤ P ≤ NY - 2`, one halo exchange of the distributed solver, applied to the
state `w` of the ranks, leaves in the top halo cell `u[i][0]` of every rank `r > 0` the
cell `u[i][actual_ny-2]` of the last owned row of rank `r - 1`, and in the bottom halo cell
`u[i][actual_ny-1]` of every rank `r < P - 1` the cell `u[i][1]` of the first owned row of
rank `r + 1`, both as they were before the exchange (`i = 0 .. NX-1`).  Every other cell is
unchanged; in particular row `0` of rank `0` and the last row of rank `P - 1` are not
written.  The exchange of `heat_gpu_openacc.c` on the flattened buffers `wf` does the same
at the indices `i * actual_ny + j`. -/
theorem halo_exchange_spec (NX NY P : Nat) (hP : 1 ≤ P) (hPN : P ≤ NY - 2) (w : World)
    (wf : FlatWorld) (r i : Nat) (hr : r < P) (hi : i < NX) :
    (0 < r → halo_exchange NX NY P w r i 0 = (w (r - 1)).u i (actual_ny NY P (r - 1) - 2)) ∧
    (r < P - 1 → halo_exchange NX NY P w r i (actual_ny NY P r - 1) = (w (r + 1)).u i 1) ∧
    (∀ a j, ¬ (0 < r ∧ j = 0 ∧ a < NX) → ¬ (r < P - 1 ∧ j = actual_ny NY P r - 1 ∧ a < NX) →
      halo_exchange NX NY P w r a j = (w r).u a j) ∧
    halo_exchange NX NY P w 0 i 0 = (w 0).u i 0 ∧
    halo_exchange NX NY P w (P - 1) i (actual_ny NY P (P - 1) - 1)
      = (w (P - 1)).u i (actual_ny NY P (P - 1) - 1) ∧
    (0 < r → halo_exchange_flat NX NY P wf r (i * actual_ny NY P r)
      = (wf (r - 1)).u (i * actual_ny NY P (r - 1) + (actual_ny NY P (r - 1) - 2))) ∧
    (r < P - 1 →
      halo_exchange_flat NX NY P wf r (i * actual_ny NY P r + (actual_ny NY P r - 1))
        = (wf (r + 1)).u (i * actual_ny NY P (r + 1) + 1)) ∧
    (∀ j, j < actual_ny NY P r → ¬ (0 < r ∧ j = 0) → ¬ (r < P - 1 ∧ j = actual_ny NY P r - 1) →
      halo_exchange_flat NX NY P wf r (i * actual_ny NY P r + j)
        = (wf r).u (i * actual_ny NY P r + j)) := by
  obtain ⟨f1, f2, f3, f4, -, -, -⟩ := partition_facts hP hPN hr
  have hflat : ∀ j, j < actual_ny NY P r →
      halo_exchange_flat NX NY P wf r (i * actual_ny NY P r + j)
        = halo_exchange NX NY P (unflatten_world NY P wf) r i j := fun j hj =>
    halo_exchange_flat_sim NX NY P wf (unflatten_world NY P wf) (fun r i j _ _ => rfl) r i j hi hj
  refine ⟨?_, ?_, ?_, ?_, ?_, ?_, ?_, ?_⟩
  · intro h0
    rw [halo_exchange_cells NX NY P hP hPN w r i 0 hr, if_pos ⟨h0, rfl, hi⟩]
  · intro h1
    rw [halo_exchange_cells NX NY P hP hPN w r i _ hr, if_neg (by omega), if_pos ⟨h1, rfl, hi⟩]
  · intro a j h0 h1
    rw [halo_exchange_cells NX NY P hP hPN w r a j hr, if_neg h0, if_neg h1]
  · rw [halo_exchange_cells NX NY P hP hPN w 0 i 0 (by omega), if_neg (by omega)]
    obtain ⟨g1, g2, g3, g4, -, -, -⟩ := partition_facts hP hPN (show 0 < P by omega)
    rw [if_neg (by omega)]
  · obtain ⟨g1, g2, g3, g4, -, -, -⟩ := partition_facts hP hPN (show P - 1 < P by omega)
    rw [halo_exchange_cells NX NY P hP hPN w (P - 1) i _ (by omega), if_neg (by omega),
      if_neg (by omega)]
  · intro h0
    have := hflat 0 (by omega)
    rw [Nat.add_zero] at this
    rw [this, halo_exchange_cells NX NY P hP hPN _ r i 0 hr, if_pos ⟨h0, rfl, hi⟩]
    rfl
  · intro h1
    rw [hflat _ (by omega), halo_exchange_cells NX NY P hP hPN _ r i _ hr, if_neg (by omega),
      if_pos ⟨h1, rfl, hi⟩]
    rfl
  · intro j hj h0 h1
    rw [hflat j hj, halo_exchange_cells NX NY P hP hPN _ r i j hr, if_neg (by omega),
      if_neg (by omega)]
    rfl

/-- Witness for C13: the `5 × 6` grid on two ranks after three iterations, rank `1`,
row index `2`. -/
theorem halo_exchange_spec_witness :
    (1 ≤ 2 ∧ 2 ≤ 6 - 2 ∧ 1 < 2 ∧ 2 < 5) ∧
    (0 < 1 → halo_exchange 5 6 2 (world_after 5 6 2 zero_world 3) 1 2 0
      = (world_after 5 6 2 zero_world 3 (1 - 1)).u 2 (actual_ny 6 2 (1 - 1) - 2)) ∧
    (1 < 2 - 1 → halo_exchange 5 6 2 (world_after 5 6 2 zero_world 3) 1 2 (actual_ny 6 2 1 - 1)
      = (world_after 5 6 2 zero_world 3 (1 + 1)).u 2 1) ∧
    (∀ a j, ¬ (0 < 1 ∧ j = 0 ∧ a < 5) → ¬ (1 < 2 - 1 ∧ j = actual_ny 6 2 1 - 1 ∧ a < 5) →
      halo_exchange 5 6 2 (world_after 5 6 2 zero_world 3) 1 a j
        = (world_after 5 6 2 zero_world 3 1).u a j) ∧
    halo_exchange 5 6 2 (world_after 5 6 2 zero_world 3) 0 2 0
      = (world_after 5 6 2 zero_world 3 0).u 2 0 ∧
    halo_exchange 5 6 2 (world_after 5 6 2 zero_world 3) (2 - 1) 2 (actual_ny 6 2 (2 - 1) - 1)
      = (world_after 5 6 2 zero_world 3 (2 - 1)).u 2 (actual_ny 6 2 (2 - 1) - 1) ∧
    (0 < 1 → halo_exchange_flat 5 6 2 zero_flat_world 1 (2 * actual_ny 6 2 1)
      = (zero_flat_world (1 - 1)).u (2 * actual_ny 6 2 (1 - 1) + (actual_ny 6 2 (1 - 1) - 2))) ∧
    (1 < 2 - 1 →
      halo_exchange_flat 5 6 2 zero_flat_world 1 (2 * actual_ny 6 2 1 + (actual_ny 6 2 1 - 1))
        = (zero_flat_world (1 + 1)).u (2 * actual_ny 6 2 (1 + 1) + 1)) ∧
    (∀ j, j < actual_ny 6 2 1 → ¬ (0 < 1 ∧ j = 0) → ¬ (1 < 2 - 1 ∧ j = actual_ny 6 2 1 - 1) →
      halo_exchange_flat 5 6 2 zero_flat_world 1 (2 * actual_ny 6 2 1 + j)
        = (zero_flat_world 1).u (2 * actual_ny 6 2 1 + j)) :=
  ⟨by decide,
    halo_exchange_spec 5 6 2 (by decide) (by decide) (world_after 5 6 2 zero_world 3)
      zero_flat_world 1 2 (by decide) (by decide)⟩

/-- C14: when the solver converges on its `m`-th stencil pass (counted from 1,
`m ≤ MAX_ITER`), the deliverable programs `heat_parallel.c`, `heat_gpu_openacc.c` (rank
`0`, with `1 ≤ P ≤ NY - 2` ranks), `heat_with_vtk.c` and `heat_vtk_small.c` print the loop
index, `Converged after m-1 iterations.`, while `heat_serial_local.c` and the other local
programs print `Converged after m iterations.`; all of them run exactly `m` passes. -/
theorem reported_iteration_counts_differ_by_one (NX NY P MAX_ITER : Nat) (TOL : ℚ)
    (mem mem1 mem2 mem3 : SolverState) (wmem : World) (fmem : FlatWorld) (m : Nat)
    (hP : 1 ≤ P) (hPN : P ≤ NY - 2) (hm1 : 1 ≤ m) (hmM : m ≤ MAX_ITER)
    (hm : (serial_after NX NY mem m).max_diff < TOL)
    (hfirst : ∀ k, 1 ≤ k → k < m → ¬ (serial_after NX NY mem k).max_diff < TOL) :
    (heat_parallel_outcome NX NY P MAX_ITER TOL wmem 0
        = ["Converged after " ++ fmt_d ((m - 1 : Nat) : Int) ++ " iterations."] ∧
      heat_gpu_openacc_outcome NX NY P MAX_ITER TOL fmem 0
        = ["GPU: Converged after " ++ fmt_d ((m - 1 : Nat) : Int) ++ " iterations."] ∧
      heat_with_vtk_outcome NX NY MAX_ITER TOL mem1
        = ["Converged after " ++ fmt_d ((m - 1 : Nat) : Int) ++ " iterations."] ∧
      heat_vtk_small_outcome NX NY MAX_ITER TOL mem2
        = ["Converged after " ++ fmt_d ((m - 1 : Nat) : Int) ++ " iterations."]) ∧
    heat_serial_local_outcome NX NY MAX_ITER TOL mem3
      = ["Converged after " ++ fmt_d (m : Int) ++ " iterations."] ∧
    ((heat_parallel NX NY P MAX_ITER TOL wmem 0).passes = m ∧
      (heat_gpu_openacc NX NY P MAX_ITER TOL fmem 0).passes = m ∧
      (heat_serial NX NY MAX_ITER TOL mem1).passes = m ∧
      (heat_serial NX NY MAX_ITER TOL mem2).passes = m ∧
      (heat_serial NX NY MAX_ITER TOL mem3).passes = m) := by
  obtain ⟨p1, p2, p3⟩ := heat_parallel_converges_at NX NY P MAX_ITER TOL hP hPN mem wmem 0 m
    hm1 hmM hm hfirst
  obtain ⟨g1, g2, g3⟩ := heat_gpu_openacc_converges_at NX NY P MAX_ITER TOL hP hPN mem fmem 0 m
    hm1 hmM hm hfirst
  obtain ⟨a1, a2, a3⟩ := heat_serial_converges_at NX NY MAX_ITER TOL mem mem1 m hm1 hmM hm hfirst
  obtain ⟨b1, b2, b3⟩ := heat_serial_converges_at NX NY MAX_ITER TOL mem mem2 m hm1 hmM hm hfirst
  obtain ⟨c1, c2, c3⟩ := heat_serial_converges_at NX NY MAX_ITER TOL mem mem3 m hm1 hmM hm hfirst
  have hne : ¬ (m - 1 = MAX_ITER) := by omega
  refine ⟨⟨?_, ?_, ?_, ?_⟩, ?_, p1, g1, a1, b1, c1⟩
  · unfold heat_parallel_outcome
    simp only [p2, p3, and_self, if_true]
  · unfold heat_gpu_openacc_outcome
    simp only [g2, g3, and_self, if_true]
  · unfold heat_with_vtk_outcome
    simp only [a2, a3, if_true]
  · unfold heat_vtk_small_outcome
    simp only [b2, b3, hne, if_true, if_false, List.append_nil]
  · unfold heat_serial_local_outcome
    simp only [c2, c3, hne, if_true, if_false, List.append_nil]
    rw [fmt_d_succ_pred m hm1]

/-- Witness for C14: on the `3 × 3` grid the second pass is the first below `1e-6`; the
deliverables report `1` iteration and the local programs `2`, after two passes each. -/
theorem reported_iteration_counts_differ_by_one_witness :
    ("Converged after " ++ fmt_d ((2 - 1 : Nat) : Int) ++ " iterations."
        = "Converged after 1 iterations." ∧
      "Converged after " ++ fmt_d (2 : Int) ++ " iterations."
        = "Converged after 2 iterations.") ∧
    (heat_parallel_outcome 3 3 1 1000 (1 / 1000000) zero_world 0
        = ["Converged after " ++ fmt_d ((2 - 1 : Nat) : Int) ++ " iterations."] ∧
      heat_gpu_openacc_outcome 3 3 1 1000 (1 / 1000000) zero_flat_world 0
        = ["GPU: Converged after " ++ fmt_d ((2 - 1 : Nat) : Int) ++ " iterations."] ∧
      heat_with_vtk_outcome 3 3 1000 (1 / 1000000) zero_mem
        = ["Converged after " ++ fmt_d ((2 - 1 : Nat) : Int) ++ " iterations."] ∧
      heat_vtk_small_outcome 3 3 1000 (1 / 1000000) zero_mem
        = ["Converged after " ++ fmt_d ((2 - 1 : Nat) : Int) ++ " iterations."]) ∧
    heat_serial_local_outcome 3 3 1000 (1 / 1000000) zero_mem
      = ["Converged after " ++ fmt_d (2 : Int) ++ " iterations."] ∧
    ((heat_parallel 3 3 1 1000 (1 / 1000000) zero_world 0).passes = 2 ∧
      (heat_gpu_openacc 3 3 1 1000 (1 / 1000000) zero_flat_world 0).passes = 2 ∧
      (heat_serial 3 3 1000 (1 / 1000000) zero_mem).passes = 2 ∧
      (heat_serial 3 3 1000 (1 / 1000000) zero_mem).passes = 2 ∧
      (heat_serial 3 3 1000 (1 / 1000000) zero_mem).passes = 2) :=
  ⟨by decide,
    reported_iteration_counts_differ_by_one 3 3 1 1000 (1 / 1000000) zero_mem zero_mem zero_mem
      zero_mem zero_world zero_flat_world 2 (by decide) (by decide) (by decide) (by decide)
      (by rw [three_by_three_second_pass]; norm_num)
      (fun k hk1 hk2 => by
        have hk : k = 1 := by omega
        subst hk
        rw [three_by_three_first_pass]
        norm_num)⟩

/-- C15: in exact arithmetic, for every grid size and every iteration count `k`, every
cell of the field that the Jacobi loop produces from boundary `100` and interior `0` lies
in `[0, 100]`, and its value after pass `k + 1` is at least its value after pass `k`; so
the residual `|new - old|` of every cell is `new - old` and at most `100`, and so is
`max_diff`.  The same holds for every local cell of every rank of `heat_parallel.c` with
`1 ≤ P ≤ NY - 2` ranks. -/
theorem field_bounded_and_monotone (NX NY : Nat) (mem : SolverState) (k i j : Nat)
    (hi : i < NX) (hj : j < NY) :
    (0 ≤ (serial_after NX NY mem k).u i j ∧ (serial_after NX NY mem k).u i j ≤ 100) ∧
    (serial_after NX NY mem k).u i j ≤ (serial_after NX NY mem (k + 1)).u i j ∧
    |(serial_after NX NY mem (k + 1)).u i j - (serial_after NX NY mem k).u i j|
      = (serial_after NX NY mem (k + 1)).u i j - (serial_after NX NY mem k).u i j ∧
    (serial_after NX NY mem (k + 1)).u i j - (serial_after NX NY mem k).u i j ≤ 100 ∧
    (0 ≤ (serial_after NX NY mem (k + 1)).max_diff ∧
      (serial_after NX NY mem (k + 1)).max_diff ≤ 100) ∧
    (∀ (P : Nat) (wmem : World) (r a b : Nat), 1 ≤ P → P ≤ NY - 2 → r < P → a < NX →
      b < actual_ny NY P r →
      (0 ≤ (world_after NX NY P wmem k r).u a b ∧ (world_after NX NY P wmem k r).u a b ≤ 100) ∧
      (world_after NX NY P wmem k r).u a b ≤ (world_after NX NY P wmem (k + 1) r).u a b) := by
  have hr := serial_range NX NY mem k i j hi hj
  have hr1 := serial_range NX NY mem (k + 1) i j hi hj
  have hc := change_nonneg NX NY mem k i j hi hj
  unfold change at hc
  have hmd : 0 ≤ (serial_after NX NY mem (k + 1)).max_diff ∧
      (serial_after NX NY mem (k + 1)).max_diff ≤ 100 := by
    obtain ⟨h0, -, h3⟩ := serial_max_diff_isMax NX NY mem k
    refine ⟨h0, ?_⟩
    rcases h3 with h | ⟨a, b, hin, h⟩
    · rw [h]; norm_num
    · unfold Interior at hin
      have ha : a < NX := by omega
      have hb : b < NY := by omega
      have c0 := change_nonneg NX NY mem k a b ha hb
      have r0 := serial_range NX NY mem k a b ha hb
      have r1 := serial_range NX NY mem (k + 1) a b ha hb
      rw [h]
      show |change NX NY mem k a b| ≤ 100
      rw [abs_of_nonneg c0]
      unfold change
      linarith [r0.1, r1.2]
  refine ⟨hr, by linarith, abs_of_nonneg hc, by linarith [hr.1, hr1.2], hmd, ?_⟩
  intro P wmem r a b hP hPN hrP ha hb
  obtain ⟨f1, f2, f3, f4, -, -, -⟩ := partition_facts hP hPN hrP
  have hg : start_y NY P r + b - 1 < NY := by omega
  rw [world_agrees NX NY P hP hPN wmem mem k r a b hrP ha hb,
    world_agrees NX NY P hP hPN wmem mem (k + 1) r a b hrP ha hb]
  refine ⟨serial_range NX NY mem _ a _ ha hg, ?_⟩
  by_cases hh : IsHalo NY P r b
  · rw [if_pos hh, if_pos hh]
    cases k with
    | zero => exact le_refl _
    | succ k =>
      have := change_nonneg NX NY mem k a _ ha hg
      unfold change at this
      show (serial_after NX NY mem k).u a _ ≤ (serial_after NX NY mem (k + 1)).u a _
      linarith
  · rw [if_neg hh, if_neg hh]
    have := change_nonneg NX NY mem k a _ ha hg
    unfold change at this
    linarith

/-- Witness for C15: cell `(1, 2)` of the `10 × 10` grid after seven passes. -/
theorem field_bounded_and_monotone_witness :
    (1 < 10 ∧ 2 < 10) ∧
    (0 ≤ (serial_after 10 10 zero_mem 7).u 1 2 ∧ (serial_after 10 10 zero_mem 7).u 1 2 ≤ 100) ∧
    (serial_after 10 10 zero_mem 7).u 1 2 ≤ (serial_after 10 10 zero_mem (7 + 1)).u 1 2 ∧
    |(serial_after 10 10 zero_mem (7 + 1)).u 1 2 - (serial_after 10 10 zero_mem 7).u 1 2|
      = (serial_after 10 10 zero_mem (7 + 1)).u 1 2 - (serial_after 10 10 zero_mem 7).u 1 2 ∧
    (serial_after 10 10 zero_mem (7 + 1)).u 1 2 - (serial_after 10 10 zero_mem 7).u 1 2 ≤ 100 ∧
    (0 ≤ (serial_after 10 10 zero_mem (7 + 1)).max_diff ∧
      (serial_after 10 10 zero_mem (7 + 1)).max_diff ≤ 100) ∧
    (∀ (P : Nat) (wmem : World) (r a b : Nat), 1 ≤ P → P ≤ 10 - 2 → r < P → a < 10 →
      b < actual_ny 10 P r →
      (0 ≤ (world_after 10 10 P wmem 7 r).u a b ∧ (world_after 10 10 P wmem 7 r).u a b ≤ 100) ∧
      (world_after 10 10 P wmem 7 r).u a b ≤ (world_after 10 10 P wmem (7 + 1) r).u a b) :=
  ⟨by decide, field_bounded_and_monotone 10 10 zero_mem 7 1 2 (by decide) (by decide)⟩

end Heat
